import Mathlib

/-!
errortype: decision resolver and usage verifier.

A shallow embedding of the parts of `fillmore-labs.com/errortype` that decide
whether an error type is a pointer type or a value type
(`internal/detect/errorproperty.go`), that check every usage site against
that decision (`internal/analyze`), that pass decisions on as facts, results
and alias properties (`internal/detect`), and that turn the observed usage into
suggestions and write and read the override file (`main.go`,
`internal/overrides`, `internal/typeutil`), and of the helpers around them:
the heuristics option, override processing, receiver kinds, the error result
of a function, the return statements of a body and the registry of functions
like errors.As.

Conventions of the embedding:

* Go bit masks (`ErrorProperty` is an `int32`, `Usage` a `byte`) are natural
  numbers holding the bit pattern; only `&` and `|` are applied to them, so no
  arithmetic can overflow.
* A `*types.TypeName` is a record of its name, package and declaring scope; two
  type names are the same object iff the records are equal, and maps keyed by
  the pointer are association lists keyed by the record.
* What the type checker answers (`info.Types`, `info.Uses`, `info.Selections`,
  scope and method lookup) is an input of the model; `handleErrorsAs` takes the
  result of `typeutil.IsErrorAs` as an input as well.
* Library functions (`strings.FieldsFunc`, `strings.TrimSpace`,
  `Cursor.Inspect`, `FieldList.NumFields`) follow their documented behaviour.
* Calls on a reporter and emitted diagnostics are collected in lists, in the
  order in which the code makes them.
* Go leaves the order of a map iteration open: an iteration over a map runs in
  the order of its association list, and where the order shows in the output
  (`overrides.Read`) it is a parameter.
* Strings are sequences of code points; the YAML library is the map of
  `MarshalText` and `UnmarshalText` over the four lists of the override file.
-/

namespace Errortype

/-! ## `internal/errortypes` -/

namespace errortypes

/-- ErrorType represents a detected usage type of an error
(`Undecided = iota`, `PointerType`, `ValueType`, `SuppressType`). -/
inductive ErrorType where
  | Undecided
  | PointerType
  | ValueType
  | SuppressType
  deriving DecidableEq, Repr

end errortypes

open errortypes (ErrorType)

/-! ## `internal/detect/errorproperty.go` -/

namespace detect

/-- ErrorProperty is the bit mask of evidence collected for one type. -/
abbrev ErrorProperty := Nat

/-- Bit 0, `1 << iota`. -/
def PointerReceiver : ErrorProperty := 1 <<< 0
def SuppressOverride : ErrorProperty := 1 <<< 1
def PointerOverride : ErrorProperty := 1 <<< 2
def ValueOverride : ErrorProperty := 1 <<< 3
def PointerVar : ErrorProperty := 1 <<< 4
def ValueVar : ErrorProperty := 1 <<< 5
def PointerAlias : ErrorProperty := 1 <<< 6
def ValueAlias : ErrorProperty := 1 <<< 7
def PointerReturn : ErrorProperty := 1 <<< 8
def ValueReturn : ErrorProperty := 1 <<< 9
def PointerAssert : ErrorProperty := 1 <<< 10
def ValueAssert : ErrorProperty := 1 <<< 11
def PointerTarget : ErrorProperty := 1 <<< 12
def ValueTarget : ErrorProperty := 1 <<< 13
def PointerLiteral : ErrorProperty := 1 <<< 14
def ValueLiteral : ErrorProperty := 1 <<< 15
def PointerCast : ErrorProperty := 1 <<< 16
def ValueCast : ErrorProperty := 1 <<< 17
def PointerReceivers : ErrorProperty := 1 <<< 18
def ValueReceivers : ErrorProperty := 1 <<< 19
def PointerDef : ErrorProperty := 1 <<< 20
def NonStruct : ErrorProperty := 1 <<< 21

/-- None: no evidence at all. -/
def None : ErrorProperty := 0

/-- OverrideMask identifies any override property. -/
def OverrideMask : ErrorProperty := PointerOverride ||| ValueOverride ||| SuppressOverride

/-- The categories of evidence, ordered by precedence; each entry is
(pointer flag, value flag). -/
def propertyPairs : List (ErrorProperty × ErrorProperty) :=
  [ (PointerOverride, ValueOverride),
    (PointerVar, ValueVar),
    (PointerAlias, ValueAlias),
    (PointerReturn, ValueReturn),
    (PointerAssert, ValueAssert),
    (PointerTarget, ValueTarget),
    (PointerLiteral, ValueLiteral),
    (PointerCast, ValueCast),
    (PointerReceivers, ValueReceivers) ]

/-- The `for _, pair := range propertyPairs` loop of `DeterminedType`: the
`switch e & (pointerProp | valueProp)` returns at the first pair whose masked
value is exactly the pointer flag or exactly the value flag; `none` means the
loop ran to its end without returning. -/
def pairLoop (e : ErrorProperty) : List (ErrorProperty × ErrorProperty) → Option ErrorType
  | [] => none
  | (pointerProp, valueProp) :: rest =>
    if e &&& (pointerProp ||| valueProp) = pointerProp then some ErrorType.PointerType
    else if e &&& (pointerProp ||| valueProp) = valueProp then some ErrorType.ValueType
    else pairLoop e rest

/-- DeterminedType checks whether the collected properties determine the
usage of the type. -/
def DeterminedType (e : ErrorProperty) : ErrorType :=
  if e &&& SuppressOverride ≠ 0 then ErrorType.SuppressType
  else if e &&& PointerReceiver ≠ 0 then ErrorType.PointerType
  else
    match pairLoop e propertyPairs with
    | some t => t
    | none =>
      if e &&& PointerDef ≠ 0 then ErrorType.ValueType
      else ErrorType.Undecided


/-! ### Vocabulary used to state properties of the resolver -/

/-- The flag test of the source, `e&flag != 0`. -/
@[reducible] def isSet (e flag : ErrorProperty) : Prop := e &&& flag ≠ 0

/-- Exactly one of the two flags of a category pair is set in `e`
(pointer xor value). -/
@[reducible] def exactlyOne (e : ErrorProperty) (pair : ErrorProperty × ErrorProperty) : Prop :=
  (isSet e pair.1 ∧ ¬ isSet e pair.2) ∨ (¬ isSet e pair.1 ∧ isSet e pair.2)

/-- Go's bit clear `e &^ mask`: the bits of `mask` are cleared in `e`. -/
def clearFlags (e mask : ErrorProperty) : ErrorProperty := e ^^^ (e &&& mask)

/-- Bit positions of the entries of `propertyPairs`. -/
def pairBits : List (Nat × Nat) :=
  [(2, 3), (4, 5), (6, 7), (8, 9), (10, 11), (12, 13), (14, 15), (16, 17), (18, 19)]

/-- The pair loop read on the bits of the mask: `b i` is bit `i`. -/
def bitsLoop (b : Nat → Bool) : List (Nat × Nat) → Option ErrorType
  | [] => none
  | (i, j) :: rest =>
    if b i = true ∧ b j = false then some ErrorType.PointerType
    else if b i = false ∧ b j = true then some ErrorType.ValueType
    else bitsLoop b rest

/-- The resolver read on the bits of the mask. -/
def bitsDeterminedType (b : Nat → Bool) : ErrorType :=
  if b 1 = true then ErrorType.SuppressType
  else if b 0 = true then ErrorType.PointerType
  else
    match bitsLoop b pairBits with
    | some t => t
    | none => if b 20 = true then ErrorType.ValueType else ErrorType.Undecided

end detect

/-! ## `go/types` and `go/ast`, as far as the analyzer looks at them -/

namespace types

/-- Package: a `*types.Package`; `Scope` identifies its package scope. -/
structure Package where
  Path : String
  Name : String
  Scope : Nat
  deriving DecidableEq, Repr

/-- TypeName: a `*types.TypeName`, the object of a declared type. `Parent`
identifies the scope the name is declared in, `Pkg` is `none` for objects of
the universe. Two type names are the same object iff the records are equal. -/
structure TypeName where
  Name : String
  Pkg : Option Package
  Parent : Nat
  deriving DecidableEq, Repr

/-- BasicKind: the kinds of basic types the analyzer distinguishes. -/
inductive BasicKind where
  | Bool
  | Int
  | String
  | UntypedNil
  | OtherKind
  deriving DecidableEq, Repr

/-- GoType: a `types.Type`, by its dynamic type. -/
inductive GoType where
  | Basic (kind : BasicKind)
  | Named (obj : TypeName) (underlying : GoType)
  | Alias (obj : TypeName) (actual : GoType)
  | Pointer (elem : GoType)
  | Interface
  | Struct
  | TypeParam (obj : TypeName)
  | Other
  deriving DecidableEq, Repr

/-- Underlying: `t.Underlying()`; a named type and an alias resolve to the
underlying type of what they stand for, a type parameter to its constraint
interface. -/
def GoType.Underlying : GoType → GoType
  | .Named _ u => u.Underlying
  | .Alias _ a => a.Underlying
  | .TypeParam _ => .Interface
  | t => t

/-- IsInterface: `types.IsInterface(t)`, the underlying type is an interface. -/
def IsInterface (t : GoType) : Bool :=
  match t.Underlying with
  | .Interface => true
  | _ => false

/-- Unalias: `types.Unalias`, the type an alias chain stands for. -/
def Unalias : GoType → GoType
  | .Alias _ a => Unalias a
  | t => t

/-- Signature: a `*types.Signature`, by receiver, parameter and result types. -/
structure Signature where
  Recv : Option GoType
  Params : List GoType
  Results : List GoType
  deriving DecidableEq, Repr

/-- Func: a `*types.Func`. -/
structure Func where
  Name : String
  Pkg : Option Package
  Sig : Signature
  deriving DecidableEq, Repr

/-- Object: a `types.Object`, as far as its dynamic type is looked at: what a
lookup of a field or method finds, or what a fact is attached to. -/
inductive Object where
  | Func (f : Func)
  | Var
  | TypeName (tn : TypeName)
  deriving DecidableEq, Repr

/-- TypeAndValue: what `info.Types` records for an expression; an expression
without an entry has the zero value, `IsValue = false` and no type. -/
structure TypeAndValue where
  IsValue : Bool
  Typ : Option GoType
  deriving DecidableEq, Repr

/-- Universe: the identity of the universe scope. -/
def Universe : Nat := 0

/-- The scope of a possibly nil package, `pkg.Scope()`: for a nil receiver the
method returns the universe scope. -/
def scopeOf : Option Package → Nat
  | some pkg => pkg.Scope
  | none => Universe

end types

namespace token

/-- Token: the operators the analyzer distinguishes. -/
inductive Token where
  | AND
  | MUL
  | OTHER
  deriving DecidableEq, Repr

end token

namespace ast

/-- Expr: an `ast.Expr`, by its dynamic type. -/
inductive Expr where
  | Ident (Name : String)
  | SelectorExpr (X : Expr) (Sel : String)
  | IndexExpr (X : Expr) (Index : Expr)
  | ParenExpr (X : Expr)
  | StarExpr (X : Expr)
  | UnaryExpr (Op : token.Token) (X : Expr)
  | CompositeLit (Typ : Expr)
  | Other (id : Nat)
  deriving DecidableEq, Repr

/-- CallExpr: an `*ast.CallExpr`. -/
structure CallExpr where
  Fun : Expr
  Args : List Expr
  deriving DecidableEq, Repr

/-- Unparen: `ast.Unparen`, strips all enclosing parentheses. -/
def Unparen : Expr → Expr
  | .ParenExpr x => Unparen x
  | e => e

end ast

/-! ## `internal/errortypes/propertymap.go` -/

namespace errortypes

/-- PropertyMap stores the property bits of each type name; the Go map keyed by
`*types.TypeName` is an association list. -/
abbrev PropertyMap := List (types.TypeName × Nat)

/-- NewPropertyMap creates an empty map. -/
def NewPropertyMap : PropertyMap := []

/-- GetTypeProperty: `old, ok := p[tn]`; an absent key gives the zero value. -/
def PropertyMap.GetTypeProperty : PropertyMap → types.TypeName → Nat × Bool
  | [], _ => (0, false)
  | (k, v) :: rest, tn => if k = tn then (v, true) else GetTypeProperty rest tn

/-- SetTypeProperty: `p[tn] = property`, overwriting an existing entry. -/
def PropertyMap.SetTypeProperty : PropertyMap → types.TypeName → Nat → PropertyMap
  | [], tn, property => [(tn, property)]
  | (k, v) :: rest, tn, property =>
    if k = tn then (tn, property) :: rest else (k, v) :: SetTypeProperty rest tn property

/-- AddTypeProperty ORs `newProperty` into the entry of `tn` when the entry is
absent or shares no bit with it, and returns the previous property. -/
def PropertyMap.AddTypeProperty (p : PropertyMap) (tn : types.TypeName) (newProperty : Nat) :
    PropertyMap × Nat :=
  let (old, ok) := p.GetTypeProperty tn
  if !ok || old &&& newProperty == 0 then
    (p.SetTypeProperty tn (old ||| newProperty), old)
  else
    (p, old)

end errortypes

/-! ## `internal/typeutil/typeutil.go` -/

namespace typeutil

open types in
/-- The `handlePointer` helper of `TypeNameOf`. -/
def handlePointer (elem : GoType) : Option TypeName × Bool × Bool :=
  match elem with
  | .Named obj _ => (some obj, true, true)
  | .Alias obj _ => (some obj, true, true)
  | _ => (none, true, false)

open types in
/-- TypeNameOf returns `(tn, isPtr, ok)`: the type name of a named type or of a
pointer to one. -/
def TypeNameOf (t : GoType) : Option TypeName × Bool × Bool :=
  match t with
  | .Named obj _ => (some obj, false, true)
  | .Alias obj _ => (some obj, false, true)
  | .Pointer elem => handlePointer elem
  | _ => (none, false, false)

open types in
/-- HasErrorSig checks whether a signature is `func() string`. -/
def HasErrorSig (sig : Signature) : Bool :=
  if sig.Params.length > 0 || sig.Results.length != 1 then false
  else
    match sig.Results.head? with
    | some restype =>
      match Unalias restype with
      | .Basic kind => if kind != BasicKind.String then false else true
      | _ => false
    | none => false

open types in
/-- HasErrorMethod checks whether a type has a method `Error() string`;
`lookup` is `types.LookupFieldOrMethod(typ, false, nil, name)`. -/
def HasErrorMethod (lookup : GoType → String → Option Object) (typ : GoType) : Bool :=
  match lookup typ "Error" with
  | none => false
  | some (.Func f) => if !HasErrorSig f.Sig then false else true
  | some _ => false

end typeutil

/-! ## `internal/analyze` -/

namespace analyze

open types ast errortypes

/-- Usage holds the expected and observed usage of an error type (a `byte`). -/
abbrev Usage := Nat

def PointerExpected : Usage := 1 <<< 0
def ValueExpected : Usage := 1 <<< 1
def SuppressExpected : Usage := 1 <<< 2
def PointerObserved : Usage := 1 <<< 3
def ValueObserved : Usage := 1 <<< 4

/-- None: neither expectation nor observation. -/
def None : Usage := 0

/-- ExpectedMask selects the ...Expected bits. -/
def ExpectedMask : Usage := PointerExpected ||| ValueExpected ||| SuppressExpected

/-- ObservedMask selects the ...Observed bits. -/
def ObservedMask : Usage := PointerObserved ||| ValueObserved

/-- Info: what the type checker answers: the `Types` map of `*types.Info`, and
`types.LookupFieldOrMethod(typ, false, nil, name)`, the field or method `name`
of `typ` (`none` when there is none, also when a method with that name needs a
pointer receiver that `typ` does not provide). -/
structure Info where
  Types : Expr → TypeAndValue
  LookupFieldOrMethod : GoType → String → Option Object

/-- The pass of the verifier: the analysis pass (type information and package)
and the usage map. -/
structure pass where
  TypesInfo : Info
  Pkg : Package
  errorUsages : PropertyMap

/-- newPass wraps an analysis pass with an empty usage map. -/
def newPass (info : Info) (pkg : Package) : pass :=
  { TypesInfo := info, Pkg := pkg, errorUsages := NewPropertyMap }

/-- ResultInfo: one detected type of the prerequisite analyzer
(`detect.ResultInfo`). -/
structure ResultInfo where
  TypeName : TypeName
  ErrorType : ErrorType
  deriving DecidableEq, Repr

/-- processDetectedTypes fills the usage map from the detected types; an entry
that is Undecided is skipped. -/
def processDetectedTypes (p : pass) : List ResultInfo → pass
  | [] => p
  | detectedType :: rest =>
    match detectedType.ErrorType with
    | .PointerType =>
      processDetectedTypes
        { p with errorUsages := p.errorUsages.SetTypeProperty detectedType.TypeName PointerExpected }
        rest
    | .ValueType =>
      processDetectedTypes
        { p with errorUsages := p.errorUsages.SetTypeProperty detectedType.TypeName ValueExpected }
        rest
    | .SuppressType =>
      processDetectedTypes
        { p with errorUsages := p.errorUsages.SetTypeProperty detectedType.TypeName SuppressExpected }
        rest
    | .Undecided => processDetectedTypes p rest

/-- ReporterCall: one call on a `UsageReporter`. -/
inductive ReporterCall where
  | ShouldBeValue (tn : TypeName)
  | ShouldBePointer (tn : TypeName)
  | UndeterminedUsage (tn : TypeName) (isPtr : Bool)
  deriving DecidableEq, Repr

/-- The type name a reporter call is about. -/
def ReporterCall.typeName : ReporterCall → TypeName
  | .ShouldBeValue tn => tn
  | .ShouldBePointer tn => tn
  | .UndeterminedUsage tn _ => tn

/-- Checked: what a step of the verifier leaves behind: the pass with its
updated usage map, the reporter calls made, in order, and whether the step
panicked. -/
structure Checked where
  pass : pass
  calls : List ReporterCall
  panicked : Bool

/-- recordAndLookup records the observed shape and returns the previous usage
masked by `ExpectedMask`. -/
def recordAndLookup (p : pass) (tn : TypeName) (isPtr : Bool) : pass × Usage :=
  let et := if isPtr then PointerObserved else ValueObserved
  let (m, old) := p.errorUsages.AddTypeProperty tn et
  ({ p with errorUsages := m }, old &&& ExpectedMask)

/-- checkErrorUsage compares the shape of one usage site of type `t` with the
expected usage of its type name. -/
def checkErrorUsage (p : pass) (t : GoType) : Checked :=
  if IsInterface t then ⟨p, [], false⟩
  else
    match typeutil.TypeNameOf t with
    | (_, _, false) => ⟨p, [], false⟩
    | (none, _, true) => ⟨p, [], true⟩
    | (some tn, isPtr, true) =>
      if tn.Parent ≠ scopeOf tn.Pkg then ⟨p, [], false⟩
      else
        let (p', usage) := recordAndLookup p tn isPtr
        if usage = PointerExpected then
          ⟨p', if !isPtr then [ReporterCall.ShouldBePointer tn] else [], false⟩
        else if usage = ValueExpected then
          ⟨p', if isPtr then [ReporterCall.ShouldBeValue tn] else [], false⟩
        else if usage = SuppressExpected then ⟨p', [], false⟩
        else if usage = None then ⟨p', [ReporterCall.UndeterminedUsage tn isPtr], false⟩
        else ⟨p', [], true⟩

/-! ### `internal/analyze/report` and `handle_errorsas.go` -/

namespace report

/-- Tag: the `(et:...)` marker that ends the message of a diagnostic; `xxx` is
the category of an internal error. -/
inductive Tag where
  | arg
  | sty
  | err
  | errPlus
  | ast
  | astPlus
  | emb
  | embPlus
  | xxx
  deriving DecidableEq, Repr

/-- Diagnostic: a reported diagnostic, by the expression it is reported at and
its tag. -/
structure Diagnostic where
  Expr : ast.Expr
  Tag : Tag
  deriving DecidableEq, Repr

/-- Base holds the expression a reporter reports at. -/
structure Base where
  Expr : ast.Expr
  deriving DecidableEq, Repr

/-- varID: the identifier `name` when the expression is `&name`. -/
def Base.varID (r : Base) : Option String × Bool :=
  match Unparen r.Expr with
  | .UnaryExpr op x =>
    if op = token.Token.AND then
      match Unparen x with
      | .Ident name => (some name, true)
      | _ => (none, false)
    else (none, false)
  | _ => (none, false)

/-- UndeterminedUsage reports `(et:emb)`, or `(et:emb+)` for a pointer. -/
def Base.UndeterminedUsage (r : Base) (_tn : TypeName) (isPtr : Bool) : List Diagnostic :=
  [⟨r.Expr, if isPtr then Tag.embPlus else Tag.emb⟩]

/-- ErrorsAs reports diagnostics about targets of errors.As like functions. -/
structure ErrorsAs where
  Base : Base
  Fun : Func
  deriving DecidableEq, Repr

/-- ShouldBeValue reports `(et:err)`. -/
def ErrorsAs.ShouldBeValue (r : ErrorsAs) (_tn : TypeName) : List Diagnostic :=
  [⟨r.Base.Expr, Tag.err⟩]

/-- ShouldBePointer reports `(et:err+)`. -/
def ErrorsAs.ShouldBePointer (r : ErrorsAs) (_tn : TypeName) : List Diagnostic :=
  [⟨r.Base.Expr, Tag.errPlus⟩]

/-- CheckStyle reports `(et:sty)` unless the target is an address operation on
a variable. -/
def ErrorsAs.CheckStyle (r : ErrorsAs) (_tn : GoType) : List Diagnostic :=
  if r.Base.varID.2 then [] else [⟨r.Base.Expr, Tag.sty⟩]

/-- Generic reports diagnostics about generic function calls. -/
structure Generic where
  Base : Base
  Fun : Func
  deriving DecidableEq, Repr

/-- ShouldBeValue reports `(et:ast)`. -/
def Generic.ShouldBeValue (r : Generic) (_tn : TypeName) : List Diagnostic :=
  [⟨r.Base.Expr, Tag.ast⟩]

/-- ShouldBePointer reports `(et:ast+)`. -/
def Generic.ShouldBePointer (r : Generic) (_tn : TypeName) : List Diagnostic :=
  [⟨r.Base.Expr, Tag.astPlus⟩]

end report

open report in
/-- UsageReporter: the reporter interface, by its three methods. -/
structure UsageReporter where
  ShouldBeValue : TypeName → List Diagnostic
  ShouldBePointer : TypeName → List Diagnostic
  UndeterminedUsage : TypeName → Bool → List Diagnostic

open report in
/-- The diagnostics of one call on a reporter. -/
def UsageReporter.deliver (r : UsageReporter) : ReporterCall → List Diagnostic
  | .ShouldBeValue tn => r.ShouldBeValue tn
  | .ShouldBePointer tn => r.ShouldBePointer tn
  | .UndeterminedUsage tn isPtr => r.UndeterminedUsage tn isPtr

/-- ErrorsAsReporter creates a reporter for errors.As like functions. -/
def ErrorsAsReporter (e : Expr) (f : Func) : report.ErrorsAs :=
  { Base := { Expr := e }, Fun := f }

/-- GenericReporter creates a reporter for generic functions. -/
def GenericReporter (e : Expr) (f : Func) : report.Generic :=
  { Base := { Expr := e }, Fun := f }

/-- The `UsageReporter` that `report.ErrorsAs` implements. -/
def report.ErrorsAs.reporter (r : report.ErrorsAs) : UsageReporter :=
  { ShouldBeValue := r.ShouldBeValue
    ShouldBePointer := r.ShouldBePointer
    UndeterminedUsage := r.Base.UndeterminedUsage }

/-- The `UsageReporter` that `report.Generic` implements. -/
def report.Generic.reporter (r : report.Generic) : UsageReporter :=
  { ShouldBeValue := r.ShouldBeValue
    ShouldBePointer := r.ShouldBePointer
    UndeterminedUsage := r.Base.UndeterminedUsage }

open report in
/-- Handled: what a handler leaves behind: the pass, the diagnostics reported,
in order, and whether the handler panicked. -/
structure Handled where
  pass : pass
  diags : List Diagnostic
  panicked : Bool

open report in
/-- handleErrorsAs checks the target of a call of an errors.As like function.
`isErrorAs` is `typeutil.IsErrorAs(p.TypesInfo, n)`: the resolved function, the
type argument used as target of a generic function, and the index of the target
argument (`-1` when there is none). -/
def handleErrorsAs (p : pass) (n : CallExpr)
    (isErrorAs : CallExpr → Option Func × Option Expr × Int) (styleCheck : Bool) : Handled :=
  if n.Args.length = 0 then ⟨p, [], false⟩
  else
    match isErrorAs n with
    | (none, _, _) => ⟨p, [], false⟩
    | (some f, some targetExpr, _) =>
      let reporter := GenericReporter targetExpr f
      match (p.TypesInfo.Types targetExpr).Typ with
      | none => ⟨p, [], true⟩
      | some targetType =>
        let r := checkErrorUsage p targetType
        ⟨r.pass, r.calls.flatMap reporter.reporter.deliver, r.panicked⟩
    | (some f, none, targetArgIndex) =>
      if targetArgIndex < 0 then ⟨p, [], false⟩
      else if targetArgIndex ≥ 0 ∧ targetArgIndex ≥ (n.Args.length : Int) then ⟨p, [], false⟩
      else
        match n.Args[targetArgIndex.toNat]? with
        | none => ⟨p, [], true⟩
        | some targetArg =>
          let tv := p.TypesInfo.Types targetArg
          let internal := if !tv.IsValue then [Diagnostic.mk targetArg Tag.xxx] else []
          match tv.Typ with
          | none => ⟨p, internal, true⟩
          | some targetType =>
            match targetType.Underlying with
            | .Pointer elemType =>
              if IsInterface elemType then ⟨p, internal, false⟩
              else if !typeutil.HasErrorMethod p.TypesInfo.LookupFieldOrMethod elemType then
                ⟨p, internal ++ [Diagnostic.mk targetArg Tag.arg], false⟩
              else
                let reporter := ErrorsAsReporter targetArg f
                let r := checkErrorUsage p elemType
                let usage := r.calls.flatMap reporter.reporter.deliver
                if r.panicked then ⟨r.pass, internal ++ usage, true⟩
                else
                  ⟨r.pass,
                    internal ++ usage ++ (if styleCheck then reporter.CheckStyle elemType else []),
                    false⟩
            | .Interface => ⟨p, internal, false⟩
            | _ => ⟨p, internal ++ [Diagnostic.mk targetArg Tag.arg], false⟩

/-! ### Vocabulary used to state properties of the verifier -/

/-- The expected usage recorded for `tn`: its entry of the usage map masked by
`ExpectedMask`, `None` when it has no entry. -/
def expected (p : pass) (tn : TypeName) : Usage :=
  (p.errorUsages.GetTypeProperty tn).1 &&& ExpectedMask

/-- The verifier over a sequence of usage sites, given by the types observed
there: `checkErrorUsage` site after site, in order, until one panics. -/
def checkSites (p : pass) : List GoType → Checked
  | [] => ⟨p, [], false⟩
  | t :: rest =>
    let r := checkErrorUsage p t
    if r.panicked then r
    else
      let r' := checkSites r.pass rest
      ⟨r'.pass, r.calls ++ r'.calls, r'.panicked⟩

/-! ### Sample inputs, after `internal/analyze/testdata` -/

/-- The package under analysis, `a`. -/
def samplePkg : Package := { Path := "test/a", Name := "a", Scope := 1 }

/-- The signature `func() string` of an `Error` method. -/
def errorSig : Signature := { Recv := none, Params := [], Results := [.Basic .String] }

/-- The object of `type SuppressOverride struct{ error }`. -/
def tnSuppressOverride : TypeName :=
  { Name := "SuppressOverride", Pkg := some samplePkg, Parent := 1 }

/-- The object of `type ErrorsAsValue struct{}`. -/
def tnErrorsAsValue : TypeName :=
  { Name := "ErrorsAsValue", Pkg := some samplePkg, Parent := 1 }

/-- The object of `type EmbeddedPointer struct{ *PointerError }`. -/
def tnEmbeddedPointer : TypeName :=
  { Name := "EmbeddedPointer", Pkg := some samplePkg, Parent := 1 }

/-- The object of a type `PointerOnly` whose `Error` method has a pointer
receiver. -/
def tnPointerOnly : TypeName :=
  { Name := "PointerOnly", Pkg := some samplePkg, Parent := 1 }

def typSuppressOverride : GoType := .Named tnSuppressOverride .Struct
def typErrorsAsValue : GoType := .Named tnErrorsAsValue .Struct
def typEmbeddedPointer : GoType := .Named tnEmbeddedPointer .Struct
def typPointerOnly : GoType := .Named tnPointerOnly .Struct

/-- The function `errors.As`. -/
def errorsAsFunc : Func :=
  { Name := "As"
    Pkg := some { Path := "errors", Name := "errors", Scope := 2 }
    Sig := { Recv := none, Params := [.Interface, .Interface], Results := [.Basic .Bool] } }

/-- The target `&SuppressOverride{}`. -/
def targetLiteral : Expr := .UnaryExpr .AND (.CompositeLit (.Ident "SuppressOverride"))

/-- The target `&po`, for `var po PointerOnly`. -/
def targetPointerOnly : Expr := .UnaryExpr .AND (.Ident "po")

/-- The target `&so`, for `var so SuppressOverride`. -/
def targetVariable : Expr := .UnaryExpr .AND (.Ident "so")

/-- The type checker on the sample package: the types of the targets, and the
`Error` method, which `PointerOnly` itself does not have. -/
def sampleInfo : Info :=
  { Types := fun e =>
      if e = targetLiteral then ⟨true, some (.Pointer typSuppressOverride)⟩
      else if e = targetVariable then ⟨true, some (.Pointer typSuppressOverride)⟩
      else if e = targetPointerOnly then ⟨true, some (.Pointer typPointerOnly)⟩
      else if e = .Ident "err" then ⟨true, some .Interface⟩
      else ⟨false, none⟩
    LookupFieldOrMethod := fun t name =>
      if name = "Error" ∧
          (t = typSuppressOverride ∨ t = typErrorsAsValue ∨ t = typEmbeddedPointer
            ∨ t = .Pointer typPointerOnly) then
        some (.Func { Name := "Error", Pkg := some samplePkg, Sig := errorSig })
      else none }

/-- `typeutil.IsErrorAs` on the sample package: `errors.As` has its target at
index 1. -/
def sampleIsErrorAs (n : CallExpr) : Option Func × Option Expr × Int :=
  if n.Fun = .SelectorExpr (.Ident "errors") "As" then (some errorsAsFunc, none, 1)
  else (none, none, -1)

/-- The pass after `processDetectedTypes`: `SuppressOverride` and `PointerOnly`
are suppressed, `ErrorsAsValue` is a value type, `EmbeddedPointer` is not
detected. -/
def samplePass : pass :=
  processDetectedTypes (newPass sampleInfo samplePkg)
    [ { TypeName := tnSuppressOverride, ErrorType := .SuppressType },
      { TypeName := tnErrorsAsValue, ErrorType := .ValueType },
      { TypeName := tnPointerOnly, ErrorType := .SuppressType } ]

end analyze

/-! ## `internal/typeutil/typename.go` -/

namespace typeutil

/-- TypeName is the fully qualified name of a Go type: package path and name. -/
structure TypeName where
  Path : String
  Name : String
  deriving DecidableEq, Repr

/-- NewTypeName takes path and name of a `*types.TypeName`; the path of an object
of the universe is empty. -/
def NewTypeName (tn : types.TypeName) : TypeName :=
  { Name := tn.Name
    Path := match tn.Pkg with
      | some pkg => pkg.Path
      | none => "" }

end typeutil

/-! ## `internal/errortypes/propertymap.go`: iteration -/

namespace errortypes

/-- AllDetermined: the pairs the iterator yields to a consumer that never stops:
every entry whose `DeterminedType` is not Undecided, with that type. Go leaves
the order of a map iteration open; here it is the order of the list. -/
def PropertyMap.AllDetermined (DeterminedType : Nat → ErrorType) (p : PropertyMap) :
    List (types.TypeName × ErrorType) :=
  p.filterMap (fun entry =>
    let typ := DeterminedType entry.2
    if typ ≠ ErrorType.Undecided then some (entry.1, typ) else none)

end errortypes

/-! ## `internal/analyze/usage.go`, `result.go` -/

namespace analyze

open types errortypes

/-- DeterminedType returns the observed usage of `u` when it is consistent and
differs from the expected one, Suppress when both shapes were observed and
Suppress is not what is expected, and Undecided otherwise. -/
def Usage.DeterminedType (u : Usage) : ErrorType :=
  if u &&& ObservedMask = PointerObserved then
    (if u &&& ExpectedMask ≠ PointerExpected then ErrorType.PointerType
     else ErrorType.Undecided)
  else if u &&& ObservedMask = ValueObserved then
    (if u &&& ExpectedMask ≠ ValueExpected then ErrorType.ValueType
     else ErrorType.Undecided)
  else if u &&& ObservedMask = PointerObserved ||| ValueObserved then
    (if u &&& ExpectedMask ≠ SuppressExpected then ErrorType.SuppressType
     else ErrorType.Undecided)
  else ErrorType.Undecided

/-- Result holds the categorized type names found during analysis. -/
structure Result where
  Pointers : List typeutil.TypeName
  Values : List typeutil.TypeName
  Inconsistent : List typeutil.TypeName
  deriving DecidableEq, Repr

/-- The body of the loop of `calculateResult`: one determined type is appended
to the list of its kind. -/
def calculateResult.collect (res : Result) (entry : TypeName × ErrorType) : Result :=
  let typeName := typeutil.NewTypeName entry.1
  match entry.2 with
  | .PointerType => { res with Pointers := res.Pointers ++ [typeName] }
  | .ValueType => { res with Values := res.Values ++ [typeName] }
  | .SuppressType => { res with Inconsistent := res.Inconsistent ++ [typeName] }
  | .Undecided => res

/-- calculateResult sorts the types of the usage map with a determined type into
pointers, values and inconsistent types. -/
def calculateResult (p : pass) : Result :=
  (p.errorUsages.AllDetermined Usage.DeterminedType).foldl calculateResult.collect
    { Pointers := [], Values := [], Inconsistent := [] }

/-- At most one of the three ...Expected bits of `u` is set. -/
@[reducible] def atMostOneExpected (u : Usage) : Prop :=
  ¬ (detect.isSet u PointerExpected ∧ detect.isSet u ValueExpected) ∧
  ¬ (detect.isSet u PointerExpected ∧ detect.isSet u SuppressExpected) ∧
  ¬ (detect.isSet u ValueExpected ∧ detect.isSet u SuppressExpected)

/-- A usage map after some sites: `ErrorsAsValue` is expected and seen as a
value and as a pointer, `SuppressOverride` is suppressed and seen both ways,
`EmbeddedPointer` has no expectation and is seen as a pointer. -/
def sampleUsedPass : pass :=
  (checkSites samplePass
    [typErrorsAsValue, .Pointer typErrorsAsValue, typSuppressOverride,
      .Pointer typSuppressOverride, .Pointer typEmbeddedPointer]).pass

end analyze

/-! ## Go maps, `strings`, `bytes` and `slices`, as far as they are used -/

namespace gomap

/-- Lookup in a Go map, held as an association list with one entry per key. -/
def get? {κ ν : Type} [DecidableEq κ] : List (κ × ν) → κ → Option ν
  | [], _ => none
  | (k, v) :: rest, key => if k = key then some v else get? rest key

/-- Assignment `m[key] = value` in a Go map. -/
def set {κ ν : Type} [DecidableEq κ] : List (κ × ν) → κ → ν → List (κ × ν)
  | [], key, value => [(key, value)]
  | (k, v) :: rest, key, value =>
    if k = key then (key, value) :: rest else (k, v) :: set rest key value

end gomap

namespace strings

/-- The code points of a string. Go compares the bytes of the UTF-8 encoding,
which orders strings as their code points do. -/
def key (s : String) : List Nat := s.data.map Char.toNat

/-- Compare: `strings.Compare`, the lexicographic comparison, -1, 0 or +1. -/
def Compare (a b : String) : Int :=
  if a = b then 0 else if key a < key b then -1 else 1

end strings

namespace bytes

/-- LastIndexByte: the index of the last occurrence of `c` in `s`, -1 when
there is none. -/
def LastIndexByte : List Char → Char → Int
  | [], _ => -1
  | x :: rest, c =>
    let r := LastIndexByte rest c
    if r ≥ 0 then r + 1 else if x = c then 0 else -1

end bytes

namespace slices

/-- SortFunc: `slices.SortFunc`, sorting into ascending order as `cmp` determines
it. The order of elements that compare equal is not specified in Go; here the
sort is an insertion sort. -/
def SortFunc {α : Type} (x : List α) (cmp : α → α → Int) : List α :=
  x.insertionSort (fun a b => cmp a b ≤ 0)

end slices

/-! ## `internal/typeutil/typename.go`: comparison and text form -/

namespace typeutil

/-- Compare compares by Path and, for equal paths, by Name. -/
def TypeName.Compare (t other : TypeName) : Int :=
  let c := strings.Compare t.Path other.Path
  if c ≠ 0 then c else strings.Compare t.Name other.Name

/-- MarshalText: the path, a dot, and the name; the name alone when the path is
empty. It never fails. -/
def TypeName.MarshalText (t : TypeName) : List Char :=
  (if t.Path ≠ "" then t.Path.data ++ ['.'] else []) ++ t.Name.data

/-- UnmarshalText splits the text at its last dot into path and name; without a
dot the text is the name. It never fails. -/
def UnmarshalText (text : List Char) : TypeName :=
  let lastDotIndex := bytes.LastIndexByte text '.'
  if lastDotIndex ≥ 0 then
    { Path := ⟨text.take lastDotIndex.toNat⟩, Name := ⟨text.drop (lastDotIndex.toNat + 1)⟩ }
  else
    { Path := "", Name := ⟨text⟩ }

end typeutil

/-! ## `internal/overrides` -/

namespace overrides

/-- Override joins a type name and its error type. -/
structure Override where
  TypeName : typeutil.TypeName
  ErrorType : ErrorType
  deriving DecidableEq, Repr

/-- The four groups of type names of an override file. -/
structure errorfileType where
  Pointer : List typeutil.TypeName
  Value : List typeutil.TypeName
  Suppress : List typeutil.TypeName
  Inconsistent : List typeutil.TypeName
  deriving DecidableEq, Repr

/-- The body of the loop of `Write`: the entry is appended to the list of its
error type; everything but Pointer and Value goes to Inconsistent. -/
def Write.collect (errorfile : errorfileType) (usage : Override) : errorfileType :=
  match usage.ErrorType with
  | .PointerType => { errorfile with Pointer := errorfile.Pointer ++ [usage.TypeName] }
  | .ValueType => { errorfile with Value := errorfile.Value ++ [usage.TypeName] }
  | _ => { errorfile with Inconsistent := errorfile.Inconsistent ++ [usage.TypeName] }

/-- The errorfile that `Write` hands to the encoder: the grouped suggestions,
each written group sorted. -/
def Write.errorfile (suggestions : List Override) : errorfileType :=
  let errorfile := suggestions.foldl Write.collect
    { Pointer := [], Value := [], Suppress := [], Inconsistent := [] }
  { Pointer := slices.SortFunc errorfile.Pointer typeutil.TypeName.Compare
    Value := slices.SortFunc errorfile.Value typeutil.TypeName.Compare
    Suppress := errorfile.Suppress
    Inconsistent := slices.SortFunc errorfile.Inconsistent typeutil.TypeName.Compare }

/-- Document: a YAML document of the override file: under each of the four keys
a sequence of scalars; a key that is left out has the empty sequence. -/
structure Document where
  pointer : List (List Char)
  value : List (List Char)
  suppress : List (List Char)
  inconsistent : List (List Char)
  deriving DecidableEq, Repr

/-- The YAML encoder on an errorfile: every type name is written as its
`MarshalText`. -/
def Encode (errorfile : errorfileType) : Document :=
  { pointer := errorfile.Pointer.map typeutil.TypeName.MarshalText
    value := errorfile.Value.map typeutil.TypeName.MarshalText
    suppress := errorfile.Suppress.map typeutil.TypeName.MarshalText
    inconsistent := errorfile.Inconsistent.map typeutil.TypeName.MarshalText }

/-- The YAML decoder into an errorfile: every scalar is read by
`UnmarshalText`. -/
def Decode (d : Document) : errorfileType :=
  { Pointer := d.pointer.map typeutil.UnmarshalText
    Value := d.value.map typeutil.UnmarshalText
    Suppress := d.suppress.map typeutil.UnmarshalText
    Inconsistent := d.inconsistent.map typeutil.UnmarshalText }

/-- Write: the document written for the suggestions. -/
def Write (suggestions : List Override) : Document :=
  Encode (Write.errorfile suggestions)

/-- Input: what the reader finds: nothing, text that is no override file, or a
document. -/
inductive Input where
  | eof
  | malformed
  | document (d : Document)
  deriving DecidableEq, Repr

/-- The `errorfileMap` of `Read`: the lists read under pointer, value and
suppress; the inconsistent list is no part of it. -/
def Read.errorfileMap (errorfile : errorfileType) : ErrorType → Option (List typeutil.TypeName)
  | .PointerType => some errorfile.Pointer
  | .ValueType => some errorfile.Value
  | .SuppressType => some errorfile.Suppress
  | .Undecided => none

/-- Read returns the overrides of an override file. `order` is the order in
which the iteration visits the keys of `errorfileMap`, which Go leaves open. -/
def Read (order : List ErrorType) (r : Input) : Except String (List Override) :=
  match r with
  | .eof => .ok []
  | .malformed => .error "error parsing override file"
  | .document d =>
    let errorfile := Decode d
    .ok (order.flatMap (fun override =>
      match Read.errorfileMap errorfile override with
      | some types => types.map (fun typeName => { TypeName := typeName, ErrorType := override })
      | none => []))

end overrides

/-! ## `main.go`: suggestions -/

namespace main

/-- The flags of `calculateSuggestions` (`1 << iota`, a `uint8`). -/
def calculateSuggestions.Undecided : Nat := 1 <<< 0
def calculateSuggestions.PointerType : Nat := 1 <<< 1
def calculateSuggestions.ValueType : Nat := 1 <<< 2

/-- The update `combined[name] |= flag`. -/
def calculateSuggestions.mark (combined : List (typeutil.TypeName × Nat))
    (entry : typeutil.TypeName × Nat) : List (typeutil.TypeName × Nat) :=
  gomap.set combined entry.1 ((gomap.get? combined entry.1).getD 0 ||| entry.2)

open calculateSuggestions in
/-- The body of the loop over the roots: a root whose result is an
`analyze.Result` marks its pointers, values and inconsistent names. -/
def calculateSuggestions.combine (combined : List (typeutil.TypeName × Nat))
    (root : Option analyze.Result) : List (typeutil.TypeName × Nat) :=
  match root with
  | some r =>
    let c1 := (r.Pointers.map (fun p => (p, PointerType))).foldl mark combined
    let c2 := (r.Values.map (fun v => (v, ValueType))).foldl mark c1
    (r.Inconsistent.map (fun v => (v, Undecided))).foldl mark c2
  | none => combined

open calculateSuggestions in
/-- The switch over the combined usage of one name. -/
def calculateSuggestions.suggest (entry : typeutil.TypeName × Nat) : overrides.Override :=
  if entry.2 = PointerType then { TypeName := entry.1, ErrorType := .PointerType }
  else if entry.2 = ValueType then { TypeName := entry.1, ErrorType := .ValueType }
  else { TypeName := entry.1, ErrorType := .Undecided }

/-- calculateSuggestions combines the results of all roots into one suggestion
per type name. `roots` holds, for each root of the graph, its result when that
is an `analyze.Result`. -/
def calculateSuggestions (roots : List (Option analyze.Result)) : List overrides.Override :=
  let combined := roots.foldl calculateSuggestions.combine []
  if combined.length = 0 then []
  else combined.map calculateSuggestions.suggest

end main

namespace overrides

/-- The type names of the entries of `l` whose error type is `d`, in the order
of `l`. -/
def namesWith (d : ErrorType) (l : List Override) : List typeutil.TypeName :=
  (l.filter (fun o => o.ErrorType = d)).map (fun o => o.TypeName)

/-- The type names of the entries of `l` whose error type is Suppress or
Undecided, in the order of `l`. -/
def namesOther (l : List Override) : List typeutil.TypeName :=
  (l.filter (fun o => o.ErrorType = ErrorType.SuppressType ∨ o.ErrorType = ErrorType.Undecided)).map
    (fun o => o.TypeName)

/-- Suggestions as `calculateSuggestions` may hand them to `Write`. -/
def sampleSuggestions : List Override :=
  [ { TypeName := { Path := "test/b", Name := "Ptr" }, ErrorType := .PointerType },
    { TypeName := { Path := "test/a", Name := "Val" }, ErrorType := .ValueType },
    { TypeName := { Path := "test/a", Name := "Ptr" }, ErrorType := .PointerType },
    { TypeName := { Path := "test/a", Name := "Mixed" }, ErrorType := .Undecided } ]

end overrides

namespace main

/-- The name occurs in the Pointers list of the result of some root. -/
def inPointers (roots : List (Option analyze.Result)) (name : typeutil.TypeName) : Prop :=
  ∃ r, some r ∈ roots ∧ name ∈ r.Pointers

/-- The name occurs in the Values list of the result of some root. -/
def inValues (roots : List (Option analyze.Result)) (name : typeutil.TypeName) : Prop :=
  ∃ r, some r ∈ roots ∧ name ∈ r.Values

/-- The name occurs in the Inconsistent list of the result of some root. -/
def inInconsistent (roots : List (Option analyze.Result)) (name : typeutil.TypeName) : Prop :=
  ∃ r, some r ∈ roots ∧ name ∈ r.Inconsistent

/-- The marks a root makes, in order. -/
def marksOf : Option analyze.Result → List (typeutil.TypeName × Nat)
  | some r =>
    r.Pointers.map (fun p => (p, calculateSuggestions.PointerType)) ++
      (r.Values.map (fun v => (v, calculateSuggestions.ValueType)) ++
        r.Inconsistent.map (fun v => (v, calculateSuggestions.Undecided)))
  | none => []

end main

/-! ## `internal/detect`: facts, result and aliases -/

namespace detect

open types errortypes

/-- Fact: the value of an analysis fact; the facts of this analyzer hold an
`*errortypes.ErrorType`. -/
inductive Fact where
  | ErrorType (t : ErrorType)
  | Other
  deriving DecidableEq, Repr

/-- ObjectFact: an `analysis.ObjectFact`, an object and a fact about it. -/
structure ObjectFact where
  Object : Object
  Fact : Fact
  deriving DecidableEq, Repr

/-- The pass of the detecttypes analyzer: the package under analysis, the object
facts visible to it (those of its dependencies), what the type checker knows of
a type name (`tn.IsAlias()`, `tn.Type()`), and the property map. -/
structure pass where
  Pkg : Package
  Facts : List ObjectFact
  IsAlias : TypeName → Bool
  TypeOf : TypeName → GoType
  PropertyMap : PropertyMap

/-- ImportObjectFact: the `ErrorType` fact of `obj`, if there is one. -/
def pass.ImportObjectFact (p : pass) (obj : TypeName) : Option ErrorType :=
  p.Facts.findSome? (fun f =>
    match f.Object, f.Fact with
    | .TypeName tn, .ErrorType t => if tn = obj then some t else none
    | _, _ => none)

/-- ResultInfo holds the determined error type of a type name. -/
abbrev ResultInfo := analyze.ResultInfo

/-- Result is the result of the detecttypes analyzer. -/
structure Result where
  Types : List ResultInfo
  deriving DecidableEq, Repr

/-- createResult converts the map of determined types to the result. -/
def createResult (determinedTypes : List (TypeName × ErrorType)) : Result :=
  { Types := determinedTypes.map (fun entry => { TypeName := entry.1, ErrorType := entry.2 }) }

/-- The body of the loop of `extractErrorTypes`: a fact that is an `ErrorType`
about a type name is entered in the map. -/
def extractErrorTypes.collect (determinedTypes : List (TypeName × ErrorType)) (f : ObjectFact) :
    List (TypeName × ErrorType) :=
  match f.Fact with
  | .ErrorType fact =>
    match f.Object with
    | .TypeName tn => gomap.set determinedTypes tn fact
    | _ => determinedTypes
  | _ => determinedTypes

/-- extractErrorTypes builds the map of the types determined by facts. -/
def extractErrorTypes (facts : List ObjectFact) : List (TypeName × ErrorType) :=
  facts.foldl extractErrorTypes.collect []

/-- The body of the loop of `pass.createResult` on the map of determined types
and the facts exported so far: a type of the current package is exported as a
fact, and every determined type is entered in the map. -/
def pass.createResult.collect (p : pass)
    (state : List (TypeName × ErrorType) × List (TypeName × ErrorType))
    (entry : TypeName × ErrorType) :
    List (TypeName × ErrorType) × List (TypeName × ErrorType) :=
  (gomap.set state.1 entry.1 entry.2,
    if entry.1.Pkg = some p.Pkg then state.2 ++ [entry] else state.2)

/-- createResult combines the facts of the dependencies with the determined types
of the property map; it returns the result and the facts it exports, in order. -/
def pass.createResult (p : pass) : Result × List (TypeName × ErrorType) :=
  let facts := p.Facts
  let determinedTypes := extractErrorTypes facts
  let state := (p.PropertyMap.AllDetermined DeterminedType).foldl
    (detect.pass.createResult.collect p) (determinedTypes, [])
  (detect.createResult state.1, state.2)

/-- The body of the loop of `processAliases` on the property map: an alias of a
named type gets the properties of that type without its override flags when
the type is of the current package, and the alias flag of its imported fact
otherwise. -/
def processAliases.step (p : pass) (m : PropertyMap) (aliasName : TypeName) : PropertyMap :=
  if !p.IsAlias aliasName then m
  else
    match Unalias (p.TypeOf aliasName) with
    | .Named orig _ =>
      if orig.Pkg = some p.Pkg then
        match m.GetTypeProperty orig with
        | (prop, true) => (m.AddTypeProperty aliasName (clearFlags prop OverrideMask)).1
        | (_, false) => m
      else
        match p.ImportObjectFact orig with
        | none => m
        | some errorType =>
          let property :=
            match errorType with
            | .PointerType => PointerAlias
            | .ValueType => ValueAlias
            | _ => None
          (m.AddTypeProperty aliasName property).1
    | _ => m

/-- processAliases transfers properties from aliased types to the aliases, key
by key of the property map. -/
def pass.processAliases (p : pass) : pass :=
  { p with
    PropertyMap := (p.PropertyMap.map Prod.fst).foldl (detect.processAliases.step p) p.PropertyMap }

end detect

namespace detect

open types errortypes

/-! ### Sample inputs, after `internal/detect/testdata/a` -/

/-- The dependency `test/a/c` of the package under analysis, `test/a`. -/
def pkgC : Package := { Path := "test/a/c", Name := "c", Scope := 3 }

/-- The object of `c.LocalOverride`, a pointer type by the fact of `c`. -/
def tnLocalOverride : TypeName := { Name := "LocalOverride", Pkg := some pkgC, Parent := 3 }

/-- The object of `c.ValueDefault`, a value type by the fact of `c`. -/
def tnValueDefault : TypeName := { Name := "ValueDefault", Pkg := some pkgC, Parent := 3 }

/-- The object of `type Alias = ValueDefault` of `c`. -/
def tnAliasC : TypeName := { Name := "Alias", Pkg := some pkgC, Parent := 3 }

/-- The object of `type Alias = c.Alias` of `a`. -/
def tnAlias : TypeName := { Name := "Alias", Pkg := some analyze.samplePkg, Parent := 1 }

/-- The object of a type `Overridden` of `a` that has a value override and is
returned as a pointer. -/
def tnOverridden : TypeName :=
  { Name := "Overridden", Pkg := some analyze.samplePkg, Parent := 1 }

/-- The object of `type AliasOverridden = Overridden` of `a`. -/
def tnAliasOverridden : TypeName :=
  { Name := "AliasOverridden", Pkg := some analyze.samplePkg, Parent := 1 }

/-- The object of a type `Returned` of `a` that is returned as a pointer. -/
def tnReturned : TypeName := { Name := "Returned", Pkg := some analyze.samplePkg, Parent := 1 }

/-- The object of `type Alias1 = Returned` of `a`. -/
def tnAlias1 : TypeName := { Name := "Alias1", Pkg := some analyze.samplePkg, Parent := 1 }

/-- The object of `type Alias2 = Alias1` of `a`. -/
def tnAlias2 : TypeName := { Name := "Alias2", Pkg := some analyze.samplePkg, Parent := 1 }

/-- A pass on `test/a` before `processAliases`: the facts of `c`, a local var
assertion `var _ error = c.LocalOverride{}`, and the aliases without evidence
of their own. -/
def samplePass : pass :=
  { Pkg := analyze.samplePkg
    Facts :=
      [ ⟨.TypeName tnLocalOverride, .ErrorType .PointerType⟩,
        ⟨.TypeName tnValueDefault, .ErrorType .ValueType⟩,
        ⟨.TypeName tnAliasC, .ErrorType .ValueType⟩ ]
    IsAlias := fun tn =>
      decide (tn = tnAlias ∨ tn = tnAliasC ∨ tn = tnAliasOverridden ∨ tn = tnAlias1 ∨ tn = tnAlias2)
    TypeOf := fun tn =>
      if tn = tnAlias then .Alias tnAlias (.Alias tnAliasC (.Named tnValueDefault .Struct))
      else if tn = tnAliasC then .Alias tnAliasC (.Named tnValueDefault .Struct)
      else if tn = tnAliasOverridden then .Alias tnAliasOverridden (.Named tnOverridden .Struct)
      else if tn = tnAlias1 then .Alias tnAlias1 (.Named tnReturned .Struct)
      else if tn = tnAlias2 then .Alias tnAlias2 (.Alias tnAlias1 (.Named tnReturned .Struct))
      else .Named tn .Struct
    PropertyMap :=
      [ (tnLocalOverride, ValueVar),
        (tnAlias2, None),
        (tnAlias, None),
        (tnOverridden, ValueOverride ||| PointerReturn),
        (tnAliasOverridden, None),
        (tnAlias1, None),
        (tnReturned, PointerReturn) ] }

end detect

/-! ## `internal/detect/usage.go`: adding evidence -/

namespace detect

open types errortypes

/-- addTypePropertyInCurrentPackage sets a property on a type if it is a known
error type of the current package and the property is not yet set. -/
def pass.addTypePropertyInCurrentPackage (p : pass) (tn : TypeName)
    (property : ErrorProperty) : pass :=
  if tn.Pkg ≠ some p.Pkg then p
  else
    match p.PropertyMap.GetTypeProperty tn with
    | (_, false) => p
    | (old, true) =>
      if old &&& property == 0 then
        { p with PropertyMap := p.PropertyMap.SetTypeProperty tn (old ||| property) }
      else p

/-- A non-struct error type with a value variable, `type MyErr string` with
`var _ error = MyErr("")`. -/
def tnMyErr : TypeName := { Name := "MyErr", Pkg := some analyze.samplePkg, Parent := 1 }

/-- An alias of it, `type MyAlias = MyErr`. -/
def tnMyAlias : TypeName := { Name := "MyAlias", Pkg := some analyze.samplePkg, Parent := 1 }

/-- The pass after the type and variable declarations of the two were seen. -/
def aliasPass : pass :=
  { Pkg := analyze.samplePkg
    Facts := []
    IsAlias := fun tn => tn = tnMyAlias
    TypeOf := fun tn =>
      if tn = tnMyAlias then .Alias tnMyAlias (.Named tnMyErr (.Basic .String))
      else .Named tn (.Basic .String)
    PropertyMap := [(tnMyErr, NonStruct ||| ValueVar), (tnMyAlias, NonStruct)] }

end detect

namespace analyze

/-- The expected part of a usage is empty or exactly one expectation. -/
def oneExpectation (u : Usage) : Prop :=
  u = None ∨ u = PointerExpected ∨ u = ValueExpected ∨ u = SuppressExpected

end analyze

namespace typeutil

/-- String returns the fully qualified name of the type, `pkg/path.TypeName`;
just the type name when the type has no package path. -/
def TypeName.String (t : TypeName) : String :=
  if t.Path = "" then t.Name else t.Path ++ "." ++ t.Name

end typeutil

/-! ## `internal/detect/overrides.go` -/

namespace detect

open types errortypes

/-- The body of the loop of `processOverrides` on the property map, for one entry
`name, usage` of the overrides of the current package. `scope` is
`p.Pkg.Scope().Lookup`, `lookup` is `types.LookupFieldOrMethod`. The log lines
the source writes are left out. -/
def processOverrides.step (p : pass) (scope : String → Option Object)
    (lookup : GoType → String → Option Object) (m : PropertyMap)
    (entry : String × ErrorType) : PropertyMap :=
  match scope entry.1 with
  | some (.TypeName tn) =>
    match entry.2 with
    | .PointerType =>
      if !typeutil.HasErrorMethod lookup (.Pointer (p.TypeOf tn)) then m
      else (m.AddTypeProperty tn PointerOverride).1
    | .ValueType =>
      if !typeutil.HasErrorMethod lookup (p.TypeOf tn) then m
      else (m.AddTypeProperty tn ValueOverride).1
    | .SuppressType => (m.AddTypeProperty tn SuppressOverride).1
    | .Undecided => m
  | _ => m

/-- processOverrides applies the overrides given for the path of the current
package, entry by entry; a path without overrides has none. -/
def pass.processOverrides (p : pass) (scope : String → Option Object)
    (lookup : GoType → String → Option Object)
    (overrides : List (String × List (String × ErrorType))) : pass :=
  { p with
    PropertyMap := ((gomap.get? overrides p.Pkg.Path).getD []).foldl
      (detect.processOverrides.step p scope lookup) p.PropertyMap }

/-- A type with `Error() string` on a pointer receiver only,
`type PtrErr string` with `func (*PtrErr) Error() string`. -/
def tnPtrErr : TypeName := { Name := "PtrErr", Pkg := some analyze.samplePkg, Parent := 1 }

/-- The package scope of the sample package: `MyErr`, `MyAlias` and `PtrErr` are
type names, `New` is a function. -/
def sampleScope (name : String) : Option Object :=
  if name = "MyErr" then some (.TypeName tnMyErr)
  else if name = "MyAlias" then some (.TypeName tnMyAlias)
  else if name = "PtrErr" then some (.TypeName tnPtrErr)
  else if name = "New" then
    some (.Func
      { Name := "New"
        Pkg := some analyze.samplePkg
        Sig := { Recv := none, Params := [], Results := [] } })
  else none

/-- The method `Error() string` of the sample package. -/
def sampleErrorMethod : Object :=
  .Func { Name := "Error", Pkg := some analyze.samplePkg, Sig := analyze.errorSig }

/-- The method sets of the sample package, aliases resolved as
`types.LookupFieldOrMethod` does: `MyErr` has `Error() string` on a value
receiver, so `MyErr`, `*MyErr`, and the alias `MyAlias` and `*MyAlias` have the
method; `PtrErr` has it on a pointer receiver, so only `*PtrErr` has it. -/
def sampleLookup (t : GoType) (name : String) : Option Object :=
  if name ≠ "Error" then none
  else
    match t with
    | .Pointer elem =>
      match Unalias elem with
      | .Named tn _ => if tn = tnMyErr ∨ tn = tnPtrErr then some sampleErrorMethod else none
      | _ => none
    | _ =>
      match Unalias t with
      | .Named tn _ => if tn = tnMyErr then some sampleErrorMethod else none
      | _ => none

/-- Overrides as `addOverrides` builds them: for the sample package `test/a` a
value override of `MyErr`, one of `PtrErr`, a suppress override of a function
name and a value override of the alias `MyAlias`; for `test/b` a pointer
override of a type named `MyErr`. -/
def sampleOverrides : List (String × List (String × ErrorType)) :=
  [ ("test/b", [("MyErr", .PointerType)]),
    ("test/a",
      [("MyErr", .ValueType), ("PtrErr", .ValueType), ("New", .SuppressType),
        ("MyAlias", .ValueType)]) ]

end detect

/-! ## `internal/detect/options.go`, `optionsfunc.go` -/

namespace unicode

/-- IsSpace reports whether the rune is a space character as defined by
Unicode's White Space property. -/
def IsSpace (r : Char) : Bool :=
  r.toNat ∈ [0x09, 0x0A, 0x0B, 0x0C, 0x0D, 0x20, 0x85, 0xA0, 0x1680, 0x2028, 0x2029, 0x202F,
    0x205F, 0x3000] || (0x2000 ≤ r.toNat && r.toNat ≤ 0x200A)

end unicode

namespace strings

/-- The loop of `FieldsFunc` over the runes of the string: `field` is the span
that is started and not yet closed, `none` when there is none. -/
def FieldsFunc.loop (f : Char → Bool) : List Char → Option (List Char) → List (List Char)
  | [], none => []
  | [], some field => [field]
  | r :: rest, none => if f r then loop f rest none else loop f rest (some [r])
  | r :: rest, some field =>
    if f r then field :: loop f rest none else loop f rest (some (field ++ [r]))

/-- FieldsFunc splits the string at each run of code points satisfying `f` and
returns the fields between them; no field is empty. -/
def FieldsFunc (s : String) (f : Char → Bool) : List String :=
  (FieldsFunc.loop f s.data none).map String.mk

/-- TrimSpace returns the string with all leading and trailing white space
removed. -/
def TrimSpace (s : String) : String :=
  ⟨((s.data.dropWhile unicode.IsSpace).reverse.dropWhile unicode.IsSpace).reverse⟩

end strings

namespace detect

/-- HeuristicPass: a set of heuristic flags. -/
abbrev HeuristicPass := Nat

def HeuristicUsage : HeuristicPass := 1 <<< 0
def HeuristicReceivers : HeuristicPass := 1 <<< 1

/-- The options of the detecttypes analyzer. -/
structure options where
  usageOverrides : List (String × List (String × ErrorType))
  heuristics : HeuristicPass
  debug : Bool
  deriving DecidableEq, Repr

/-- defaultOptions: both heuristic passes are on. -/
def defaultOptions : options :=
  { usageOverrides := [], heuristics := HeuristicUsage ||| HeuristicReceivers, debug := false }

/-- The errors of `setHeuristics`. -/
inductive HeuristicsError where
  | unknownHeuristic (h : String)
  | offCombined (list : String)
  deriving DecidableEq, Repr

/-- The loop of `setHeuristics` over the fields of the list: the heuristics and
`hasOff` collected so far, or the field that names no heuristic. -/
def setHeuristics.loop : List String → HeuristicPass → Bool → Except String (HeuristicPass × Bool)
  | [], heuristics, hasOff => .ok (heuristics, hasOff)
  | h :: rest, heuristics, hasOff =>
    if strings.TrimSpace h = "" then loop rest heuristics hasOff
    else if strings.TrimSpace h = "off" then loop rest heuristics true
    else if strings.TrimSpace h = "usage" then loop rest (heuristics ||| HeuristicUsage) hasOff
    else if strings.TrimSpace h = "receivers" then
      loop rest (heuristics ||| HeuristicReceivers) hasOff
    else .error h

/-- setHeuristics parses and sets the heuristic passes from a comma-separated
list; it returns the options it leaves behind and the error, if any. -/
def options.setHeuristics (o : options) (list : String) : options × Option HeuristicsError :=
  match setHeuristics.loop (strings.FieldsFunc list (fun r => r == ',')) 0 false with
  | .error h => (o, some (.unknownHeuristic h))
  | .ok (heuristics, hasOff) =>
    if hasOff && heuristics != 0 then (o, some (.offCombined list))
    else if heuristics != 0 || hasOff then ({ o with heuristics := heuristics }, none)
    else (o, none)

/-- The items a list names, in the words of the specification: the list split
at its commas, each piece with its white space trimmed. -/
def heuristicItems (list : String) : List String :=
  (list.data.splitOn ',').map (fun piece => strings.TrimSpace ⟨piece⟩)

end detect

/-! ## `go/ast` field lists and `typeutil.HasErrorResult` -/

namespace ast

/-- Field: an `*ast.Field`, the names it declares (none for an anonymous
result) and its type expression. -/
structure Field where
  Names : List String
  Typ : Expr
  deriving DecidableEq, Repr

/-- FieldList: an `*ast.FieldList`; a nil list is `none`. -/
structure FieldList where
  List : List Field
  deriving DecidableEq, Repr

/-- NumFields returns the number of parameters or results represented by a
field list: every name of a field counts, a field without names counts once.
A nil list has none. -/
def FieldList.NumFields (f : Option FieldList) : Nat :=
  match f with
  | none => 0
  | some l => l.List.foldl (fun n g => n + (if g.Names.length = 0 then 1 else g.Names.length)) 0

end ast

namespace typeutil

open types ast

/-- HasErrorResult checks whether the result list has an error type as its last
result; it returns the index of the error result or -1. -/
def HasErrorResult (info : analyze.Info) (results : Option FieldList) : Int :=
  match results with
  | none => -1
  | some r =>
    match r.List.getLast? with
    | none => -1
    | some last =>
      match (info.Types last.Typ).Typ with
      | some typ =>
        if HasErrorMethod info.LookupFieldOrMethod typ then
          (FieldList.NumFields results : Int) - 1
        else -1
      | none => -1

/-- The number of result values of a result list, in the words of the
specification: each field counts with every name it declares, at least once. -/
def resultValues (r : FieldList) : Nat :=
  (r.List.map (fun g => max 1 g.Names.length)).sum

/-- The type expression `error`, and the type information of a package in which
`error` has the method `Error() string` and `int` has none. -/
def errorExpr : Expr := .Ident "error"

def intExpr : Expr := .Ident "int"

def resultInfo : analyze.Info :=
  { Types := fun e =>
      if e = errorExpr then { IsValue := false, Typ := some .Interface }
      else if e = intExpr then { IsValue := false, Typ := some (.Basic .Int) }
      else { IsValue := false, Typ := none }
    LookupFieldOrMethod := fun t name =>
      if t = .Interface ∧ name = "Error" then
        some (.Func { Name := "Error", Pkg := none, Sig := analyze.errorSig })
      else none }

end typeutil

/-! ## `internal/detect/receivers.go` -/

namespace typeutil

open types

/-- HasPointerReceiver determines whether a method signature has a pointer
receiver; it returns the element type of the receiver and true, or nil and
false. -/
def HasPointerReceiver (sig : Signature) : Option GoType × Bool :=
  match sig.Recv with
  | none => (none, false)
  | some recv =>
    match Unalias recv with
    | .Pointer elem => (some elem, true)
    | _ => (none, false)

end typeutil

namespace detect

open types

/-- The loop of `pureReceivers` over the methods after the first one. -/
def pureReceivers.loop (ptr0 : Bool) : List Func → Bool × Bool
  | [] => (ptr0, true)
  | m :: rest =>
    if (typeutil.HasPointerReceiver m.Sig).2 != ptr0 then (false, false)
    else loop ptr0 rest

/-- pureReceivers checks whether all methods of a named type have receivers of
the same kind; it returns `(ptr, ok)`. The named type is given by its methods,
`named.Method(0)` to `named.Method(named.NumMethods() - 1)`. -/
def pureReceivers (named : List Func) : Bool × Bool :=
  match named with
  | [] => (false, false)
  | m0 :: rest => pureReceivers.loop (typeutil.HasPointerReceiver m0.Sig).2 rest

/-- A method named `name` of the type `MyErr` of the sample package, with a
pointer or a value receiver. -/
def methodOf (name : String) (ptr : Bool) : Func :=
  { Name := name
    Pkg := some analyze.samplePkg
    Sig :=
      { Recv := some (if ptr then .Pointer (.Named tnMyErr .Struct) else .Named tnMyErr .Struct)
        Params := []
        Results := [] } }

end detect

/-! ## `internal/analyze/iter.go` -/

namespace ast

/-- Node: an `ast.Node` as the traversal of `AllReturns` sees it: a function
literal, a return statement, or any other node, each with its child nodes in
source order. `pos` tells return statements apart. -/
inductive Node where
  | FuncLit (children : List Node)
  | ReturnStmt (pos : Nat) (children : List Node)
  | Other (children : List Node)
  deriving Repr

end ast

namespace inspector

open ast

mutual
/-- Inspect: `Cursor.Inspect(types, f)` on the subtree of a node, depth first. `f`
is called for a node whose type is in `types` before its children are
visited, and they are visited only when it returns true; the children of any
other node are always visited. `f` works on a state of type `σ`. -/
def Inspect {σ : Type} (types : Node → Bool) (f : σ → Node → σ × Bool) : Node → σ → σ
  | .FuncLit children, s =>
    if types (.FuncLit children) then
      if (f s (.FuncLit children)).2 then InspectList types f children (f s (.FuncLit children)).1
      else (f s (.FuncLit children)).1
    else InspectList types f children s
  | .ReturnStmt pos children, s =>
    if types (.ReturnStmt pos children) then
      if (f s (.ReturnStmt pos children)).2 then
        InspectList types f children (f s (.ReturnStmt pos children)).1
      else (f s (.ReturnStmt pos children)).1
    else InspectList types f children s
  | .Other children, s =>
    if types (.Other children) then
      if (f s (.Other children)).2 then InspectList types f children (f s (.Other children)).1
      else (f s (.Other children)).1
    else InspectList types f children s
/-- The children of a node, one after the other. -/
def InspectList {σ : Type} (types : Node → Bool) (f : σ → Node → σ × Bool) :
    List Node → σ → σ
  | [], s => s
  | n :: rest, s => InspectList types f rest (Inspect types f n s)
end

end inspector

namespace analyze

open ast

/-- The node types `AllReturns` asks the inspector for. -/
def AllReturns.types : Node → Bool
  | .FuncLit _ => true
  | .ReturnStmt _ _ => true
  | .Other _ => false

/-- The function `AllReturns` passes to `Inspect`; its state is `cont` and the
state of the consumer, `yield` is the consumer. -/
def AllReturns.visit {τ : Type} (yield : τ → Node → τ × Bool) (s : Bool × τ) (n : Node) :
    (Bool × τ) × Bool :=
  match n with
  | .FuncLit _ => (s, false)
  | .ReturnStmt _ _ =>
    if s.1 then (((yield s.2 n).2, (yield s.2 n).1), (yield s.2 n).2)
    else (s, s.1)
  | .Other _ => (s, s.1)

/-- AllReturns iterates over the return statements in the tree of the node `b`:
the sequence, run with the consumer `yield` from its state `t`, leaves the
consumer in the state returned. -/
def AllReturns {τ : Type} (b : Node) (yield : τ → Node → τ × Bool) (t : τ) : τ :=
  (inspector.Inspect AllReturns.types (AllReturns.visit yield) b (true, t)).2

/-- The sequence over the elements of a list, in order: `yield` is called on one
element after the other until it returns false. -/
def seqOf {τ : Type} : List Node → (τ → Node → τ × Bool) → τ → τ
  | [], _, t => t
  | x :: xs, yield, t => if (yield t x).2 then seqOf xs yield (yield t x).1 else (yield t x).1

mutual
/-- The return statements of a tree that are in no function literal, in source
order. -/
def outerReturns : Node → List Node
  | .FuncLit _ => []
  | .ReturnStmt pos children => .ReturnStmt pos children :: outerReturnsList children
  | .Other children => outerReturnsList children
/-- The same, over the children of a node. -/
def outerReturnsList : List Node → List Node
  | [] => []
  | n :: rest => outerReturns n ++ outerReturnsList rest
end

/-- The elements of a list given to a consumer for as long as `cont` holds. -/
def deliver {τ : Type} (yield : τ → Node → τ × Bool) : List Node → Bool × τ → Bool × τ
  | [], s => s
  | x :: xs, s => if s.1 then deliver yield xs ((yield s.2 x).2, (yield s.2 x).1) else s

/-- A consumer that keeps the positions of the return statements it is given and
stops after the return statement at `stop`. -/
def collectUntil (stop : Nat) (t : List Nat) (n : Node) : List Nat × Bool :=
  match n with
  | .ReturnStmt pos _ => (t ++ [pos], pos != stop)
  | _ => (t, true)

/-- A function body with return statements at 1, 3 and 5; the first returns the
result of calling a function literal with a return statement at 2, and another
function literal holds a function literal with a return statement at 4. -/
def sampleBody : Node :=
  .Other
    [.ReturnStmt 1 [.Other [.FuncLit [.Other [.ReturnStmt 2 []]]]],
     .Other [.ReturnStmt 3 []],
     .Other [.FuncLit [.Other [.FuncLit [.Other [.ReturnStmt 4 []]]]]],
     .ReturnStmt 5 []]

end analyze

/-! ## `internal/typeutil/funcof.go`, `erroraslist.go` -/

namespace types

/-- SelectionKind: the kind of a selector expression `x.f`. -/
inductive SelectionKind where
  | FieldVal
  | MethodVal
  | MethodExpr
  deriving DecidableEq, Repr

/-- Selection: what `info.Selections` records for a selector expression that is
not a qualified identifier. -/
structure Selection where
  Kind : SelectionKind
  Obj : Object
  deriving DecidableEq, Repr

end types

namespace ast

/-- FunExpr: the expression `n.Fun` of a call, by its dynamic type as far as
`FuncOf` unwraps it. The operand of a selector and the index expressions are
not unwrapped and are plain expressions. -/
inductive FunExpr where
  | Ident (Name : String)
  | SelectorExpr (X : Expr) (Sel : String)
  | IndexExpr (X : FunExpr) (Index : Expr)
  | IndexListExpr (X : FunExpr) (Indices : List Expr)
  | ParenExpr (X : FunExpr)
  | Other (id : Nat)
  deriving DecidableEq, Repr

end ast

namespace typeutil

open types ast

/-- The parts of `*types.Info` that `FuncOf` reads: `Uses` of an identifier,
`Selections` of a selector expression, and whether `Types` records an
expression as a type (`IsType`). -/
structure FuncInfo where
  Uses : String → Option Object
  Selections : Expr → String → Option Selection
  IsType : Expr → Bool

/-- The type assertion `obj.(*types.Func)` on a possibly absent object. -/
def asFunc : Option Object → Option Func × Bool
  | some (.Func f) => (some f, true)
  | _ => (none, false)

/-- The loop of `FuncOf`: `tp` holds the type arguments found so far. It returns
`(fun, typeParams, methodExpr, ok)`. -/
def FuncOf.loop (info : FuncInfo) : FunExpr → List Expr → Option Func × List Expr × Bool × Bool
  | .Ident name, tp => ((asFunc (info.Uses name)).1, tp, false, (asFunc (info.Uses name)).2)
  | .SelectorExpr x sel, tp =>
    match info.Selections x sel with
    | none => ((asFunc (info.Uses sel)).1, tp, false, (asFunc (info.Uses sel)).2)
    | some s =>
      match s.Kind with
      | .MethodVal => ((asFunc (some s.Obj)).1, tp, false, (asFunc (some s.Obj)).2)
      | .MethodExpr => ((asFunc (some s.Obj)).1, tp, true, (asFunc (some s.Obj)).2)
      | .FieldVal => (none, [], false, false)
  | .IndexExpr x index, tp =>
    if tp.length > 0 then (none, [], false, false)
    else if !info.IsType index then (none, [], false, false)
    else loop info x [index]
  | .IndexListExpr x indices, tp =>
    if tp.length > 0 then (none, [], false, false)
    else if indices.any (fun index => !info.IsType index) then (none, [], false, false)
    else loop info x indices
  | .ParenExpr x, tp => loop info x tp
  | .Other _, _ => (none, [], false, false)

/-- FuncOf unwraps an expression to find the function it names. -/
def FuncOf (info : FuncInfo) (ex : FunExpr) : Option Func × List Expr × Bool × Bool :=
  FuncOf.loop info ex []

/-- FuncName: the key of the registry, as its entries are written: package
path, receiver type name (empty for a function), name, and whether the receiver
is a pointer. -/
structure FuncName where
  Path : String
  Receiver : String
  Name : String
  Ptr : Bool
  deriving DecidableEq, Repr

/-- The value of a registry entry. -/
structure Target where
  targetArgIndex : Int
  typeParam : Int
  deriving DecidableEq, Repr

end typeutil

namespace typeutil

open types ast

/-- errorsAs maps functions that behave like errors.As to the argument index of
their target parameter, or to the position of the type parameter that names
the target. -/
def errorsAs : List (FuncName × Target) :=
  [ (⟨"errors", "", "As", false⟩, ⟨1, -1⟩),
    (⟨"reflect", "", "TypeAssert", false⟩, ⟨-1, 0⟩),
    (⟨"golang.org/x/exp/errors", "", "As", false⟩, ⟨1, -1⟩),
    (⟨"golang.org/x/xerrors", "", "As", false⟩, ⟨1, -1⟩),
    (⟨"github.com/pkg/errors", "", "As", false⟩, ⟨1, -1⟩),
    (⟨"github.com/go-errors/errors", "", "As", false⟩, ⟨1, -1⟩),
    (⟨"github.com/cockroachdb/errors", "", "As", false⟩, ⟨1, -1⟩),
    (⟨"github.com/cockroachdb/errors/errutil", "", "As", false⟩, ⟨1, -1⟩),
    (⟨"github.com/juju/errors", "", "As", false⟩, ⟨1, -1⟩),
    (⟨"github.com/juju/errors", "", "AsType", false⟩, ⟨-1, 0⟩),
    (⟨"github.com/juju/errors", "", "HasType", false⟩, ⟨-1, 0⟩),
    (⟨"github.com/stretchr/testify/assert", "", "ErrorAs", false⟩, ⟨2, -1⟩),
    (⟨"github.com/stretchr/testify/assert", "", "ErrorAsf", false⟩, ⟨2, -1⟩),
    (⟨"github.com/stretchr/testify/assert", "", "NotErrorAs", false⟩, ⟨2, -1⟩),
    (⟨"github.com/stretchr/testify/assert", "", "NotErrorAsf", false⟩, ⟨2, -1⟩),
    (⟨"github.com/stretchr/testify/assert", "Assertions", "ErrorAs", true⟩, ⟨1, -1⟩),
    (⟨"github.com/stretchr/testify/assert", "Assertions", "ErrorAsf", true⟩, ⟨1, -1⟩),
    (⟨"github.com/stretchr/testify/assert", "Assertions", "NotErrorAs", true⟩, ⟨1, -1⟩),
    (⟨"github.com/stretchr/testify/assert", "Assertions", "NotErrorAsf", true⟩, ⟨1, -1⟩),
    (⟨"github.com/stretchr/testify/require", "", "ErrorAs", false⟩, ⟨2, -1⟩),
    (⟨"github.com/stretchr/testify/require", "", "ErrorAsf", false⟩, ⟨2, -1⟩),
    (⟨"github.com/stretchr/testify/require", "", "NotErrorAs", false⟩, ⟨2, -1⟩),
    (⟨"github.com/stretchr/testify/require", "", "NotErrorAsf", false⟩, ⟨2, -1⟩),
    (⟨"github.com/stretchr/testify/require", "Assertions", "ErrorAs", true⟩, ⟨1, -1⟩),
    (⟨"github.com/stretchr/testify/require", "Assertions", "ErrorAsf", true⟩, ⟨1, -1⟩),
    (⟨"github.com/stretchr/testify/require", "Assertions", "NotErrorAs", true⟩, ⟨1, -1⟩),
    (⟨"github.com/stretchr/testify/require", "Assertions", "NotErrorAsf", true⟩, ⟨1, -1⟩) ]

/-- IsErrorAs analyzes the callee of a call, `n.Fun`, to determine whether the
call is like errors.As; it returns the resolved function, the type expression
of the target and the index of the target argument, or `nil, nil, -1`.
`FuncNameOf` gives the registry key of a function. `FuncOf` never returns ok
without a function, so the second case of the match is never taken. -/
def IsErrorAs (info : FuncInfo) (FuncNameOf : Func → FuncName) (callee : FunExpr) :
    Option Func × Option Expr × Int :=
  match FuncOf info callee with
  | (_, _, _, false) => (none, none, -1)
  | (none, _, _, true) => (none, none, -1)
  | (some f, typeParams, methodExpr, true) =>
    match gomap.get? errorsAs (FuncNameOf f) with
    | none => (none, none, -1)
    | some target =>
      if target.typeParam ≥ 0 then
        if (typeParams.length : Int) ≤ target.typeParam then (none, none, -1)
        else (some f, typeParams[target.typeParam.toNat]?, -1)
      else
        (some f, none, if methodExpr then target.targetArgIndex + 1 else target.targetArgIndex)

/-- The package `github.com/stretchr/testify/assert`. -/
def assertPkg : Package :=
  { Path := "github.com/stretchr/testify/assert", Name := "assert", Scope := 7 }

/-- The type name `assert.Assertions`. -/
def tnAssertions : types.TypeName :=
  { Name := "Assertions", Pkg := some assertPkg, Parent := 7 }

/-- The function `assert.ErrorAs`. -/
def funcErrorAs : Func :=
  { Name := "ErrorAs", Pkg := some assertPkg, Sig := { Recv := none, Params := [], Results := [] } }

/-- The method `(*assert.Assertions).ErrorAs`. -/
def methodErrorAs : Func :=
  { Name := "ErrorAs"
    Pkg := some assertPkg
    Sig := { Recv := some (.Pointer (.Named tnAssertions .Struct)), Params := [], Results := [] } }

/-- The generic function `reflect.TypeAssert`. -/
def funcTypeAssert : Func :=
  { Name := "TypeAssert"
    Pkg := some { Path := "reflect", Name := "reflect", Scope := 8 }
    Sig := { Recv := none, Params := [], Results := [] } }

/-- A registry key for the sample functions: package path, name, and the
receiver type name of a method. -/
def sampleFuncNameOf (f : Func) : FuncName :=
  { Path := match f.Pkg with
      | some pkg => pkg.Path
      | none => ""
    Receiver := match f.Sig.Recv with
      | some (.Pointer (.Named tn _)) => tn.Name
      | some (.Named tn _) => tn.Name
      | _ => ""
    Name := f.Name
    Ptr := (HasPointerReceiver f.Sig).2 }

/-- The expression `(*assert.Assertions)`. -/
def exprAssertions : Expr := .ParenExpr (.StarExpr (.SelectorExpr (.Ident "assert") "Assertions"))

/-- What the type checker records for the calls of `TestTestify`:
`assert.ErrorAs` is a qualified identifier, `a.ErrorAs` a method value,
`(*assert.Assertions).ErrorAs` a method expression. -/
def testifyInfo : FuncInfo :=
  { Uses := fun name =>
      if name = "ErrorAs" then some (.Func funcErrorAs)
      else if name = "TypeAssert" then some (.Func funcTypeAssert)
      else if name = "a" then some .Var
      else none
    Selections := fun x sel =>
      if x = .Ident "a" ∧ sel = "ErrorAs" then some ⟨.MethodVal, .Func methodErrorAs⟩
      else if x = exprAssertions ∧ sel = "ErrorAs" then some ⟨.MethodExpr, .Func methodErrorAs⟩
      else none
    IsType := fun e => e = .Ident "T" }

end typeutil

namespace typeutil

open types ast

/-- The callee of a call without its parentheses and type arguments. -/
def calleeOf : FunExpr → FunExpr
  | .IndexExpr x _ => calleeOf x
  | .IndexListExpr x _ => calleeOf x
  | .ParenExpr x => calleeOf x
  | e => e

/-- The explicit type arguments of the callee of a call, in order. -/
def typeArgsOf : FunExpr → List Expr
  | .IndexExpr x index => index :: typeArgsOf x
  | .IndexListExpr x indices => indices ++ typeArgsOf x
  | .ParenExpr x => typeArgsOf x
  | _ => []

/-- The call is a method-expression call: its callee is a selector expression
that the type checker records as a method expression. -/
def isMethodExprCall (info : FuncInfo) (callee : FunExpr) : Bool :=
  match calleeOf callee with
  | .SelectorExpr x sel =>
    match info.Selections x sel with
    | some s => s.Kind == .MethodExpr
    | none => false
  | _ => false

end typeutil

namespace detect

/-- What `AddTypeProperty` stores for a property `c` on an old property `v`: the
OR when `v` shares no flag with `c`, and `v` otherwise. -/
def addedTo (c v : Nat) : Nat := if v &&& c = 0 then v ||| c else v

/-- The flags of the categories that rank at or above the alias flags in
`DeterminedType`. -/
def aliasRankMask : ErrorProperty :=
  PointerReceiver ||| OverrideMask ||| PointerVar ||| ValueVar ||| PointerAlias ||| ValueAlias

/-- A struct error type with a value variable, `var _ error = OwnErr{}`. -/
def tnOwnErr : types.TypeName := { Name := "OwnErr", Pkg := some analyze.samplePkg, Parent := 1 }

/-- An alias of it, `type OwnAlias = OwnErr`, with a pointer variable of its own,
`var ErrOwn error = &OwnAlias{}`. -/
def tnOwnAlias : types.TypeName :=
  { Name := "OwnAlias", Pkg := some analyze.samplePkg, Parent := 1 }

/-- The pass after the type and variable declarations of the two were seen. -/
def ownPass : pass :=
  { Pkg := analyze.samplePkg
    Facts := []
    IsAlias := fun tn => tn = tnOwnAlias
    TypeOf := fun tn =>
      if tn = tnOwnAlias then .Alias tnOwnAlias (.Named tnOwnErr .Struct)
      else .Named tn .Struct
    PropertyMap := [(tnOwnErr, ValueVar), (tnOwnAlias, PointerVar)] }

end detect

/-! ## Bit-level lemmas -/

section Bits

theorem and_flag_ne_zero (e i : Nat) : e &&& 2 ^ i ≠ 0 ↔ e.testBit i = true := by
  rw [Nat.and_two_pow]
  cases h : e.testBit i <;> simp [Bool.toNat]

theorem and_flag_eq_zero (e i : Nat) : e &&& 2 ^ i = 0 ↔ e.testBit i = false := by
  have := and_flag_ne_zero e i
  cases h : e.testBit i <;> simp_all

theorem and_pair_eq_left (e i j : Nat) (hij : i ≠ j) :
    e &&& (2 ^ i ||| 2 ^ j) = 2 ^ i ↔ (e.testBit i = true ∧ e.testBit j = false) := by
  constructor
  · intro h
    have hi := congrArg (fun x => x.testBit i) h
    have hj := congrArg (fun x => x.testBit j) h
    simp [Nat.testBit_and, Nat.testBit_or, Nat.testBit_two_pow, hij, hij.symm] at hi hj
    exact ⟨hi, hj⟩
  · rintro ⟨hi, hj⟩
    apply Nat.eq_of_testBit_eq
    intro k
    simp only [Nat.testBit_and, Nat.testBit_or, Nat.testBit_two_pow]
    by_cases h1 : i = k
    · subst h1; simp [hi]
    · by_cases h2 : j = k
      · subst h2; simp [hj, h1]
      · simp [h1, h2]

theorem and_pair_eq_right (e i j : Nat) (hij : i ≠ j) :
    e &&& (2 ^ i ||| 2 ^ j) = 2 ^ j ↔ (e.testBit i = false ∧ e.testBit j = true) := by
  rw [Nat.lor_comm, and_pair_eq_left e j i hij.symm]
  tauto

end Bits

/-! ## The decision resolver -/

namespace detect

theorem propertyPairs_eq_map :
    propertyPairs = pairBits.map (fun ij => (2 ^ ij.1, 2 ^ ij.2)) := by
  decide

theorem pairLoop_eq_bitsLoop (e : ErrorProperty) (l : List (Nat × Nat))
    (hl : ∀ ij ∈ l, ij.1 ≠ ij.2) :
    pairLoop e (l.map (fun ij => (2 ^ ij.1, 2 ^ ij.2))) = bitsLoop e.testBit l := by
  induction l with
  | nil => rfl
  | cons ij rest ih =>
    obtain ⟨i, j⟩ := ij
    have hij : i ≠ j := hl (i, j) (List.mem_cons_self _ _)
    have ih' := ih (fun x hx => hl x (List.mem_cons_of_mem _ hx))
    simp only [List.map_cons, pairLoop, bitsLoop, and_pair_eq_left e i j hij,
      and_pair_eq_right e i j hij, ih']

theorem DeterminedType_eq_bits (e : ErrorProperty) :
    DeterminedType e = bitsDeterminedType e.testBit := by
  have hS : e &&& SuppressOverride ≠ 0 ↔ e.testBit 1 = true := and_flag_ne_zero e 1
  have hR : e &&& PointerReceiver ≠ 0 ↔ e.testBit 0 = true := and_flag_ne_zero e 0
  have hD : e &&& PointerDef ≠ 0 ↔ e.testBit 20 = true := and_flag_ne_zero e 20
  have hL : pairLoop e propertyPairs = bitsLoop e.testBit pairBits := by
    rw [propertyPairs_eq_map]
    exact pairLoop_eq_bitsLoop e pairBits (by decide)
  unfold DeterminedType bitsDeterminedType
  simp only [hS, hR, hD, hL]


theorem isSet_two_pow (e : ErrorProperty) (i : Nat) : isSet e (2 ^ i) ↔ e.testBit i = true :=
  and_flag_ne_zero e i

theorem exactlyOne_two_pow (e : ErrorProperty) (i j : Nat) :
    exactlyOne e (2 ^ i, 2 ^ j) ↔
      ((e.testBit i = true ∧ e.testBit j = false) ∨ (e.testBit i = false ∧ e.testBit j = true)) := by
  simp only [exactlyOne, isSet_two_pow, Bool.not_eq_true]

theorem bitsLoop_first (b : Nat → Bool) (l : List (Nat × Nat)) (k i j : Nat)
    (hk : l[k]? = some (i, j))
    (hone : (b i = true ∧ b j = false) ∨ (b i = false ∧ b j = true))
    (hfirst : ∀ n i' j', n < k → l[n]? = some (i', j') →
      ¬ ((b i' = true ∧ b j' = false) ∨ (b i' = false ∧ b j' = true))) :
    bitsLoop b l =
      some (if b i = true then ErrorType.PointerType else ErrorType.ValueType) := by
  induction l generalizing k with
  | nil => simp at hk
  | cons ij rest ih =>
    obtain ⟨i0, j0⟩ := ij
    cases k with
    | zero =>
      simp only [List.getElem?_cons_zero, Option.some.injEq, Prod.mk.injEq] at hk
      obtain ⟨rfl, rfl⟩ := hk
      rcases hone with ⟨h1, h2⟩ | ⟨h1, h2⟩ <;> simp [bitsLoop, h1, h2]
    | succ k =>
      have h0 := hfirst 0 i0 j0 (Nat.succ_pos k) (by simp)
      have hrest := ih k (by simpa using hk)
        (fun n i' j' hn hget => hfirst (n + 1) i' j' (Nat.succ_lt_succ hn) (by simpa using hget))
      rw [not_or] at h0
      simp only [bitsLoop, h0.1, h0.2, if_false, hrest]

theorem bitsLoop_none (b : Nat → Bool) (l : List (Nat × Nat))
    (h : ∀ ij ∈ l, ¬ ((b ij.1 = true ∧ b ij.2 = false) ∨ (b ij.1 = false ∧ b ij.2 = true))) :
    bitsLoop b l = none := by
  induction l with
  | nil => rfl
  | cons ij rest ih =>
    obtain ⟨i, j⟩ := ij
    have h0 := h (i, j) (List.mem_cons_self _ _)
    rw [not_or] at h0
    simp only [bitsLoop, h0.1, h0.2, if_false]
    exact ih (fun x hx => h x (List.mem_cons_of_mem _ hx))

theorem propertyPairs_getElem? (k : Nat) :
    propertyPairs[k]? = (pairBits[k]?).map (fun ij => (2 ^ ij.1, 2 ^ ij.2)) := by
  rw [propertyPairs_eq_map, List.getElem?_map]

/-- C1: with neither SuppressOverride nor PointerReceiver set, the first pair of
`propertyPairs` (position `k`, all earlier positions having both or neither flag
set) that has exactly one flag set decides: Pointer if its pointer flag is set,
Value if its value flag is set, whatever the later pairs and the remaining
flags hold. -/
theorem DeterminedType_first_decisive_pair (e : ErrorProperty) (k : Nat)
    (p v : ErrorProperty)
    (hS : ¬ isSet e SuppressOverride) (hR : ¬ isSet e PointerReceiver)
    (hk : propertyPairs[k]? = some (p, v))
    (hone : exactlyOne e (p, v))
    (hfirst : ∀ n p' v', n < k → propertyPairs[n]? = some (p', v') → ¬ exactlyOne e (p', v')) :
    (isSet e p → DeterminedType e = ErrorType.PointerType) ∧
    (isSet e v → DeterminedType e = ErrorType.ValueType) := by
  rw [propertyPairs_getElem?] at hk
  obtain ⟨⟨i, j⟩, hij, hpv⟩ := Option.map_eq_some'.mp hk
  simp only [Prod.mk.injEq] at hpv
  obtain ⟨rfl, rfl⟩ := hpv
  have hone' := (exactlyOne_two_pow e i j).mp hone
  have hloop := bitsLoop_first e.testBit pairBits k i j hij hone' (by
    intro n i' j' hn hget
    rw [← exactlyOne_two_pow]
    apply hfirst n _ _ hn
    rw [propertyPairs_getElem?, hget]
    rfl)
  have hS' : e.testBit 1 = false := by
    have := (and_flag_ne_zero e 1).not.mp hS
    simpa using this
  have hR' : e.testBit 0 = false := by
    have := (and_flag_ne_zero e 0).not.mp hR
    simpa using this
  rw [DeterminedType_eq_bits]
  simp only [bitsDeterminedType, hS', hR', hloop, isSet_two_pow]
  rcases hone' with ⟨h1, h2⟩ | ⟨h1, h2⟩ <;> simp [h1, h2]

/-- Witness for C1: the override pair is contradictory, the Var pair says value,
later evidence says pointer. -/
theorem DeterminedType_first_decisive_pair_witness :
    DeterminedType (PointerOverride ||| ValueOverride ||| ValueVar ||| PointerReturn)
      = ErrorType.ValueType :=
  (DeterminedType_first_decisive_pair
    (PointerOverride ||| ValueOverride ||| ValueVar ||| PointerReturn) 1 PointerVar ValueVar
    (by decide) (by decide) (by decide) (by decide)
    (by
      intro n p' v' hn hget
      have h0 : n = 0 := by omega
      subst h0
      have hpv : (PointerOverride, ValueOverride) = (p', v') := by
        simpa [propertyPairs] using hget
      rw [← hpv]
      decide)).2 (by decide)

/-- C2: a mask with SuppressOverride set resolves to Suppress, whatever other
flags are set. -/
theorem DeterminedType_suppress (e : ErrorProperty) (hS : isSet e SuppressOverride) :
    DeterminedType e = ErrorType.SuppressType := by
  unfold DeterminedType
  rw [if_pos hS]

/-- Witness for C2: SuppressOverride together with PointerReceiver and both
overrides. -/
theorem DeterminedType_suppress_witness :
    DeterminedType (SuppressOverride ||| PointerReceiver ||| PointerOverride ||| ValueOverride)
      = ErrorType.SuppressType :=
  DeterminedType_suppress _ (by decide)

/-- C3: a mask with PointerReceiver set and SuppressOverride not set resolves to
Pointer, whatever other flags are set. -/
theorem DeterminedType_pointerReceiver (e : ErrorProperty)
    (hR : isSet e PointerReceiver) (hS : ¬ isSet e SuppressOverride) :
    DeterminedType e = ErrorType.PointerType := by
  unfold DeterminedType
  rw [if_neg hS, if_pos hR]

/-- Witness for C3: PointerReceiver with a value override and value usage. -/
theorem DeterminedType_pointerReceiver_witness :
    DeterminedType (PointerReceiver ||| ValueOverride ||| ValueReturn ||| ValueVar)
      = ErrorType.PointerType :=
  DeterminedType_pointerReceiver _ (by decide) (by decide)


theorem testBit_clearFlags_pair (e i j k : Nat) :
    (clearFlags e (2 ^ i ||| 2 ^ j)).testBit k
      = (e.testBit k && !(decide (i = k) || decide (j = k))) := by
  unfold clearFlags
  rw [Nat.testBit_xor, Nat.testBit_and, Nat.testBit_or, Nat.testBit_two_pow,
    Nat.testBit_two_pow]
  cases e.testBit k <;> cases decide (i = k) <;> cases decide (j = k) <;> rfl

theorem testBit_clearFlags_pair_of_ne (e i j k : Nat) (hi : i ≠ k) (hj : j ≠ k) :
    (clearFlags e (2 ^ i ||| 2 ^ j)).testBit k = e.testBit k := by
  rw [testBit_clearFlags_pair]
  simp [hi, hj]

theorem bitsLoop_congr (b b' : Nat → Bool) (l : List (Nat × Nat))
    (h : ∀ ij ∈ l, (b ij.1 = b' ij.1 ∧ b ij.2 = b' ij.2) ∨
      (b ij.1 = b ij.2 ∧ b' ij.1 = b' ij.2)) :
    bitsLoop b l = bitsLoop b' l := by
  induction l with
  | nil => rfl
  | cons ij rest ih =>
    obtain ⟨i, j⟩ := ij
    have ih' := ih (fun x hx => h x (List.mem_cons_of_mem _ hx))
    have h0 := h (i, j) (List.mem_cons_self _ _)
    simp only at h0
    simp only [bitsLoop, ih']
    rcases h0 with ⟨h1, h2⟩ | ⟨h1, h2⟩
    · rw [h1, h2]
    · rw [h1, h2]
      cases b j <;> cases b' j <;> simp

theorem pairBits_separate :
    ∀ ij ∈ pairBits, (ij.1 ≠ 0 ∧ ij.2 ≠ 0 ∧ ij.1 ≠ 1 ∧ ij.2 ≠ 1 ∧ ij.1 ≠ 20 ∧ ij.2 ≠ 20) ∧
      ∀ ab ∈ pairBits, ab = ij ∨
        (ij.1 ≠ ab.1 ∧ ij.2 ≠ ab.1 ∧ ij.1 ≠ ab.2 ∧ ij.2 ≠ ab.2) := by
  decide

/-- C4 (contradiction-neutrality): when both flags of one category pair are set,
the resolver returns what it returns with both flags cleared. -/
theorem DeterminedType_contradiction_neutral (e : ErrorProperty)
    (P V : ErrorProperty) (hmem : (P, V) ∈ propertyPairs)
    (hP : isSet e P) (hV : isSet e V) :
    DeterminedType e = DeterminedType (clearFlags e (P ||| V)) := by
  rw [propertyPairs_eq_map, List.mem_map] at hmem
  obtain ⟨⟨i, j⟩, hij, hpv⟩ := hmem
  simp only [Prod.mk.injEq] at hpv
  obtain ⟨rfl, rfl⟩ := hpv
  rw [isSet_two_pow] at hP hV
  obtain ⟨⟨hi0, hj0, hi1, hj1, hi20, hj20⟩, hsep⟩ := pairBits_separate (i, j) hij
  simp only at hi0 hj0 hi1 hj1 hi20 hj20
  rw [DeterminedType_eq_bits, DeterminedType_eq_bits]
  have hloop : bitsLoop e.testBit pairBits
      = bitsLoop (clearFlags e (2 ^ i ||| 2 ^ j)).testBit pairBits := by
    apply bitsLoop_congr
    intro ab hab
    rcases hsep ab hab with rfl | ⟨h1, h2, h3, h4⟩
    · right
      simp only at hP hV ⊢
      refine ⟨by rw [hP, hV], ?_⟩
      rw [testBit_clearFlags_pair, testBit_clearFlags_pair]
      simp
    · left
      simp only at h1 h2 h3 h4
      exact ⟨(testBit_clearFlags_pair_of_ne e i j ab.1 h1 h2).symm,
        (testBit_clearFlags_pair_of_ne e i j ab.2 h3 h4).symm⟩
  simp only [bitsDeterminedType, ← hloop,
    testBit_clearFlags_pair_of_ne e i j 0 hi0 hj0,
    testBit_clearFlags_pair_of_ne e i j 1 hi1 hj1,
    testBit_clearFlags_pair_of_ne e i j 20 hi20 hj20]

/-- Witness for C4: a contradictory Return pair above pointer Assert evidence. -/
theorem DeterminedType_contradiction_neutral_witness :
    DeterminedType (PointerReturn ||| ValueReturn ||| PointerAssert)
      = DeterminedType
          (clearFlags (PointerReturn ||| ValueReturn ||| PointerAssert)
            (PointerReturn ||| ValueReturn)) :=
  DeterminedType_contradiction_neutral (PointerReturn ||| ValueReturn ||| PointerAssert)
    PointerReturn ValueReturn (by decide) (by decide) (by decide)

/-- C5: with neither SuppressOverride nor PointerReceiver set and every category
pair having both or neither of its flags set, the result is Value if PointerDef
is set and Undecided otherwise; NonStruct plays no part. -/
theorem DeterminedType_fallback (e : ErrorProperty)
    (hS : ¬ isSet e SuppressOverride) (hR : ¬ isSet e PointerReceiver)
    (hpairs : ∀ pair ∈ propertyPairs, ¬ exactlyOne e pair) :
    DeterminedType e =
      if isSet e PointerDef then ErrorType.ValueType else ErrorType.Undecided := by
  have hS' : e.testBit 1 = false := by
    have := (and_flag_ne_zero e 1).not.mp hS
    simpa using this
  have hR' : e.testBit 0 = false := by
    have := (and_flag_ne_zero e 0).not.mp hR
    simpa using this
  have hD : isSet e PointerDef ↔ e.testBit 20 = true := and_flag_ne_zero e 20
  have hloop : bitsLoop e.testBit pairBits = none := by
    apply bitsLoop_none
    intro ij hij
    rw [← exactlyOne_two_pow]
    apply hpairs
    rw [propertyPairs_eq_map]
    exact List.mem_map.mpr ⟨ij, hij, rfl⟩
  rw [DeterminedType_eq_bits]
  simp only [bitsDeterminedType, hS', hR', hloop, hD]
  simp

/-- Witness for C5: PointerDef and NonStruct with a contradictory Literal pair. -/
theorem DeterminedType_fallback_witness :
    DeterminedType (PointerDef ||| NonStruct ||| PointerLiteral ||| ValueLiteral)
      = ErrorType.ValueType :=
  (DeterminedType_fallback (PointerDef ||| NonStruct ||| PointerLiteral ||| ValueLiteral)
    (by decide) (by decide) (by decide)).trans (by decide)

/-- C6, as stated, fails: with PointerReceiver and SuppressOverride both set the
resolver returns Suppress, not Pointer. -/
theorem suppress_above_pointerReceiver :
    isSet (PointerReceiver ||| SuppressOverride) PointerReceiver ∧
    DeterminedType (PointerReceiver ||| SuppressOverride) = ErrorType.SuppressType ∧
    DeterminedType (PointerReceiver ||| SuppressOverride) ≠ ErrorType.PointerType := by
  decide

/-- C6, amended: with PointerReceiver set the result is Suppress when
SuppressOverride is set and Pointer otherwise, also when PointerOverride or
ValueOverride (or any other flag) is set: pointer-receiver evidence ranks above
every pointer or value override and all usage evidence, and below the suppress
override. -/
theorem pointerReceiver_precedence (e : ErrorProperty)
    (hR : isSet e PointerReceiver) :
    DeterminedType e =
      if isSet e SuppressOverride then ErrorType.SuppressType else ErrorType.PointerType := by
  unfold DeterminedType
  by_cases hS : e &&& SuppressOverride ≠ 0
  · rw [if_pos hS, if_pos hS]
  · rw [if_neg hS, if_pos hR, if_neg hS]

/-- Witness for amended C6: PointerReceiver with both the value and the suppress
override. -/
theorem pointerReceiver_precedence_witness :
    DeterminedType (PointerReceiver ||| ValueOverride ||| SuppressOverride)
      = ErrorType.SuppressType :=
  (pointerReceiver_precedence
    (PointerReceiver ||| ValueOverride ||| SuppressOverride) (by decide)).trans (by decide)

end detect

/-! ## The usage map -/

namespace errortypes

open types

theorem or_and_mask (old et m : Nat) (h : et &&& m = 0) : (old ||| et) &&& m = old &&& m := by
  apply Nat.eq_of_testBit_eq
  intro k
  have hk := congrArg (fun x => x.testBit k) h
  simp only [Nat.testBit_and, Nat.testBit_or, Nat.zero_testBit] at hk ⊢
  cases h1 : old.testBit k <;> cases h2 : et.testBit k <;> cases h3 : m.testBit k <;> simp_all

theorem GetTypeProperty_SetTypeProperty_same (p : PropertyMap) (tn : TypeName) (v : Nat) :
    (p.SetTypeProperty tn v).GetTypeProperty tn = (v, true) := by
  induction p with
  | nil => simp [PropertyMap.SetTypeProperty, PropertyMap.GetTypeProperty]
  | cons kv rest ih =>
    obtain ⟨k, w⟩ := kv
    by_cases hk : k = tn
    · simp [PropertyMap.SetTypeProperty, PropertyMap.GetTypeProperty, hk]
    · simp [PropertyMap.SetTypeProperty, PropertyMap.GetTypeProperty, hk, ih]

theorem GetTypeProperty_SetTypeProperty_ne (p : PropertyMap) (tn tn' : TypeName) (v : Nat)
    (h : tn' ≠ tn) :
    (p.SetTypeProperty tn v).GetTypeProperty tn' = p.GetTypeProperty tn' := by
  induction p with
  | nil =>
    simp [PropertyMap.SetTypeProperty, PropertyMap.GetTypeProperty, Ne.symm h]
  | cons kv rest ih =>
    obtain ⟨k, w⟩ := kv
    by_cases hk : k = tn
    · subst hk
      simp [PropertyMap.SetTypeProperty, PropertyMap.GetTypeProperty, Ne.symm h]
    · by_cases hk' : k = tn'
      · subst hk'
        simp [PropertyMap.SetTypeProperty, PropertyMap.GetTypeProperty, h]
      · simp [PropertyMap.SetTypeProperty, PropertyMap.GetTypeProperty, hk, hk', ih]

theorem AddTypeProperty_old (p : PropertyMap) (tn : TypeName) (newProperty : Nat) :
    (p.AddTypeProperty tn newProperty).2 = (p.GetTypeProperty tn).1 := by
  unfold PropertyMap.AddTypeProperty
  split
  split <;> simp_all

theorem AddTypeProperty_get_ne (p : PropertyMap) (tn tn' : TypeName) (newProperty : Nat)
    (h : tn' ≠ tn) :
    (p.AddTypeProperty tn newProperty).1.GetTypeProperty tn' = p.GetTypeProperty tn' := by
  unfold PropertyMap.AddTypeProperty
  split
  split
  · exact GetTypeProperty_SetTypeProperty_ne p tn tn' _ h
  · rfl

theorem AddTypeProperty_get_same_masked (p : PropertyMap) (tn : TypeName)
    (newProperty m : Nat) (h : newProperty &&& m = 0) :
    ((p.AddTypeProperty tn newProperty).1.GetTypeProperty tn).1 &&& m
      = (p.GetTypeProperty tn).1 &&& m := by
  unfold PropertyMap.AddTypeProperty
  split
  rename_i old ok hget
  split
  · rw [GetTypeProperty_SetTypeProperty_same]
    simp only [hget]
    exact or_and_mask old newProperty m h
  · rfl

end errortypes

/-! ## The usage verifier -/

namespace analyze

open types ast errortypes

theorem recordAndLookup_usage (p : pass) (tn : TypeName) (isPtr : Bool) :
    (recordAndLookup p tn isPtr).2 = expected p tn := by
  simp only [recordAndLookup, expected]
  rw [AddTypeProperty_old]

theorem recordAndLookup_expected (p : pass) (tn tn' : TypeName) (isPtr : Bool) :
    expected (recordAndLookup p tn isPtr).1 tn' = expected p tn' := by
  simp only [recordAndLookup, expected]
  by_cases h : tn' = tn
  · subst h
    apply AddTypeProperty_get_same_masked
    cases isPtr <;> decide
  · rw [AddTypeProperty_get_ne _ _ _ _ h]

/-- What `checkErrorUsage` does at a site of a package-level type name: the
switch over the expected usage, and the expectation of every type name is
left as it was. -/
theorem checkErrorUsage_site (p : pass) (t : GoType) (tn : TypeName) (isPtr : Bool)
    (pkg : Package)
    (hI : IsInterface t = false) (hT : typeutil.TypeNameOf t = (some tn, isPtr, true))
    (hpkg : tn.Pkg = some pkg) (hscope : tn.Parent = pkg.Scope) :
    (checkErrorUsage p t).calls =
      (if expected p tn = PointerExpected then
        (if !isPtr then [ReporterCall.ShouldBePointer tn] else [])
      else if expected p tn = ValueExpected then
        (if isPtr then [ReporterCall.ShouldBeValue tn] else [])
      else if expected p tn = SuppressExpected then []
      else if expected p tn = None then [ReporterCall.UndeterminedUsage tn isPtr]
      else []) ∧
    ((checkErrorUsage p t).panicked =
      (if expected p tn = PointerExpected then false
      else if expected p tn = ValueExpected then false
      else if expected p tn = SuppressExpected then false
      else if expected p tn = None then false
      else true)) ∧
    ∀ tn', expected (checkErrorUsage p t).pass tn' = expected p tn' := by
  have hu := recordAndLookup_usage p tn isPtr
  have he := fun tn' => recordAndLookup_expected p tn tn' isPtr
  unfold checkErrorUsage
  simp only [hI, hT, hpkg, scopeOf, hscope]
  generalize recordAndLookup p tn isPtr = r at hu he
  obtain ⟨p', usage⟩ := r
  simp only at hu he
  subst hu
  simp only [Bool.false_eq_true, if_false, ne_eq, not_true_eq_false]
  refine ⟨?_, ?_, ?_⟩
  · split_ifs <;> rfl
  · split_ifs <;> rfl
  · intro tn'
    split_ifs <;> exact he tn'

/-- Every step of `checkErrorUsage` leaves the expectation of every type name
as it was. -/
theorem checkErrorUsage_expected (p : pass) (t : GoType) (tn' : TypeName) :
    expected (checkErrorUsage p t).pass tn' = expected p tn' := by
  unfold checkErrorUsage
  split
  · rfl
  · split
    · rfl
    · rfl
    · rename_i tn isPtr _
      split
      · rfl
      · have he := recordAndLookup_expected p tn tn' isPtr
        generalize recordAndLookup p tn isPtr = r at he
        obtain ⟨p', usage⟩ := r
        simp only at he ⊢
        split_ifs <;> exact he

/-- No call that `checkErrorUsage` makes is about a type name whose expected
usage is Suppress. -/
theorem checkErrorUsage_calls_not_suppressed (p : pass) (t : GoType) :
    ∀ c ∈ (checkErrorUsage p t).calls, expected p c.typeName ≠ SuppressExpected := by
  unfold checkErrorUsage
  split
  · simp
  · split
    · simp
    · simp
    · rename_i tn isPtr _
      split
      · simp
      · have hu := recordAndLookup_usage p tn isPtr
        generalize recordAndLookup p tn isPtr = r at hu
        obtain ⟨p', usage⟩ := r
        simp only at hu ⊢
        subst hu
        intro c hc
        split_ifs at hc with h1 h2 h3 h4 h5 h6
        all_goals simp only [List.mem_singleton, List.not_mem_nil] at hc
        · subst hc
          simp only [ReporterCall.typeName, h1]
          decide
        · subst hc
          simp only [ReporterCall.typeName, h3]
          decide
        · subst hc
          simp only [ReporterCall.typeName]
          assumption

theorem checkSites_calls_not_suppressed (sites : List GoType) :
    ∀ p : pass, ∀ c ∈ (checkSites p sites).calls,
      expected p c.typeName ≠ SuppressExpected := by
  induction sites with
  | nil => intro p c hc; simp [checkSites] at hc
  | cons t rest ih =>
    intro p c hc
    simp only [checkSites] at hc
    split_ifs at hc with hpanic
    · exact checkErrorUsage_calls_not_suppressed p t c hc
    · simp only [List.mem_append] at hc
      rcases hc with hc | hc
      · exact checkErrorUsage_calls_not_suppressed p t c hc
      · have := ih (checkErrorUsage p t).pass c hc
        rwa [checkErrorUsage_expected] at this

/-- C7: at a usage site of a package-level, non-interface type name whose
expected usage is Pointer or Value, `checkErrorUsage` calls ShouldBePointer
exactly when Pointer is expected and the site is a value, ShouldBeValue exactly
when Value is expected and the site is a pointer, and nothing when the shape
agrees; it does not panic and leaves the expectation as it was, so the same
holds at every later site, whatever was observed before. -/
theorem checkErrorUsage_mismatch (p : pass) (t : GoType) (tn : TypeName) (isPtr : Bool)
    (pkg : Package)
    (hI : IsInterface t = false) (hT : typeutil.TypeNameOf t = (some tn, isPtr, true))
    (hpkg : tn.Pkg = some pkg) (hscope : tn.Parent = pkg.Scope)
    (hexp : expected p tn = PointerExpected ∨ expected p tn = ValueExpected) :
    (checkErrorUsage p t).calls =
      (if expected p tn = PointerExpected ∧ isPtr = false then [ReporterCall.ShouldBePointer tn]
      else if expected p tn = ValueExpected ∧ isPtr = true then [ReporterCall.ShouldBeValue tn]
      else []) ∧
    (checkErrorUsage p t).panicked = false ∧
    expected (checkErrorUsage p t).pass tn = expected p tn := by
  obtain ⟨hc, hp, he⟩ := checkErrorUsage_site p t tn isPtr pkg hI hT hpkg hscope
  refine ⟨?_, ?_, he tn⟩
  · rw [hc]
    rcases hexp with h | h
    · have hne : ¬ (PointerExpected = ValueExpected) := by decide
      cases isPtr <;> simp [h, hne]
    · have hne : ¬ (ValueExpected = PointerExpected) := by decide
      cases isPtr <;> simp [h, hne]
  · rw [hp]
    rcases hexp with h | h
    · simp [h]
    · simp [h]


/-- Witness for C7: `ErrorsAsValue` is a value type, the site is `*ErrorsAsValue`. -/
theorem checkErrorUsage_mismatch_witness :
    (checkErrorUsage samplePass (.Pointer typErrorsAsValue)).calls
      = [ReporterCall.ShouldBeValue tnErrorsAsValue] :=
  (checkErrorUsage_mismatch samplePass (.Pointer typErrorsAsValue) tnErrorsAsValue true
    samplePkg (by decide) (by decide) (by decide) (by decide) (by decide)).1.trans (by decide)

/-- C8: when the expected usage of a type name is Suppress, no sequence of usage
sites, of whatever types, shapes and order, makes `checkErrorUsage` call
ShouldBePointer, ShouldBeValue or UndeterminedUsage for that type name. -/
theorem checkSites_suppress_silent (p : pass) (tn : TypeName)
    (hexp : expected p tn = SuppressExpected) (sites : List GoType) :
    ReporterCall.ShouldBePointer tn ∉ (checkSites p sites).calls ∧
    ReporterCall.ShouldBeValue tn ∉ (checkSites p sites).calls ∧
    ∀ isPtr, ReporterCall.UndeterminedUsage tn isPtr ∉ (checkSites p sites).calls := by
  have h := checkSites_calls_not_suppressed sites p
  refine ⟨fun hc => h _ hc hexp, fun hc => h _ hc hexp, fun isPtr hc => h _ hc hexp⟩

/-- Witness for C8: `SuppressOverride` used as value and as pointer, between
sites of other types. -/
theorem checkSites_suppress_silent_witness :
    ReporterCall.ShouldBePointer tnSuppressOverride ∉
        (checkSites samplePass [typSuppressOverride, .Pointer typErrorsAsValue,
          .Pointer typSuppressOverride, typEmbeddedPointer]).calls ∧
    ReporterCall.ShouldBeValue tnSuppressOverride ∉
        (checkSites samplePass [typSuppressOverride, .Pointer typErrorsAsValue,
          .Pointer typSuppressOverride, typEmbeddedPointer]).calls ∧
    ∀ isPtr, ReporterCall.UndeterminedUsage tnSuppressOverride isPtr ∉
        (checkSites samplePass [typSuppressOverride, .Pointer typErrorsAsValue,
          .Pointer typSuppressOverride, typEmbeddedPointer]).calls :=
  checkSites_suppress_silent samplePass tnSuppressOverride (by decide)
    [typSuppressOverride, .Pointer typErrorsAsValue, .Pointer typSuppressOverride,
      typEmbeddedPointer]

/-- C10: at a usage site of a package-level, non-interface type name that has no
expected usage, `checkErrorUsage` calls UndeterminedUsage once, with the shape
of that site, and nothing else; it does not panic and the type name still has
no expected usage afterwards, so the same holds at every later site, whatever
shapes were observed before. -/
theorem checkErrorUsage_undetermined (p : pass) (t : GoType) (tn : TypeName) (isPtr : Bool)
    (pkg : Package)
    (hI : IsInterface t = false) (hT : typeutil.TypeNameOf t = (some tn, isPtr, true))
    (hpkg : tn.Pkg = some pkg) (hscope : tn.Parent = pkg.Scope)
    (hexp : expected p tn = None) :
    (checkErrorUsage p t).calls = [ReporterCall.UndeterminedUsage tn isPtr] ∧
    (checkErrorUsage p t).panicked = false ∧
    expected (checkErrorUsage p t).pass tn = None := by
  obtain ⟨hc, hp, he⟩ := checkErrorUsage_site p t tn isPtr pkg hI hT hpkg hscope
  have h1 : ¬ (None = PointerExpected) := by decide
  have h2 : ¬ (None = ValueExpected) := by decide
  have h3 : ¬ (None = SuppressExpected) := by decide
  refine ⟨?_, ?_, ?_⟩
  · rw [hc, hexp]
    simp [h1, h2, h3]
  · rw [hp, hexp]
    simp [h1, h2, h3]
  · rw [he tn, hexp]

/-- Witness for C10: `EmbeddedPointer` is not detected; the second site, a
pointer, comes after a value site of the same type. -/
theorem checkErrorUsage_undetermined_witness :
    (checkErrorUsage (checkErrorUsage samplePass typEmbeddedPointer).pass
        (.Pointer typEmbeddedPointer)).calls
      = [ReporterCall.UndeterminedUsage tnEmbeddedPointer true] :=
  (checkErrorUsage_undetermined (checkErrorUsage samplePass typEmbeddedPointer).pass
    (.Pointer typEmbeddedPointer) tnEmbeddedPointer true samplePkg
    (by decide) (by decide) (by decide) (by decide) (by decide)).1


/-- At a site of a suppressed, package-level type name `checkErrorUsage` makes no
reporter call and does not panic. -/
theorem checkErrorUsage_suppressed (p : pass) (t : GoType) (tn : TypeName) (isPtr : Bool)
    (pkg : Package)
    (hI : IsInterface t = false) (hT : typeutil.TypeNameOf t = (some tn, isPtr, true))
    (hpkg : tn.Pkg = some pkg) (hscope : tn.Parent = pkg.Scope)
    (hexp : expected p tn = SuppressExpected) :
    (checkErrorUsage p t).calls = [] ∧ (checkErrorUsage p t).panicked = false := by
  obtain ⟨hc, hp, _⟩ := checkErrorUsage_site p t tn isPtr pkg hI hT hpkg hscope
  have h1 : ¬ (SuppressExpected = PointerExpected) := by decide
  have h2 : ¬ (SuppressExpected = ValueExpected) := by decide
  refine ⟨?_, ?_⟩
  · rw [hc, hexp]
    simp [h1, h2]
  · rw [hp, hexp]
    simp [h1, h2]

/-- C9, as stated, fails: with the style check enabled, `errors.As(err,
&SuppressOverride{})` gets a style (et:sty) diagnostic although
`SuppressOverride` is suppressed, and `errors.As(err, &po)` with `po` of the
suppressed type `PointerOnly`, which has no `Error` method of its own, gets a
malformed-target (et:arg) diagnostic. -/
theorem suppressed_target_still_reported :
    expected samplePass tnSuppressOverride = SuppressExpected ∧
    (handleErrorsAs samplePass
        { Fun := .SelectorExpr (.Ident "errors") "As", Args := [.Ident "err", targetLiteral] }
        sampleIsErrorAs true).diags = [⟨targetLiteral, report.Tag.sty⟩] ∧
    expected samplePass tnPointerOnly = SuppressExpected ∧
    (handleErrorsAs samplePass
        { Fun := .SelectorExpr (.Ident "errors") "As", Args := [.Ident "err", targetPointerOnly] }
        sampleIsErrorAs true).diags = [⟨targetPointerOnly, report.Tag.arg⟩] := by
  decide

/-- C9, amended: for a call resolved as errors.As-like with target argument
`targetArg`, a value whose type is a pointer to `elemType`, where `elemType` is a
suppressed package-level type or a pointer to one, `handleErrorsAs` reports no
usage diagnostic (et:err, et:err+, et:emb, et:emb+). What it reports does not
depend on the suppression: the malformed-target diagnostic (et:arg) when
`elemType` has no `Error() string` method, and otherwise, with the style check
enabled, the style diagnostic (et:sty) when the target is not an address
operation on a variable. -/
theorem handleErrorsAs_suppressed (p : pass) (n : CallExpr)
    (isErrorAs : CallExpr → Option Func × Option Expr × Int) (styleCheck : Bool)
    (f : Func) (idx : Nat) (targetArg : Expr) (targetType elemType : GoType)
    (tn : TypeName) (isPtr : Bool) (pkg : Package)
    (hres : isErrorAs n = (some f, none, (idx : Int)))
    (hget : n.Args[idx]? = some targetArg)
    (htv : p.TypesInfo.Types targetArg = ⟨true, some targetType⟩)
    (hptr : targetType.Underlying = .Pointer elemType)
    (hI : IsInterface elemType = false)
    (hT : typeutil.TypeNameOf elemType = (some tn, isPtr, true))
    (hpkg : tn.Pkg = some pkg) (hscope : tn.Parent = pkg.Scope)
    (hexp : expected p tn = SuppressExpected) :
    (handleErrorsAs p n isErrorAs styleCheck).diags =
      (if typeutil.HasErrorMethod p.TypesInfo.LookupFieldOrMethod elemType = false then
        [⟨targetArg, report.Tag.arg⟩]
      else if styleCheck = true ∧ (report.Base.mk targetArg).varID.2 = false then
        [⟨targetArg, report.Tag.sty⟩]
      else []) ∧
    (handleErrorsAs p n isErrorAs styleCheck).panicked = false := by
  obtain ⟨hc, hp⟩ := checkErrorUsage_suppressed p elemType tn isPtr pkg hI hT hpkg hscope hexp
  have hlt : idx < n.Args.length := by
    rcases Nat.lt_or_ge idx n.Args.length with h | h
    · exact h
    · rw [List.getElem?_eq_none h] at hget
      cases hget
  have hlen : ¬ (n.Args.length = 0) := by omega
  have h0 : ¬ ((idx : Int) < 0) := by omega
  have h1 : ¬ ((idx : Int) ≥ 0 ∧ (idx : Int) ≥ (n.Args.length : Int)) := by omega
  unfold handleErrorsAs
  simp only [hlen, if_false, hres, h0, h1, Int.toNat_ofNat, hget, htv, hptr, hI]
  cases hE : typeutil.HasErrorMethod p.TypesInfo.LookupFieldOrMethod elemType
  · simp
  · simp only [hc, hp, report.ErrorsAs.CheckStyle, ErrorsAsReporter]
    cases styleCheck <;> cases (report.Base.mk targetArg).varID.2 <;> simp

/-- Witness for amended C9: `errors.As(err, &so)` with `so` of the suppressed type
`SuppressOverride` and the style check enabled reports nothing. -/
theorem handleErrorsAs_suppressed_witness :
    (handleErrorsAs samplePass
        { Fun := .SelectorExpr (.Ident "errors") "As", Args := [.Ident "err", targetVariable] }
        sampleIsErrorAs true).diags = [] :=
  (handleErrorsAs_suppressed samplePass
    { Fun := .SelectorExpr (.Ident "errors") "As", Args := [.Ident "err", targetVariable] }
    sampleIsErrorAs true errorsAsFunc 1 targetVariable (.Pointer typSuppressOverride)
    typSuppressOverride tnSuppressOverride false samplePkg
    (by decide) (by decide) (by decide) (by decide) (by decide) (by decide) (by decide)
    (by decide) (by decide)).1.trans (by decide)

end analyze

/-! ## Malformed targets of errors.As like calls -/

namespace analyze

open types ast errortypes

/-- The diagnostics an `ErrorsAs` reporter delivers for reporter calls carry
none of the tags `arg` and `sty`. -/
theorem ErrorsAs_deliver_tags (e : Expr) (f : Func) (calls : List ReporterCall) :
    ∀ d ∈ calls.flatMap (ErrorsAsReporter e f).reporter.deliver,
      d.Tag ≠ report.Tag.arg ∧ d.Tag ≠ report.Tag.sty := by
  intro d hd
  rw [List.mem_flatMap] at hd
  obtain ⟨c, _, hc⟩ := hd
  cases c with
  | ShouldBeValue tn =>
    simp only [UsageReporter.deliver, report.ErrorsAs.reporter, report.ErrorsAs.ShouldBeValue,
      List.mem_singleton] at hc
    subst hc
    exact ⟨by simp, by simp⟩
  | ShouldBePointer tn =>
    simp only [UsageReporter.deliver, report.ErrorsAs.reporter, report.ErrorsAs.ShouldBePointer,
      List.mem_singleton] at hc
    subst hc
    exact ⟨by simp, by simp⟩
  | UndeterminedUsage tn isPtr =>
    simp only [UsageReporter.deliver, report.ErrorsAs.reporter, report.Base.UndeterminedUsage,
      List.mem_singleton] at hc
    subst hc
    cases isPtr <;> exact ⟨by simp, by simp⟩

theorem CheckStyle_tags (r : report.ErrorsAs) (t : GoType) :
    ∀ d ∈ r.CheckStyle t, d.Tag ≠ report.Tag.arg := by
  intro d hd
  unfold report.ErrorsAs.CheckStyle at hd
  split_ifs at hd
  · simp at hd
  · simp only [List.mem_singleton] at hd
    subst hd
    simp

/-- C11: for a call resolved as errors.As-like with a target argument that the
type checker records as a value of type `targetType`, `handleErrorsAs` reports a
malformed-target (et:arg) diagnostic exactly when the underlying type of the
target is a pointer to a non-interface type without `Error() string` method, or
is neither a pointer nor an interface. For a pointer to an interface and for an
interface it reports nothing and leaves the usage map as it is. Whenever it
reports a malformed target, that is the only diagnostic of the call and the
usage map is left as it is. -/
theorem handleErrorsAs_malformed_target (p : pass) (n : CallExpr)
    (isErrorAs : CallExpr → Option Func × Option Expr × Int) (styleCheck : Bool)
    (f : Func) (idx : Nat) (targetArg : Expr) (targetType : GoType)
    (hres : isErrorAs n = (some f, none, (idx : Int)))
    (hget : n.Args[idx]? = some targetArg)
    (htv : p.TypesInfo.Types targetArg = ⟨true, some targetType⟩) :
    ((∃ d ∈ (handleErrorsAs p n isErrorAs styleCheck).diags, d.Tag = report.Tag.arg) ↔
      ((∃ elem, targetType.Underlying = .Pointer elem ∧ IsInterface elem = false ∧
          typeutil.HasErrorMethod p.TypesInfo.LookupFieldOrMethod elem = false) ∨
        ((∀ elem, targetType.Underlying ≠ .Pointer elem) ∧
          targetType.Underlying ≠ .Interface))) ∧
    (((∃ elem, targetType.Underlying = .Pointer elem ∧ IsInterface elem = true) ∨
        targetType.Underlying = .Interface) →
      (handleErrorsAs p n isErrorAs styleCheck).diags = [] ∧
      (handleErrorsAs p n isErrorAs styleCheck).pass.errorUsages = p.errorUsages ∧
      (handleErrorsAs p n isErrorAs styleCheck).panicked = false) ∧
    ((∃ d ∈ (handleErrorsAs p n isErrorAs styleCheck).diags, d.Tag = report.Tag.arg) →
      (handleErrorsAs p n isErrorAs styleCheck).diags = [⟨targetArg, report.Tag.arg⟩] ∧
      (handleErrorsAs p n isErrorAs styleCheck).pass.errorUsages = p.errorUsages) := by
  have hlt : idx < n.Args.length := by
    rcases Nat.lt_or_ge idx n.Args.length with h | h
    · exact h
    · rw [List.getElem?_eq_none h] at hget
      cases hget
  have hlen : ¬ (n.Args.length = 0) := by omega
  have h0 : ¬ ((idx : Int) < 0) := by omega
  have h1 : ¬ ((idx : Int) ≥ 0 ∧ (idx : Int) ≥ (n.Args.length : Int)) := by omega
  unfold handleErrorsAs
  simp only [hlen, if_false, hres, h0, h1, Int.toNat_ofNat, hget, htv]
  generalize targetType.Underlying = U
  cases U with
  | Pointer elem =>
    cases hI : IsInterface elem
    · cases hE : typeutil.HasErrorMethod p.TypesInfo.LookupFieldOrMethod elem
      · simp [hI, hE]
      · have hu := ErrorsAs_deliver_tags targetArg f (checkErrorUsage p elem).calls
        have hs := CheckStyle_tags (ErrorsAsReporter targetArg f) elem
        simp only [hI, hE, Bool.false_eq_true, if_false, Bool.not_true, List.nil_append]
        have hno : ¬ ∃ d ∈ (if (checkErrorUsage p elem).panicked = true then
              (⟨(checkErrorUsage p elem).pass,
                (checkErrorUsage p elem).calls.flatMap
                  (ErrorsAsReporter targetArg f).reporter.deliver, true⟩ : Handled)
            else
              ⟨(checkErrorUsage p elem).pass,
                (checkErrorUsage p elem).calls.flatMap
                    (ErrorsAsReporter targetArg f).reporter.deliver ++
                  (if styleCheck = true then (ErrorsAsReporter targetArg f).CheckStyle elem
                   else []), false⟩).diags, d.Tag = report.Tag.arg := by
          rintro ⟨d, hd, htag⟩
          cases hp : (checkErrorUsage p elem).panicked
          · cases styleCheck
            · simp only [hp, Bool.false_eq_true, if_false, List.append_nil] at hd
              exact (hu d hd).1 htag
            · simp only [hp, Bool.false_eq_true, if_false, if_true, List.mem_append] at hd
              rcases hd with hd | hd
              · exact (hu d hd).1 htag
              · exact hs d hd htag
          · simp only [hp, if_true] at hd
            exact (hu d hd).1 htag
        refine ⟨⟨fun h => absurd h hno, ?_⟩, ?_, fun h => absurd h hno⟩
        · rintro (⟨e', he', _, hE'⟩ | ⟨hnp, _⟩)
          · simp only [GoType.Pointer.injEq] at he'
            subst he'
            rw [hE] at hE'
            cases hE'
          · exact absurd rfl (hnp elem)
        · rintro (⟨e', he', hI'⟩ | h)
          · simp only [GoType.Pointer.injEq] at he'
            subst he'
            rw [hI] at hI'
            cases hI'
          · cases h
    · simp [hI]
  | Interface => simp
  | Basic k => simp
  | Named o u => simp
  | Alias o a => simp
  | Struct => simp
  | TypeParam o => simp
  | Other => simp

/-- Witness for C11: `errors.As(err, &po)`, where `PointerOnly` has no `Error`
method of its own, is reported as malformed target. -/
theorem handleErrorsAs_malformed_target_witness :
    ∃ d ∈ (handleErrorsAs samplePass
        { Fun := .SelectorExpr (.Ident "errors") "As", Args := [.Ident "err", targetPointerOnly] }
        sampleIsErrorAs true).diags, d.Tag = report.Tag.arg :=
  (handleErrorsAs_malformed_target samplePass
    { Fun := .SelectorExpr (.Ident "errors") "As", Args := [.Ident "err", targetPointerOnly] }
    sampleIsErrorAs true errorsAsFunc 1 targetPointerOnly (.Pointer typPointerOnly)
    (by decide) (by decide) (by decide)).1.mpr
    (Or.inl ⟨typPointerOnly, by decide, by decide, by decide⟩)

end analyze

/-! ## Observed usage and the result of the verifier -/

namespace analyze

open types ast errortypes

theorem two_bits_eq_both (e i j : Nat) (hij : i ≠ j) :
    e &&& (2 ^ i ||| 2 ^ j) = 2 ^ i ||| 2 ^ j ↔ (e.testBit i = true ∧ e.testBit j = true) := by
  constructor
  · intro h
    have hi := congrArg (fun x => x.testBit i) h
    have hj := congrArg (fun x => x.testBit j) h
    simp [Nat.testBit_and, Nat.testBit_or, Nat.testBit_two_pow, hij, hij.symm] at hi hj
    exact ⟨hi, hj⟩
  · rintro ⟨hi, hj⟩
    apply Nat.eq_of_testBit_eq
    intro k
    simp only [Nat.testBit_and, Nat.testBit_or, Nat.testBit_two_pow]
    by_cases h1 : i = k
    · subst h1; simp [hi]
    · by_cases h2 : j = k
      · subst h2; simp [hj, h1]
      · simp [h1, h2]

theorem three_bits_eq_one (e i j k : Nat) (hij : i ≠ j) (hik : i ≠ k) :
    e &&& (2 ^ i ||| 2 ^ j ||| 2 ^ k) = 2 ^ i ↔
      (e.testBit i = true ∧ e.testBit j = false ∧ e.testBit k = false) := by
  constructor
  · intro h
    have hi := congrArg (fun x => x.testBit i) h
    have hj := congrArg (fun x => x.testBit j) h
    have hk := congrArg (fun x => x.testBit k) h
    simp [Nat.testBit_and, Nat.testBit_or, Nat.testBit_two_pow, hij, hik] at hi hj hk
    exact ⟨hi, hj, hk⟩
  · rintro ⟨hi, hj, hk⟩
    apply Nat.eq_of_testBit_eq
    intro n
    simp only [Nat.testBit_and, Nat.testBit_or, Nat.testBit_two_pow]
    by_cases h1 : i = n
    · subst h1; simp [hi]
    · by_cases h2 : j = n
      · subst h2; simp [hj, h1]
      · by_cases h3 : k = n
        · subst h3; simp [hk, h1]
        · simp [h1, h2, h3]

/-- The observed bits of a usage, read on its bits 3 and 4. -/
theorem observed_eq_pointer (u : Usage) :
    u &&& ObservedMask = PointerObserved ↔ (u.testBit 3 = true ∧ u.testBit 4 = false) :=
  and_pair_eq_left u 3 4 (by decide)

theorem observed_eq_value (u : Usage) :
    u &&& ObservedMask = ValueObserved ↔ (u.testBit 3 = false ∧ u.testBit 4 = true) :=
  and_pair_eq_right u 3 4 (by decide)

theorem observed_eq_both (u : Usage) :
    u &&& ObservedMask = PointerObserved ||| ValueObserved ↔
      (u.testBit 3 = true ∧ u.testBit 4 = true) :=
  two_bits_eq_both u 3 4 (by decide)

theorem expected_eq_pointer (u : Usage) :
    u &&& ExpectedMask = PointerExpected ↔
      (u.testBit 0 = true ∧ u.testBit 1 = false ∧ u.testBit 2 = false) :=
  three_bits_eq_one u 0 1 2 (by decide) (by decide)

theorem expected_eq_value (u : Usage) :
    u &&& ExpectedMask = ValueExpected ↔
      (u.testBit 1 = true ∧ u.testBit 0 = false ∧ u.testBit 2 = false) := by
  have h := three_bits_eq_one u 1 0 2 (by decide) (by decide)
  have hm : ExpectedMask = 2 ^ 1 ||| 2 ^ 0 ||| 2 ^ 2 := by decide
  rw [hm]
  exact h

theorem expected_eq_suppress (u : Usage) :
    u &&& ExpectedMask = SuppressExpected ↔
      (u.testBit 2 = true ∧ u.testBit 0 = false ∧ u.testBit 1 = false) := by
  have h := three_bits_eq_one u 2 0 1 (by decide) (by decide)
  have hm : ExpectedMask = 2 ^ 2 ||| 2 ^ 0 ||| 2 ^ 1 := by decide
  rw [hm]
  exact h

theorem usage_isSet (u : Usage) (i : Nat) : detect.isSet u (2 ^ i) ↔ u.testBit i = true :=
  and_flag_ne_zero u i

/-- C12: for a usage with at most one expected bit, observed as pointer only
(as value only), `DeterminedType` is Pointer (Value) unless that very kind is
the expected one, in which case it is Undecided; so it is Pointer (Value) also
with no expected bit and with Suppress expected. For every usage with no
observed bit it is Undecided. -/
theorem Usage_DeterminedType_consistent (u : Usage) :
    (atMostOneExpected u →
      detect.isSet u PointerObserved ∧ ¬ detect.isSet u ValueObserved →
      Usage.DeterminedType u =
        if detect.isSet u PointerExpected then ErrorType.Undecided else ErrorType.PointerType) ∧
    (atMostOneExpected u →
      ¬ detect.isSet u PointerObserved ∧ detect.isSet u ValueObserved →
      Usage.DeterminedType u =
        if detect.isSet u ValueExpected then ErrorType.Undecided else ErrorType.ValueType) ∧
    (¬ detect.isSet u PointerObserved ∧ ¬ detect.isSet u ValueObserved →
      Usage.DeterminedType u = ErrorType.Undecided) := by
  have hPO : detect.isSet u PointerObserved ↔ u.testBit 3 = true := usage_isSet u 3
  have hVO : detect.isSet u ValueObserved ↔ u.testBit 4 = true := usage_isSet u 4
  have hPE : detect.isSet u PointerExpected ↔ u.testBit 0 = true := usage_isSet u 0
  have hVE : detect.isSet u ValueExpected ↔ u.testBit 1 = true := usage_isSet u 1
  have hSE : detect.isSet u SuppressExpected ↔ u.testBit 2 = true := usage_isSet u 2
  simp only [atMostOneExpected, hPO, hVO, hPE, hVE, hSE, Usage.DeterminedType, ne_eq,
    observed_eq_pointer, observed_eq_value, observed_eq_both, expected_eq_pointer,
    expected_eq_value, expected_eq_suppress]
  clear hPO hVO hPE hVE hSE
  generalize u.testBit 0 = b0
  generalize u.testBit 1 = b1
  generalize u.testBit 2 = b2
  generalize u.testBit 3 = b3
  generalize u.testBit 4 = b4
  cases b0 <;> cases b1 <;> cases b2 <;> cases b3 <;> cases b4 <;> simp

/-- Witness for C12: observed as pointer only while Suppress is expected. -/
theorem Usage_DeterminedType_consistent_witness :
    Usage.DeterminedType (PointerObserved ||| SuppressExpected) = ErrorType.PointerType :=
  ((Usage_DeterminedType_consistent (PointerObserved ||| SuppressExpected)).1 (by decide)
    (by decide)).trans (by decide)

theorem Usage_DeterminedType_eq_suppress (u : Usage) :
    Usage.DeterminedType u = ErrorType.SuppressType ↔
      (detect.isSet u PointerObserved ∧ detect.isSet u ValueObserved ∧
        u &&& ExpectedMask ≠ SuppressExpected) := by
  have hPO : detect.isSet u PointerObserved ↔ u.testBit 3 = true := usage_isSet u 3
  have hVO : detect.isSet u ValueObserved ↔ u.testBit 4 = true := usage_isSet u 4
  simp only [hPO, hVO, Usage.DeterminedType, observed_eq_pointer, observed_eq_value,
    observed_eq_both]
  clear hPO hVO
  generalize u.testBit 3 = b3 at *
  generalize u.testBit 4 = b4 at *
  cases b3 <;> cases b4 <;> simp <;> split_ifs <;> simp_all

theorem mem_AllDetermined (dt : Nat → ErrorType) (p : PropertyMap) (tn : TypeName)
    (typ : ErrorType) :
    (tn, typ) ∈ p.AllDetermined dt ↔
      ∃ u, (tn, u) ∈ p ∧ dt u = typ ∧ typ ≠ ErrorType.Undecided := by
  unfold PropertyMap.AllDetermined
  rw [List.mem_filterMap]
  constructor
  · rintro ⟨⟨k, u⟩, hmem, h⟩
    simp only at h
    split_ifs at h with hne
    simp only [Option.some.injEq, Prod.mk.injEq] at h
    obtain ⟨rfl, rfl⟩ := h
    exact ⟨u, hmem, rfl, hne⟩
  · rintro ⟨u, hmem, rfl, hne⟩
    exact ⟨(tn, u), hmem, by simp [hne]⟩

/-- The fold of `calculateResult`: what the Inconsistent list holds. -/
theorem mem_Inconsistent_foldl (l : List (TypeName × ErrorType)) (init : Result)
    (name : typeutil.TypeName) :
    name ∈ (l.foldl calculateResult.collect init).Inconsistent ↔
      (name ∈ init.Inconsistent ∨
        ∃ tn, (tn, ErrorType.SuppressType) ∈ l ∧ typeutil.NewTypeName tn = name) := by
  induction l generalizing init with
  | nil => simp
  | cons entry rest ih =>
    obtain ⟨tn, typ⟩ := entry
    rw [List.foldl_cons, ih]
    cases typ <;> simp [calculateResult.collect, List.mem_append]
    aesop

/-- C13: with both shapes observed, `DeterminedType` is Suppress unless the
expected bits are exactly SuppressExpected, where it is Undecided; and
`calculateResult` lists a name under Inconsistent exactly when the usage map has
an entry of that name with both shapes observed and expected bits other than
exactly SuppressExpected. -/
theorem Usage_DeterminedType_inconsistent (u : Usage) (p : pass) (name : typeutil.TypeName) :
    (detect.isSet u PointerObserved → detect.isSet u ValueObserved →
      Usage.DeterminedType u =
        (if u &&& ExpectedMask = SuppressExpected then ErrorType.Undecided
         else ErrorType.SuppressType)) ∧
    (name ∈ (calculateResult p).Inconsistent ↔
      ∃ tn w, (tn, w) ∈ p.errorUsages ∧ typeutil.NewTypeName tn = name ∧
        detect.isSet w PointerObserved ∧ detect.isSet w ValueObserved ∧
        w &&& ExpectedMask ≠ SuppressExpected) := by
  constructor
  · intro hP hV
    have hPO : detect.isSet u PointerObserved ↔ u.testBit 3 = true := usage_isSet u 3
    have hVO : detect.isSet u ValueObserved ↔ u.testBit 4 = true := usage_isSet u 4
    rw [hPO] at hP
    rw [hVO] at hV
    simp only [Usage.DeterminedType, observed_eq_pointer, observed_eq_value, observed_eq_both,
      hP, hV]
    by_cases h3 : u &&& ExpectedMask = SuppressExpected <;> simp [h3]
  · unfold calculateResult
    rw [mem_Inconsistent_foldl]
    simp only [List.not_mem_nil, false_or, mem_AllDetermined]
    constructor
    · rintro ⟨tn, ⟨w, hmem, hdt, _⟩, rfl⟩
      obtain ⟨h1, h2, h3⟩ := (Usage_DeterminedType_eq_suppress w).mp hdt
      exact ⟨tn, w, hmem, rfl, h1, h2, h3⟩
    · rintro ⟨tn, w, hmem, rfl, h1, h2, h3⟩
      exact ⟨tn, ⟨w, hmem, (Usage_DeterminedType_eq_suppress w).mpr ⟨h1, h2, h3⟩, by decide⟩, rfl⟩

/-- Witness for C13: a value type observed both ways; in the sample usage map it
is `ErrorsAsValue`. -/
theorem Usage_DeterminedType_inconsistent_witness :
    Usage.DeterminedType (ValueExpected ||| PointerObserved ||| ValueObserved)
      = ErrorType.SuppressType :=
  ((Usage_DeterminedType_inconsistent (ValueExpected ||| PointerObserved ||| ValueObserved)
    sampleUsedPass { Path := "test/a", Name := "ErrorsAsValue" }).1 (by decide) (by decide)).trans
    (by decide)

end analyze

/-! ## Comparing and sorting type names -/

namespace strings

theorem key_inj (a b : String) (h : key a = key b) : a = b := by
  unfold key at h
  have hinj : Function.Injective Char.toNat := by
    intro x y hxy
    rw [← Char.ofNat_toNat x, ← Char.ofNat_toNat y, hxy]
  exact String.ext (List.map_injective_iff.mpr hinj h)

theorem Compare_neg (a b : String) : Compare a b < 0 ↔ key a < key b := by
  unfold Compare
  by_cases h : a = b
  · subst h
    simp
  · by_cases hlt : key a < key b <;> simp [h, hlt]

theorem Compare_zero (a b : String) : Compare a b = 0 ↔ a = b := by
  unfold Compare
  by_cases h : a = b
  · simp [h]
  · by_cases hlt : key a < key b <;> simp [h, hlt]

theorem Compare_pos (a b : String) : 0 < Compare a b ↔ key b < key a := by
  unfold Compare
  by_cases h : a = b
  · subst h
    simp
  · have hk : key a ≠ key b := fun hk => h (key_inj a b hk)
    by_cases hlt : key a < key b
    · simp [h, hlt, lt_asymm hlt]
    · have : key b < key a := lt_of_le_of_ne (not_lt.mp hlt) (Ne.symm hk)
      simp [h, hlt, this]

end strings

namespace typeutil

theorem TypeName_Compare_neg (a b : TypeName) :
    a.Compare b < 0 ↔
      (strings.key a.Path < strings.key b.Path ∨
        (a.Path = b.Path ∧ strings.key a.Name < strings.key b.Name)) := by
  unfold TypeName.Compare
  simp only
  by_cases hp : strings.Compare a.Path b.Path = 0
  · have hpe := (strings.Compare_zero _ _).mp hp
    simp only [hp, ne_eq, not_true_eq_false, if_false, strings.Compare_neg]
    simp only [hpe, lt_irrefl, false_or, true_and]
  · have hpe : a.Path ≠ b.Path := fun h => hp ((strings.Compare_zero _ _).mpr h)
    simp only [ne_eq, hp, not_false_eq_true, if_true, strings.Compare_neg, hpe, false_and,
      or_false]

theorem TypeName_Compare_zero (a b : TypeName) : a.Compare b = 0 ↔ a = b := by
  unfold TypeName.Compare
  simp only
  by_cases hp : strings.Compare a.Path b.Path = 0
  · have hpe := (strings.Compare_zero _ _).mp hp
    simp only [hp, ne_eq, not_true_eq_false, if_false, strings.Compare_zero]
    constructor
    · intro hn
      cases a; cases b
      simp only at hpe hn
      rw [hpe, hn]
    · intro h
      rw [h]
  · have hpe : a.Path ≠ b.Path := fun h => hp ((strings.Compare_zero _ _).mpr h)
    simp only [ne_eq, hp, not_false_eq_true, if_true, false_iff]
    intro h
    exact hpe (by rw [h])

theorem TypeName_Compare_pos (a b : TypeName) :
    0 < a.Compare b ↔
      (strings.key b.Path < strings.key a.Path ∨
        (a.Path = b.Path ∧ strings.key b.Name < strings.key a.Name)) := by
  unfold TypeName.Compare
  simp only
  by_cases hp : strings.Compare a.Path b.Path = 0
  · have hpe := (strings.Compare_zero _ _).mp hp
    simp only [hp, ne_eq, not_true_eq_false, if_false, strings.Compare_pos]
    simp only [hpe, lt_irrefl, false_or, true_and]
  · have hpe : a.Path ≠ b.Path := fun h => hp ((strings.Compare_zero _ _).mpr h)
    simp only [ne_eq, hp, not_false_eq_true, if_true, strings.Compare_pos, hpe, false_and,
      or_false]

/-- `Compare a b ≤ 0`, read on the fields. -/
theorem Compare_le (a b : TypeName) :
    a.Compare b ≤ 0 ↔
      (strings.key a.Path < strings.key b.Path ∨
        (a.Path = b.Path ∧ strings.key a.Name ≤ strings.key b.Name)) := by
  rw [Int.le_iff_lt_or_eq, TypeName_Compare_neg, TypeName_Compare_zero]
  constructor
  · rintro ((h | ⟨h1, h2⟩) | h)
    · exact Or.inl h
    · exact Or.inr ⟨h1, le_of_lt h2⟩
    · subst h
      exact Or.inr ⟨rfl, le_refl _⟩
  · rintro (h | ⟨h1, h2⟩)
    · exact Or.inl (Or.inl h)
    · rcases lt_or_eq_of_le h2 with h3 | h3
      · exact Or.inl (Or.inr ⟨h1, h3⟩)
      · right
        cases a; cases b
        simp only at h1 h3
        rw [h1, strings.key_inj _ _ h3]

theorem Compare_total (a b : TypeName) : a.Compare b ≤ 0 ∨ b.Compare a ≤ 0 := by
  rw [Compare_le, Compare_le]
  rcases lt_trichotomy (strings.key a.Path) (strings.key b.Path) with h | h | h
  · exact Or.inl (Or.inl h)
  · have hp := strings.key_inj _ _ h
    rcases le_total (strings.key a.Name) (strings.key b.Name) with h2 | h2
    · exact Or.inl (Or.inr ⟨hp, h2⟩)
    · exact Or.inr (Or.inr ⟨hp.symm, h2⟩)
  · exact Or.inr (Or.inl h)

theorem Compare_trans (a b c : TypeName) (hab : a.Compare b ≤ 0) (hbc : b.Compare c ≤ 0) :
    a.Compare c ≤ 0 := by
  rw [Compare_le] at hab hbc ⊢
  rcases hab with h1 | ⟨h1, h2⟩ <;> rcases hbc with h3 | ⟨h3, h4⟩
  · exact Or.inl (lt_trans h1 h3)
  · exact Or.inl (by rw [← h3]; exact h1)
  · exact Or.inl (by rw [h1]; exact h3)
  · exact Or.inr ⟨h1.trans h3, le_trans h2 h4⟩

theorem Compare_antisymm (a b : TypeName) (hab : a.Compare b ≤ 0) (hba : b.Compare a ≤ 0) :
    a = b := by
  rw [Compare_le] at hab hba
  rcases hab with h1 | ⟨h1, h2⟩ <;> rcases hba with h3 | ⟨h3, h4⟩
  · exact absurd h3 (lt_asymm h1)
  · rw [h3] at h1
    exact absurd h1 (lt_irrefl _)
  · rw [h1] at h3
    exact absurd h3 (lt_irrefl _)
  · cases a; cases b
    simp only at h1 h2 h4
    rw [h1, strings.key_inj _ _ (le_antisymm h2 h4)]

end typeutil

namespace slices

theorem SortFunc_sorted (l : List typeutil.TypeName) :
    List.Pairwise (fun a b => a.Compare b ≤ 0) (SortFunc l typeutil.TypeName.Compare) :=
  @List.sorted_insertionSort _ (fun a b : typeutil.TypeName => a.Compare b ≤ 0) _
    ⟨typeutil.Compare_total⟩ ⟨typeutil.Compare_trans⟩ l

theorem SortFunc_perm (l : List typeutil.TypeName) :
    (SortFunc l typeutil.TypeName.Compare).Perm l :=
  List.perm_insertionSort _ l

/-- Any way of sorting by `Compare` gives the list `SortFunc` gives. -/
theorem SortFunc_unique (l sorted : List typeutil.TypeName) (hperm : sorted.Perm l)
    (hsorted : List.Pairwise (fun a b => a.Compare b ≤ 0) sorted) :
    sorted = SortFunc l typeutil.TypeName.Compare :=
  @List.eq_of_perm_of_sorted _ (fun a b : typeutil.TypeName => a.Compare b ≤ 0)
    ⟨typeutil.Compare_antisymm⟩ _ _ (hperm.trans (SortFunc_perm l).symm) hsorted
    (SortFunc_sorted l)

end slices

/-! ## The override file: writing and reading back -/

namespace bytes

theorem LastIndexByte_absent (s : List Char) (c : Char) (h : c ∉ s) :
    LastIndexByte s c = -1 := by
  induction s with
  | nil => rfl
  | cons x rest ih =>
    have hx : ¬ x = c := fun hxc => h (by rw [hxc]; exact List.mem_cons_self _ _)
    have hr := ih (fun hm => h (List.mem_cons_of_mem _ hm))
    simp [LastIndexByte, hr, hx]

theorem LastIndexByte_append (p n : List Char) (c : Char) (h : c ∉ n) :
    LastIndexByte (p ++ c :: n) c = (p.length : Int) := by
  induction p with
  | nil =>
    simp [LastIndexByte, LastIndexByte_absent n c h]
  | cons x rest ih =>
    have hnn : (0 : Int) ≤ (rest.length : Int) := Int.ofNat_nonneg _
    show LastIndexByte (x :: (rest ++ c :: n)) c = _
    simp only [LastIndexByte, ih, ge_iff_le, hnn, if_true, List.length_cons]
    omega

end bytes

namespace typeutil

/-- Text round trip of a type name whose Name holds no dot. -/
theorem UnmarshalText_MarshalText (t : TypeName) (h : '.' ∉ t.Name.data) :
    UnmarshalText t.MarshalText = t := by
  obtain ⟨path, name⟩ := t
  simp only at h
  unfold TypeName.MarshalText UnmarshalText
  by_cases hp : path = ""
  · subst hp
    simp [bytes.LastIndexByte_absent name.data '.' h]
  · have hidx : bytes.LastIndexByte (path.data ++ '.' :: name.data) '.' = (path.data.length : Int) :=
      bytes.LastIndexByte_append path.data name.data '.' h
    have hnn : (0 : Int) ≤ (path.data.length : Int) := Int.ofNat_nonneg _
    have hdrop : List.drop (path.data.length + 1) (path.data ++ '.' :: name.data) = name.data := by
      rw [List.drop_append]
      rfl
    have htake : List.take path.data.length (path.data ++ '.' :: name.data) = path.data :=
      List.take_left' rfl
    simp only [ne_eq, hp, not_false_eq_true, if_true, List.append_assoc, List.singleton_append,
      hidx, ge_iff_le, hnn, Int.toNat_ofNat, hdrop, htake]

end typeutil


namespace overrides

open typeutil (TypeName)

/-- The loop of `Write`, group by group. -/
theorem Write_collect_foldl (l : List Override) (init : errorfileType) :
    l.foldl Write.collect init =
      { Pointer := init.Pointer ++ namesWith ErrorType.PointerType l
        Value := init.Value ++ namesWith ErrorType.ValueType l
        Suppress := init.Suppress
        Inconsistent := init.Inconsistent ++ namesOther l } := by
  induction l generalizing init with
  | nil => simp [namesWith, namesOther]
  | cons o rest ih =>
    obtain ⟨tn, d⟩ := o
    rw [List.foldl_cons, ih]
    cases d <;> simp [Write.collect, namesWith, namesOther, List.filter_cons]

theorem Write_errorfile_eq (l : List Override) :
    Write.errorfile l =
      { Pointer := slices.SortFunc (namesWith ErrorType.PointerType l) TypeName.Compare
        Value := slices.SortFunc (namesWith ErrorType.ValueType l) TypeName.Compare
        Suppress := []
        Inconsistent := slices.SortFunc (namesOther l) TypeName.Compare } := by
  unfold Write.errorfile
  rw [Write_collect_foldl]
  simp

theorem mem_namesWith (d : ErrorType) (l : List Override) (t : TypeName) :
    t ∈ namesWith d l ↔ (⟨t, d⟩ : Override) ∈ l := by
  unfold namesWith
  simp only [List.mem_map, List.mem_filter, decide_eq_true_eq]
  constructor
  · rintro ⟨⟨t', d'⟩, ⟨hmem, hd⟩, ht⟩
    simp only at hd ht
    subst hd
    subst ht
    exact hmem
  · intro h
    exact ⟨⟨t, d⟩, ⟨h, rfl⟩, rfl⟩

/-- C15: the document that `Write` builds, and the errorfile it is encoded from,
have an empty suppress list; the pointer list is a rearrangement of the type
names of the entries with decision Pointer, the value list of those with
decision Value, the inconsistent list of those of all remaining entries
(Suppress or Undecided), each as often as in the input. In the document every
type name stands as its text (`MarshalText`). -/
theorem Write_groups (l : List Override) :
    (Write.errorfile l).Suppress = [] ∧ (Write l).suppress = [] ∧
    (Write.errorfile l).Pointer.Perm (namesWith ErrorType.PointerType l) ∧
    (Write.errorfile l).Value.Perm (namesWith ErrorType.ValueType l) ∧
    (Write.errorfile l).Inconsistent.Perm (namesOther l) ∧
    (Write l).pointer.Perm ((namesWith ErrorType.PointerType l).map TypeName.MarshalText) ∧
    (Write l).value.Perm ((namesWith ErrorType.ValueType l).map TypeName.MarshalText) ∧
    (Write l).inconsistent.Perm ((namesOther l).map TypeName.MarshalText) := by
  unfold Write Encode
  rw [Write_errorfile_eq]
  exact ⟨rfl, rfl, slices.SortFunc_perm _, slices.SortFunc_perm _, slices.SortFunc_perm _,
    (slices.SortFunc_perm _).map _, (slices.SortFunc_perm _).map _,
    (slices.SortFunc_perm _).map _⟩

/-- C16: each of the Pointer, Value and Inconsistent lists that `Write` builds is
ascending under `Compare`; and `Compare a b` is negative iff the path of `a`
precedes the path of `b`, or the paths are equal and the name of `a` precedes
the name of `b` (lexicographic order of the strings), zero iff `a = b`, and
positive in every other case. -/
theorem Write_sorted (l : List Override) (a b : TypeName) :
    List.Pairwise (fun x y => x.Compare y ≤ 0) (Write.errorfile l).Pointer ∧
    List.Pairwise (fun x y => x.Compare y ≤ 0) (Write.errorfile l).Value ∧
    List.Pairwise (fun x y => x.Compare y ≤ 0) (Write.errorfile l).Inconsistent ∧
    (a.Compare b < 0 ↔
      (strings.key a.Path < strings.key b.Path ∨
        (a.Path = b.Path ∧ strings.key a.Name < strings.key b.Name))) ∧
    (a.Compare b = 0 ↔ (a.Path = b.Path ∧ a.Name = b.Name)) ∧
    (0 < a.Compare b ↔
      ¬ (strings.key a.Path < strings.key b.Path ∨
          (a.Path = b.Path ∧ strings.key a.Name < strings.key b.Name)) ∧
        ¬ (a.Path = b.Path ∧ a.Name = b.Name)) := by
  rw [Write_errorfile_eq]
  refine ⟨slices.SortFunc_sorted _, slices.SortFunc_sorted _, slices.SortFunc_sorted _,
    typeutil.TypeName_Compare_neg a b, ?_, ?_⟩
  · rw [typeutil.TypeName_Compare_zero]
    constructor
    · intro h
      rw [h]
      exact ⟨rfl, rfl⟩
    · rintro ⟨h1, h2⟩
      cases a; cases b
      simp only at h1 h2
      rw [h1, h2]
  · rw [← typeutil.TypeName_Compare_neg]
    have hz : a.Compare b = 0 ↔ (a.Path = b.Path ∧ a.Name = b.Name) := by
      rw [typeutil.TypeName_Compare_zero]
      constructor
      · intro h
        rw [h]
        exact ⟨rfl, rfl⟩
      · rintro ⟨h1, h2⟩
        cases a; cases b
        simp only at h1 h2
        rw [h1, h2]
    rw [← hz]
    omega


theorem filter_group_self (g : List Override) (d : ErrorType) (hg : ∀ o ∈ g, o.ErrorType = d) :
    g.filter (fun o => o.ErrorType = d) = g := by
  rw [List.filter_eq_self]
  intro o ho
  simp [hg o ho]

theorem filter_group_other (g : List Override) (d : ErrorType) (hg : ∀ o ∈ g, o.ErrorType ≠ d) :
    g.filter (fun o => o.ErrorType = d) = [] := by
  rw [List.filter_eq_nil_iff]
  intro o ho
  simp [hg o ho]

/-- Filtering the groups of a keyed iteration by one key gives the group of that
key, whatever the order of the keys. -/
theorem filter_flatMap_key (order : List ErrorType) (g : ErrorType → List Override)
    (hg : ∀ k, ∀ o ∈ g k, o.ErrorType = k) (d : ErrorType)
    (hnd : order.Nodup) (hd : d ∈ order) :
    (order.flatMap g).filter (fun o => o.ErrorType = d) = g d := by
  induction order with
  | nil => cases hd
  | cons k rest ih =>
    rw [List.flatMap_cons, List.filter_append]
    rw [List.nodup_cons] at hnd
    by_cases hk : k = d
    · subst hk
      have hrest : (rest.flatMap g).filter (fun o => o.ErrorType = k) = [] := by
        apply filter_group_other
        intro o ho
        rw [List.mem_flatMap] at ho
        obtain ⟨k', hk', ho'⟩ := ho
        rw [hg k' o ho']
        intro h
        exact hnd.1 (h ▸ hk')
      rw [hrest, filter_group_self _ _ (hg k), List.append_nil]
    · have hd' : d ∈ rest := by
        rcases List.mem_cons.mp hd with h | h
        · exact absurd h.symm hk
        · exact h
      rw [filter_group_other (g k) d (fun o ho => by rw [hg k o ho]; exact hk), List.nil_append]
      exact ih hnd.2 hd'

theorem map_Unmarshal_Marshal (l : List TypeName) (h : ∀ t ∈ l, '.' ∉ t.Name.data) :
    (l.map TypeName.MarshalText).map typeutil.UnmarshalText = l := by
  rw [List.map_map]
  conv_rhs => rw [← List.map_id l]
  apply List.map_congr_left
  intro t ht
  exact typeutil.UnmarshalText_MarshalText t (h t ht)

/-- C14, as stated, fails: an entry with decision Suppress is written to the
inconsistent list, which `Read` does not read, so it does not come back. -/
theorem suppress_entry_not_read_back :
    Read [ErrorType.PointerType, ErrorType.ValueType, ErrorType.SuppressType]
      (.document (Write
        [{ TypeName := { Path := "test/a", Name := "SuppressOverride" },
           ErrorType := ErrorType.SuppressType }]))
      = .ok [] ∧
    (Write
        [{ TypeName := { Path := "test/a", Name := "SuppressOverride" },
           ErrorType := ErrorType.SuppressType }]).inconsistent
      = ["test/a.SuppressOverride".data] :=
  ⟨rfl, by decide⟩

/-- C14, amended: for a list of overrides whose entries with decision Pointer or
Value have names without a dot, reading the document that `Write` produces
yields, whatever the order in which `Read` visits its three groups, exactly the
entries with decision Pointer and Value, each with its decision and each group
in the order in which `Write` sorted it; the entries with any other decision
(Suppress, Undecided) are written to the inconsistent list and are not read
back. -/
theorem Read_Write_roundtrip (l : List Override) (order : List ErrorType)
    (horder : order.Perm [ErrorType.PointerType, ErrorType.ValueType, ErrorType.SuppressType])
    (hdot : ∀ o ∈ l, (o.ErrorType = ErrorType.PointerType ∨ o.ErrorType = ErrorType.ValueType) →
      '.' ∉ o.TypeName.Name.data) :
    ∃ res, Read order (.document (Write l)) = .ok res ∧
      res.filter (fun o => o.ErrorType = ErrorType.PointerType)
        = (Write.errorfile l).Pointer.map (fun t => ⟨t, ErrorType.PointerType⟩) ∧
      res.filter (fun o => o.ErrorType = ErrorType.ValueType)
        = (Write.errorfile l).Value.map (fun t => ⟨t, ErrorType.ValueType⟩) ∧
      ∀ o ∈ res, o.ErrorType = ErrorType.PointerType ∨ o.ErrorType = ErrorType.ValueType := by
  have hP : ∀ t ∈ (Write.errorfile l).Pointer, '.' ∉ t.Name.data := by
    intro t ht
    rw [Write_errorfile_eq] at ht
    have hmem := (mem_namesWith _ l t).mp ((slices.SortFunc_perm _).mem_iff.mp ht)
    exact hdot _ hmem (Or.inl rfl)
  have hV : ∀ t ∈ (Write.errorfile l).Value, '.' ∉ t.Name.data := by
    intro t ht
    rw [Write_errorfile_eq] at ht
    have hmem := (mem_namesWith _ l t).mp ((slices.SortFunc_perm _).mem_iff.mp ht)
    exact hdot _ hmem (Or.inr rfl)
  have hS : (Write.errorfile l).Suppress = [] := by rw [Write_errorfile_eq]
  let g : ErrorType → List Override := fun override =>
    match Read.errorfileMap (Decode (Write l)) override with
    | some types => types.map (fun typeName => { TypeName := typeName, ErrorType := override })
    | none => []
  have hgP : g ErrorType.PointerType
      = (Write.errorfile l).Pointer.map (fun t => ⟨t, ErrorType.PointerType⟩) := by
    simp only [g, Read.errorfileMap, Decode, Write, Encode, map_Unmarshal_Marshal _ hP]
  have hgV : g ErrorType.ValueType
      = (Write.errorfile l).Value.map (fun t => ⟨t, ErrorType.ValueType⟩) := by
    simp only [g, Read.errorfileMap, Decode, Write, Encode, map_Unmarshal_Marshal _ hV]
  have hgS : g ErrorType.SuppressType = [] := by
    simp only [g, Read.errorfileMap, Decode, Write, Encode, hS, List.map_nil]
  have hg : ∀ k, ∀ o ∈ g k, o.ErrorType = k := by
    intro k o ho
    simp only [g] at ho
    split at ho
    · rw [List.mem_map] at ho
      obtain ⟨t, _, rfl⟩ := ho
      rfl
    · cases ho
  have hnd : order.Nodup := horder.nodup_iff.mpr (by decide)
  refine ⟨order.flatMap g, rfl, ?_, ?_, ?_⟩
  · rw [filter_flatMap_key order g hg _ hnd (horder.mem_iff.mpr (by decide)), hgP]
  · rw [filter_flatMap_key order g hg _ hnd (horder.mem_iff.mpr (by decide)), hgV]
  · intro o ho
    rw [List.mem_flatMap] at ho
    obtain ⟨k, hk, hok⟩ := ho
    have hk' := horder.mem_iff.mp hk
    simp only [List.mem_cons, List.mem_singleton, List.not_mem_nil, or_false] at hk'
    rcases hk' with rfl | rfl | rfl
    · exact Or.inl (hg _ o hok)
    · exact Or.inr (hg _ o hok)
    · rw [hgS] at hok
      cases hok

/-- Witness for amended C14: the sample suggestions, read back with the groups
visited in the order Value, Suppress, Pointer. -/
theorem Read_Write_roundtrip_witness :
    ∃ res, Read [ErrorType.ValueType, ErrorType.SuppressType, ErrorType.PointerType]
        (.document (Write sampleSuggestions)) = .ok res ∧
      res.filter (fun o => o.ErrorType = ErrorType.PointerType)
        = (Write.errorfile sampleSuggestions).Pointer.map (fun t => ⟨t, ErrorType.PointerType⟩) ∧
      res.filter (fun o => o.ErrorType = ErrorType.ValueType)
        = (Write.errorfile sampleSuggestions).Value.map (fun t => ⟨t, ErrorType.ValueType⟩) ∧
      ∀ o ∈ res, o.ErrorType = ErrorType.PointerType ∨ o.ErrorType = ErrorType.ValueType :=
  Read_Write_roundtrip sampleSuggestions
    [ErrorType.ValueType, ErrorType.SuppressType, ErrorType.PointerType] (by decide) (by decide)

end overrides

/-! ## Suggestions -/

namespace gomap

variable {κ ν : Type} [DecidableEq κ]

theorem get?_set_same (m : List (κ × ν)) (k : κ) (v : ν) : get? (set m k v) k = some v := by
  induction m with
  | nil => simp [set, get?]
  | cons kv rest ih =>
    obtain ⟨k0, v0⟩ := kv
    by_cases h : k0 = k
    · simp [set, get?, h]
    · simp [set, get?, h, ih]

theorem get?_set_ne (m : List (κ × ν)) (k k' : κ) (v : ν) (h : k' ≠ k) :
    get? (set m k v) k' = get? m k' := by
  induction m with
  | nil => simp [set, get?, Ne.symm h]
  | cons kv rest ih =>
    obtain ⟨k0, v0⟩ := kv
    by_cases h0 : k0 = k
    · subst h0
      simp [set, get?, Ne.symm h]
    · by_cases h1 : k0 = k'
      · subst h1
        simp [set, get?, h0]
      · simp [set, get?, h0, h1, ih]

theorem mem_keys_set (m : List (κ × ν)) (k k' : κ) (v : ν) :
    k' ∈ (set m k v).map Prod.fst ↔ (k' = k ∨ k' ∈ m.map Prod.fst) := by
  induction m with
  | nil => simp [set]
  | cons kv rest ih =>
    obtain ⟨k0, v0⟩ := kv
    by_cases h0 : k0 = k
    · subst h0
      simp [set]
    · simp only [set, h0, if_false, List.map_cons, List.mem_cons, ih]
      tauto

theorem nodup_keys_set (m : List (κ × ν)) (k : κ) (v : ν) (h : (m.map Prod.fst).Nodup) :
    ((set m k v).map Prod.fst).Nodup := by
  induction m with
  | nil => simp [set]
  | cons kv rest ih =>
    obtain ⟨k0, v0⟩ := kv
    rw [List.map_cons, List.nodup_cons] at h
    by_cases h0 : k0 = k
    · subst h0
      simp only [set, if_true, List.map_cons, List.nodup_cons]
      exact h
    · simp only [set, h0, if_false, List.map_cons, List.nodup_cons]
      refine ⟨?_, ih h.2⟩
      intro hmem
      rcases (mem_keys_set rest k k0 v).mp hmem with h1 | h1
      · exact h0 h1
      · exact h.1 h1

theorem get?_eq_none (m : List (κ × ν)) (k : κ) : get? m k = none ↔ k ∉ m.map Prod.fst := by
  induction m with
  | nil => simp [get?]
  | cons kv rest ih =>
    obtain ⟨k0, v0⟩ := kv
    by_cases h0 : k0 = k
    · simp [get?, h0]
    · simp only [get?, h0, if_false, ih, List.map_cons, List.mem_cons]
      constructor
      · rintro h (h1 | h1)
        · exact h0 h1.symm
        · exact h h1
      · intro h h1
        exact h (Or.inr h1)

/-- In a map with one entry per key the entries are what `get?` finds. -/
theorem mem_iff_get? (m : List (κ × ν)) (k : κ) (v : ν) (h : (m.map Prod.fst).Nodup) :
    (k, v) ∈ m ↔ get? m k = some v := by
  induction m with
  | nil => simp [get?]
  | cons kv rest ih =>
    obtain ⟨k0, v0⟩ := kv
    rw [List.map_cons, List.nodup_cons] at h
    by_cases h0 : k0 = k
    · subst h0
      simp only [List.mem_cons, Prod.mk.injEq, true_and, get?, if_true, Option.some.injEq]
      constructor
      · rintro (h1 | h1)
        · exact h1.symm
        · exact absurd (List.mem_map_of_mem Prod.fst h1) h.1
      · intro h1
        exact Or.inl h1.symm
    · simp only [List.mem_cons, Prod.mk.injEq, get?, h0, if_false, ← ih h.2]
      constructor
      · rintro (⟨h1, _⟩ | h1)
        · exact absurd h1.symm h0
        · exact h1
      · intro h1
        exact Or.inr h1

end gomap


namespace main

open typeutil (TypeName)
open calculateSuggestions

theorem mark_get (m : List (TypeName × Nat)) (k k' : TypeName) (b : Nat) :
    gomap.get? (mark m (k, b)) k' =
      if k' = k then some ((gomap.get? m k).getD 0 ||| b) else gomap.get? m k' := by
  unfold mark
  by_cases h : k' = k
  · subst h
    simp [gomap.get?_set_same]
  · simp [h, gomap.get?_set_ne _ _ _ _ h]

theorem marks_nodup (ups : List (TypeName × Nat)) (m : List (TypeName × Nat))
    (h : (m.map Prod.fst).Nodup) : ((ups.foldl mark m).map Prod.fst).Nodup := by
  induction ups generalizing m with
  | nil => exact h
  | cons u rest ih =>
    rw [List.foldl_cons]
    exact ih _ (gomap.nodup_keys_set _ _ _ h)

theorem marks_bits (ups : List (TypeName × Nat)) (m : List (TypeName × Nat))
    (k : TypeName) (i : Nat) :
    ((gomap.get? (ups.foldl mark m) k).getD 0).testBit i = true ↔
      (((gomap.get? m k).getD 0).testBit i = true ∨
        ∃ b, (k, b) ∈ ups ∧ b.testBit i = true) := by
  induction ups generalizing m with
  | nil => simp
  | cons u rest ih =>
    obtain ⟨k0, b0⟩ := u
    rw [List.foldl_cons, ih, mark_get]
    by_cases h : k = k0
    · subst h
      simp only [if_true, Option.getD_some, Nat.testBit_or, Bool.or_eq_true, List.mem_cons,
        Prod.mk.injEq, true_and]
      constructor
      · rintro ((h1 | h1) | ⟨b, hb, hbit⟩)
        · exact Or.inl h1
        · exact Or.inr ⟨b0, Or.inl rfl, h1⟩
        · exact Or.inr ⟨b, Or.inr hb, hbit⟩
      · rintro (h1 | ⟨b, (hb | hb), hbit⟩)
        · exact Or.inl (Or.inl h1)
        · subst hb
          exact Or.inl (Or.inr hbit)
        · exact Or.inr ⟨b, hb, hbit⟩
    · simp only [h, if_false, List.mem_cons, Prod.mk.injEq, false_and, false_or]

theorem marks_isSome (ups : List (TypeName × Nat)) (m : List (TypeName × Nat))
    (k : TypeName) :
    (gomap.get? (ups.foldl mark m) k).isSome = true ↔
      ((gomap.get? m k).isSome = true ∨ ∃ b, (k, b) ∈ ups) := by
  induction ups generalizing m with
  | nil => simp
  | cons u rest ih =>
    obtain ⟨k0, b0⟩ := u
    rw [List.foldl_cons, ih, mark_get]
    by_cases h : k = k0
    · subst h
      simp only [if_true, Option.isSome_some, true_or, List.mem_cons, Prod.mk.injEq, true_and,
        true_iff]
      exact Or.inr ⟨b0, Or.inl rfl⟩
    · simp only [h, if_false, List.mem_cons, Prod.mk.injEq, false_and, false_or]

theorem combine_eq (roots : List (Option analyze.Result)) (m : List (TypeName × Nat)) :
    roots.foldl combine m = (roots.flatMap marksOf).foldl mark m := by
  induction roots generalizing m with
  | nil => rfl
  | cons root rest ih =>
    rw [List.foldl_cons, List.flatMap_cons, List.foldl_append, ih]
    cases root with
    | none => rfl
    | some r => simp only [combine, marksOf, List.foldl_append]

theorem mem_marks (roots : List (Option analyze.Result)) (name : TypeName) (b : Nat) :
    (name, b) ∈ roots.flatMap marksOf ↔
      ((b = PointerType ∧ inPointers roots name) ∨ (b = ValueType ∧ inValues roots name) ∨
        (b = Undecided ∧ inInconsistent roots name)) := by
  simp only [List.mem_flatMap, inPointers, inValues, inInconsistent]
  constructor
  · rintro ⟨root, hroot, hmem⟩
    cases root with
    | none => cases hmem
    | some r =>
      simp only [marksOf, List.mem_append, List.mem_map, Prod.mk.injEq] at hmem
      rcases hmem with ⟨p, hp, rfl, rfl⟩ | ⟨p, hp, rfl, rfl⟩ | ⟨p, hp, rfl, rfl⟩
      · exact Or.inl ⟨rfl, r, hroot, hp⟩
      · exact Or.inr (Or.inl ⟨rfl, r, hroot, hp⟩)
      · exact Or.inr (Or.inr ⟨rfl, r, hroot, hp⟩)
  · rintro (⟨rfl, r, hroot, hp⟩ | ⟨rfl, r, hroot, hp⟩ | ⟨rfl, r, hroot, hp⟩)
    · exact ⟨some r, hroot, by simp [marksOf, hp]⟩
    · exact ⟨some r, hroot, by simp [marksOf, hp]⟩
    · exact ⟨some r, hroot, by simp [marksOf, hp]⟩


/-- The bits of the combined usage of a name say in which lists it occurs. -/
theorem combined_bits (roots : List (Option analyze.Result)) (name : TypeName) (i : Nat) :
    ((gomap.get? (roots.foldl combine []) name).getD 0).testBit i = true ↔
      ((i = 1 ∧ inPointers roots name) ∨ (i = 2 ∧ inValues roots name) ∨
        (i = 0 ∧ inInconsistent roots name)) := by
  rw [combine_eq, marks_bits]
  simp only [gomap.get?, Option.getD_none, Nat.zero_testBit, Bool.false_eq_true, false_or,
    mem_marks]
  have hP : PointerType = 2 ^ 1 := by decide
  have hV : ValueType = 2 ^ 2 := by decide
  have hU : Undecided = 2 ^ 0 := by decide
  constructor
  · rintro ⟨b, (⟨rfl, h⟩ | ⟨rfl, h⟩ | ⟨rfl, h⟩), hbit⟩
    · rw [hP, Nat.testBit_two_pow] at hbit
      exact Or.inl ⟨(of_decide_eq_true hbit).symm, h⟩
    · rw [hV, Nat.testBit_two_pow] at hbit
      exact Or.inr (Or.inl ⟨(of_decide_eq_true hbit).symm, h⟩)
    · rw [hU, Nat.testBit_two_pow] at hbit
      exact Or.inr (Or.inr ⟨(of_decide_eq_true hbit).symm, h⟩)
  · rintro (⟨rfl, h⟩ | ⟨rfl, h⟩ | ⟨rfl, h⟩)
    · exact ⟨PointerType, Or.inl ⟨rfl, h⟩, by decide⟩
    · exact ⟨ValueType, Or.inr (Or.inl ⟨rfl, h⟩), by decide⟩
    · exact ⟨Undecided, Or.inr (Or.inr ⟨rfl, h⟩), by decide⟩

theorem combined_isSome (roots : List (Option analyze.Result)) (name : TypeName) :
    (gomap.get? (roots.foldl combine []) name).isSome = true ↔
      (inPointers roots name ∨ inValues roots name ∨ inInconsistent roots name) := by
  rw [combine_eq, marks_isSome]
  simp only [gomap.get?, Option.isSome_none, Bool.false_eq_true, false_or, mem_marks]
  constructor
  · rintro ⟨b, (⟨_, h⟩ | ⟨_, h⟩ | ⟨_, h⟩)⟩
    · exact Or.inl h
    · exact Or.inr (Or.inl h)
    · exact Or.inr (Or.inr h)
  · rintro (h | h | h)
    · exact ⟨_, Or.inl ⟨rfl, h⟩⟩
    · exact ⟨_, Or.inr (Or.inl ⟨rfl, h⟩)⟩
    · exact ⟨_, Or.inr (Or.inr ⟨rfl, h⟩)⟩

theorem combined_eq_pointer (roots : List (Option analyze.Result)) (name : TypeName) :
    (gomap.get? (roots.foldl combine []) name).getD 0 = PointerType ↔
      (inPointers roots name ∧ ¬ inValues roots name ∧ ¬ inInconsistent roots name) := by
  have hb := combined_bits roots name
  generalize (gomap.get? (roots.foldl combine []) name).getD 0 = u at hb
  have hP : PointerType = 2 ^ 1 := by decide
  constructor
  · intro h
    subst h
    have h1 := (hb 1).mp (by decide)
    have h2 := (hb 2).not.mp (by decide)
    have h0 := (hb 0).not.mp (by decide)
    simp only [true_and, OfNat.ofNat_ne_one, false_and, one_ne_zero, or_false, false_or,
      OfNat.ofNat_ne_zero, Nat.succ_ne_self] at h1 h2 h0
    exact ⟨by simpa using h1, by simpa using h2, by simpa using h0⟩
  · rintro ⟨hp, hv, hi⟩
    apply Nat.eq_of_testBit_eq
    intro i
    rw [Bool.eq_iff_iff, hb i, hP, Nat.testBit_two_pow]
    simp only [hp, hv, hi, and_true, and_false, or_false, decide_eq_true_eq]
    exact eq_comm

theorem combined_eq_value (roots : List (Option analyze.Result)) (name : TypeName) :
    (gomap.get? (roots.foldl combine []) name).getD 0 = ValueType ↔
      (inValues roots name ∧ ¬ inPointers roots name ∧ ¬ inInconsistent roots name) := by
  have hb := combined_bits roots name
  generalize (gomap.get? (roots.foldl combine []) name).getD 0 = u at hb
  have hV : ValueType = 2 ^ 2 := by decide
  constructor
  · intro h
    subst h
    have h2 := (hb 2).mp (by decide)
    have h1 := (hb 1).not.mp (by decide)
    have h0 := (hb 0).not.mp (by decide)
    exact ⟨by simpa using h2, by simpa using h1, by simpa using h0⟩
  · rintro ⟨hv, hp, hi⟩
    apply Nat.eq_of_testBit_eq
    intro i
    rw [Bool.eq_iff_iff, hb i, hV, Nat.testBit_two_pow]
    simp only [hp, hv, hi, and_true, and_false, or_false, false_or, decide_eq_true_eq]
    exact eq_comm

theorem calculateSuggestions_eq_map (roots : List (Option analyze.Result)) :
    calculateSuggestions roots = (roots.foldl combine []).map suggest := by
  unfold calculateSuggestions
  simp only
  split_ifs with h
  · rw [List.length_eq_zero.mp h]
    rfl
  · rfl

theorem combined_nodup (roots : List (Option analyze.Result)) :
    ((roots.foldl combine []).map Prod.fst).Nodup := by
  rw [combine_eq]
  exact marks_nodup _ _ (by simp)

theorem suggest_eq (k : TypeName) (u : Nat) :
    suggest (k, u) =
      ⟨k, if u = PointerType then ErrorType.PointerType
          else if u = ValueType then ErrorType.ValueType else ErrorType.Undecided⟩ := by
  unfold suggest
  split_ifs <;> rfl

theorem mem_suggestions (roots : List (Option analyze.Result)) (name : TypeName)
    (d : ErrorType) :
    (⟨name, d⟩ : overrides.Override) ∈ calculateSuggestions roots ↔
      ∃ u, gomap.get? (roots.foldl combine []) name = some u ∧
        (if u = PointerType then ErrorType.PointerType
         else if u = ValueType then ErrorType.ValueType else ErrorType.Undecided) = d := by
  rw [calculateSuggestions_eq_map, List.mem_map]
  constructor
  · rintro ⟨⟨k, u⟩, hmem, hs⟩
    rw [suggest_eq] at hs
    simp only [overrides.Override.mk.injEq] at hs
    obtain ⟨hk, hd⟩ := hs
    subst hk
    exact ⟨u, (gomap.mem_iff_get? _ _ _ (combined_nodup roots)).mp hmem, hd⟩
  · rintro ⟨u, hget, hd⟩
    refine ⟨(name, u), (gomap.mem_iff_get? _ _ _ (combined_nodup roots)).mpr hget, ?_⟩
    rw [suggest_eq, hd]

/-- C17: `calculateSuggestions` returns at most one suggestion per type name; a
name is suggested iff it occurs in the Pointers, Values or Inconsistent list of
some result; its decision is Pointer iff it occurs in some Pointers list and in
no Values or Inconsistent list, Value iff it occurs in some Values list and in
no Pointers or Inconsistent list, and Undecided in every other case; Suppress is
never suggested. -/
theorem calculateSuggestions_spec (roots : List (Option analyze.Result)) (name : TypeName) :
    ((calculateSuggestions roots).map (fun o => o.TypeName)).Nodup ∧
    ((∃ d, (⟨name, d⟩ : overrides.Override) ∈ calculateSuggestions roots) ↔
      (inPointers roots name ∨ inValues roots name ∨ inInconsistent roots name)) ∧
    ((⟨name, ErrorType.PointerType⟩ : overrides.Override) ∈ calculateSuggestions roots ↔
      (inPointers roots name ∧ ¬ inValues roots name ∧ ¬ inInconsistent roots name)) ∧
    ((⟨name, ErrorType.ValueType⟩ : overrides.Override) ∈ calculateSuggestions roots ↔
      (inValues roots name ∧ ¬ inPointers roots name ∧ ¬ inInconsistent roots name)) ∧
    ((⟨name, ErrorType.Undecided⟩ : overrides.Override) ∈ calculateSuggestions roots ↔
      ((inPointers roots name ∨ inValues roots name ∨ inInconsistent roots name) ∧
        ¬ (inPointers roots name ∧ ¬ inValues roots name ∧ ¬ inInconsistent roots name) ∧
        ¬ (inValues roots name ∧ ¬ inPointers roots name ∧ ¬ inInconsistent roots name))) ∧
    (⟨name, ErrorType.SuppressType⟩ : overrides.Override) ∉ calculateSuggestions roots := by
  have hnodup : ((calculateSuggestions roots).map (fun o => o.TypeName)).Nodup := by
    rw [calculateSuggestions_eq_map, List.map_map]
    have hfun : ((fun o : overrides.Override => o.TypeName) ∘ suggest) = Prod.fst := by
      funext e
      obtain ⟨k, u⟩ := e
      simp [suggest_eq]
    rw [hfun]
    exact combined_nodup roots
  have hsome := combined_isSome roots name
  have hp := combined_eq_pointer roots name
  have hv := combined_eq_value roots name
  have hne : ¬ (PointerType = ValueType) := by decide
  refine ⟨hnodup, ?_⟩
  simp only [mem_suggestions]
  cases hget : gomap.get? (roots.foldl combine []) name with
  | none =>
    rw [hget] at hsome
    simp only [Option.isSome_none, Bool.false_eq_true, false_iff] at hsome
    have h1 : ¬ inPointers roots name := fun h => hsome (Or.inl h)
    have h2 : ¬ inValues roots name := fun h => hsome (Or.inr (Or.inl h))
    have h3 : ¬ inInconsistent roots name := fun h => hsome (Or.inr (Or.inr h))
    simp [h1, h2, h3]
  | some u =>
    rw [hget] at hsome hp hv
    simp only [Option.isSome_some, true_iff] at hsome
    simp only [Option.getD_some] at hp hv
    simp only [Option.some.injEq, exists_eq_left', ← hp, ← hv, hsome, true_and]
    by_cases h1 : u = PointerType
    · subst h1
      simp [hne]
    · by_cases h2 : u = ValueType
      · subst h2
        simp [Ne.symm hne]
      · simp [h1, h2]

end main

/-! ## Facts and the result of the detecttypes analyzer -/

namespace detect

open types errortypes

/-- The loop of `pass.createResult`: the map is the fold of the assignments, the
exported facts are the determined types of the current package. -/
theorem createResult_collect_foldl (p : pass) (l : List (TypeName × ErrorType))
    (m ex : List (TypeName × ErrorType)) :
    l.foldl (pass.createResult.collect p) (m, ex) =
      (l.foldl (fun m entry => gomap.set m entry.1 entry.2) m,
        ex ++ l.filter (fun entry => entry.1.Pkg = some p.Pkg)) := by
  induction l generalizing m ex with
  | nil => simp
  | cons e rest ih =>
    rw [List.foldl_cons, List.foldl_cons]
    have hstep : pass.createResult.collect p (m, ex) e =
        (gomap.set m e.1 e.2, if e.1.Pkg = some p.Pkg then ex ++ [e] else ex) := rfl
    rw [hstep, ih]
    by_cases h : e.1.Pkg = some p.Pkg
    · simp [h, List.filter_cons]
    · simp [h, List.filter_cons]

/-- C19: `createResult` exports the fact `(T, d)` exactly when `T` has an entry in
the property map, `T` is declared in the current package, and `d` is the
`DeterminedType` of that entry and is not Undecided; so nothing is exported for a
type of another package, and no Undecided fact is exported. -/
theorem createResult_exports (p : pass) (tn : TypeName) (d : ErrorType) :
    ((tn, d) ∈ p.createResult.2 ↔
      ∃ prop, (tn, prop) ∈ p.PropertyMap ∧ tn.Pkg = some p.Pkg ∧
        d = DeterminedType prop ∧ d ≠ ErrorType.Undecided) ∧
    (tn.Pkg ≠ some p.Pkg → (tn, d) ∉ p.createResult.2) ∧
    (tn, ErrorType.Undecided) ∉ p.createResult.2 := by
  have hmem : ∀ d', (tn, d') ∈ p.createResult.2 ↔
      ∃ prop, (tn, prop) ∈ p.PropertyMap ∧ tn.Pkg = some p.Pkg ∧
        d' = DeterminedType prop ∧ d' ≠ ErrorType.Undecided := by
    intro d'
    unfold pass.createResult
    simp only [createResult_collect_foldl, List.nil_append, List.mem_filter,
      analyze.mem_AllDetermined, decide_eq_true_eq]
    constructor
    · rintro ⟨⟨prop, hm, hd, hne⟩, hpkg⟩
      exact ⟨prop, hm, hpkg, hd.symm, hne⟩
    · rintro ⟨prop, hm, hpkg, hd, hne⟩
      exact ⟨⟨prop, hm, hd.symm, hne⟩, hpkg⟩
  refine ⟨hmem d, ?_, ?_⟩
  · intro hpkg h
    obtain ⟨_, _, h2, _⟩ := (hmem d).mp h
    exact hpkg h2
  · intro h
    obtain ⟨_, _, _, _, h4⟩ := (hmem _).mp h
    exact h4 rfl


theorem foldl_set_nodup (l m : List (TypeName × ErrorType))
    (h : (m.map Prod.fst).Nodup) :
    ((l.foldl (fun m entry => gomap.set m entry.1 entry.2) m).map Prod.fst).Nodup := by
  induction l generalizing m with
  | nil => exact h
  | cons e rest ih =>
    rw [List.foldl_cons]
    exact ih _ (gomap.nodup_keys_set _ _ _ h)

theorem foldl_set_get_of_not_mem (l m : List (TypeName × ErrorType)) (k : TypeName)
    (h : k ∉ l.map Prod.fst) :
    gomap.get? (l.foldl (fun m entry => gomap.set m entry.1 entry.2) m) k = gomap.get? m k := by
  induction l generalizing m with
  | nil => rfl
  | cons e rest ih =>
    rw [List.map_cons, List.mem_cons, not_or] at h
    rw [List.foldl_cons, ih _ h.2, gomap.get?_set_ne _ _ _ _ h.1]

theorem foldl_set_get_of_mem (l m : List (TypeName × ErrorType)) (k : TypeName)
    (v : ErrorType) (hnd : (l.map Prod.fst).Nodup) (h : (k, v) ∈ l) :
    gomap.get? (l.foldl (fun m entry => gomap.set m entry.1 entry.2) m) k = some v := by
  induction l generalizing m with
  | nil => cases h
  | cons e rest ih =>
    rw [List.map_cons, List.nodup_cons] at hnd
    rw [List.foldl_cons]
    rcases List.mem_cons.mp h with h1 | h1
    · subst h1
      rw [foldl_set_get_of_not_mem _ _ _ hnd.1, gomap.get?_set_same]
    · exact ih _ hnd.2 h1

theorem extractErrorTypes_collect_nodup (facts : List ObjectFact)
    (m : List (TypeName × ErrorType)) (h : (m.map Prod.fst).Nodup) :
    ((facts.foldl extractErrorTypes.collect m).map Prod.fst).Nodup := by
  induction facts generalizing m with
  | nil => exact h
  | cons f rest ih =>
    rw [List.foldl_cons]
    apply ih
    unfold extractErrorTypes.collect
    split
    · split
      · exact gomap.nodup_keys_set _ _ _ h
      · exact h
    · exact h

/-- The map built from the facts holds the fact of a type name, when all facts
about that type name agree. -/
theorem extractErrorTypes_collect_get (facts : List ObjectFact)
    (m : List (TypeName × ErrorType)) (tn : TypeName) (d1 : ErrorType)
    (huniq : ∀ d, (⟨.TypeName tn, .ErrorType d⟩ : ObjectFact) ∈ facts → d = d1)
    (h : gomap.get? m tn = some d1 ∨ (⟨.TypeName tn, .ErrorType d1⟩ : ObjectFact) ∈ facts) :
    gomap.get? (facts.foldl extractErrorTypes.collect m) tn = some d1 := by
  induction facts generalizing m with
  | nil =>
    rcases h with h | h
    · exact h
    · cases h
  | cons f rest ih =>
    rw [List.foldl_cons]
    apply ih _ (fun d hd => huniq d (List.mem_cons_of_mem _ hd))
    obtain ⟨obj, fact⟩ := f
    cases fact with
    | Other =>
      rcases h with h | h
      · exact Or.inl h
      · rcases List.mem_cons.mp h with h1 | h1
        · cases h1
        · exact Or.inr h1
    | ErrorType t =>
      cases obj with
      | TypeName k =>
        by_cases hk : k = tn
        · subst hk
          have ht : t = d1 := huniq t (List.mem_cons_self _ _)
          subst ht
          left
          simp [extractErrorTypes.collect, gomap.get?_set_same]
        · rcases h with h | h
          · left
            simp only [extractErrorTypes.collect]
            rw [gomap.get?_set_ne _ _ _ _ (Ne.symm hk)]
            exact h
          · rcases List.mem_cons.mp h with h1 | h1
            · simp only [ObjectFact.mk.injEq, Object.TypeName.injEq] at h1
              exact absurd h1.1.symm hk
            · exact Or.inr h1
      | Func fn =>
        rcases h with h | h
        · exact Or.inl h
        · rcases List.mem_cons.mp h with h1 | h1
          · cases h1
          · exact Or.inr h1
      | Var =>
        rcases h with h | h
        · exact Or.inl h
        · rcases List.mem_cons.mp h with h1 | h1
          · cases h1
          · exact Or.inr h1

theorem AllDetermined_keys_sublist (dt : Nat → ErrorType) (p : PropertyMap) :
    ((p.AllDetermined dt).map Prod.fst).Sublist (p.map Prod.fst) := by
  unfold PropertyMap.AllDetermined
  induction p with
  | nil => exact List.Sublist.refl _
  | cons e rest ih =>
    rw [List.filterMap_cons]
    split
    · exact List.Sublist.cons _ ih
    · rename_i hsome
      simp only at hsome
      split_ifs at hsome
      simp only [Option.some.injEq] at hsome
      subst hsome
      exact List.Sublist.cons₂ _ ih

/-- In the result there is one entry per key of the map of determined types. -/
theorem createResult_filter (m : List (TypeName × ErrorType)) (tn : TypeName) (v : ErrorType)
    (hnd : (m.map Prod.fst).Nodup) (hget : gomap.get? m tn = some v) :
    (createResult m).Types.filter (fun r => r.TypeName = tn) = [⟨tn, v⟩] := by
  unfold createResult
  simp only
  induction m with
  | nil => simp [gomap.get?] at hget
  | cons e rest ih =>
    obtain ⟨k, w⟩ := e
    rw [List.map_cons, List.nodup_cons] at hnd
    by_cases hk : k = tn
    · subst hk
      simp only [gomap.get?, if_true, Option.some.injEq] at hget
      subst hget
      have hrest : (rest.map (fun entry => ({ TypeName := entry.1, ErrorType := entry.2 } :
          ResultInfo))).filter (fun r => r.TypeName = k) = [] := by
        rw [List.filter_eq_nil_iff]
        intro r hr
        rw [List.mem_map] at hr
        obtain ⟨e, he, rfl⟩ := hr
        simp only [decide_eq_true_eq]
        intro h
        have hmem : e.1 ∈ rest.map Prod.fst := List.mem_map_of_mem Prod.fst he
        have h' : e.1 = k := h
        rw [h'] at hmem
        exact hnd.1 hmem
      simp [List.filter_cons, hrest]
    · simp only [gomap.get?, hk, if_false] at hget
      simp [List.filter_cons, hk, ih hnd.2 hget]

/-- C18: when a type name has an imported fact `d1` and its entry in the property
map determines a decision, the result of `createResult` has exactly one entry
for it, carrying the locally determined decision; when it has an imported fact
and no locally determined decision, the one entry carries `d1`. -/
theorem createResult_local_over_fact (p : pass) (tn : TypeName) (d1 : ErrorType)
    (hnd : (p.PropertyMap.map Prod.fst).Nodup)
    (hfact : (⟨.TypeName tn, .ErrorType d1⟩ : ObjectFact) ∈ p.Facts)
    (huniq : ∀ d, (⟨.TypeName tn, .ErrorType d⟩ : ObjectFact) ∈ p.Facts → d = d1) :
    (∀ prop, (tn, prop) ∈ p.PropertyMap → DeterminedType prop ≠ ErrorType.Undecided →
      p.createResult.1.Types.filter (fun r => r.TypeName = tn)
        = [⟨tn, DeterminedType prop⟩]) ∧
    ((∀ prop, (tn, prop) ∈ p.PropertyMap → DeterminedType prop = ErrorType.Undecided) →
      p.createResult.1.Types.filter (fun r => r.TypeName = tn) = [⟨tn, d1⟩]) := by
  have hfacts : gomap.get? (extractErrorTypes p.Facts) tn = some d1 :=
    extractErrorTypes_collect_get p.Facts [] tn d1 huniq (Or.inr hfact)
  have hfnd : ((extractErrorTypes p.Facts).map Prod.fst).Nodup :=
    extractErrorTypes_collect_nodup p.Facts [] (by simp)
  have hand : ((p.PropertyMap.AllDetermined DeterminedType).map Prod.fst).Nodup :=
    (AllDetermined_keys_sublist DeterminedType p.PropertyMap).nodup hnd
  have hres : p.createResult.1 =
      createResult ((p.PropertyMap.AllDetermined DeterminedType).foldl
        (fun m entry => gomap.set m entry.1 entry.2) (extractErrorTypes p.Facts)) := by
    unfold pass.createResult
    simp only [createResult_collect_foldl]
  rw [hres]
  constructor
  · intro prop hmem hne
    apply createResult_filter _ _ _ (foldl_set_nodup _ _ hfnd)
    apply foldl_set_get_of_mem _ _ _ _ hand
    exact (analyze.mem_AllDetermined _ _ _ _).mpr ⟨prop, hmem, rfl, hne⟩
  · intro hall
    apply createResult_filter _ _ _ (foldl_set_nodup _ _ hfnd)
    rw [foldl_set_get_of_not_mem]
    · exact hfacts
    · intro hmem
      rw [List.mem_map] at hmem
      obtain ⟨⟨k, v⟩, hkv, hk⟩ := hmem
      simp only at hk
      subst hk
      obtain ⟨prop, hp, hd, hne⟩ := (analyze.mem_AllDetermined _ _ _ _).mp hkv
      exact hne (hd ▸ hall prop hp)

end detect

/-! ## Aliases -/

namespace errortypes

open types

theorem GetTypeProperty_absent_zero (m : PropertyMap) (tn : TypeName)
    (h : (m.GetTypeProperty tn).2 = false) : (m.GetTypeProperty tn).1 = 0 := by
  induction m with
  | nil => rfl
  | cons kv rest ih =>
    obtain ⟨k, v⟩ := kv
    by_cases hk : k = tn
    · simp [PropertyMap.GetTypeProperty, hk] at h
    · simp only [PropertyMap.GetTypeProperty, hk, if_false] at h ⊢
      exact ih h

/-- What `AddTypeProperty` leaves stored for the type name: the OR with the new
property when the old one shares no bit with it, the old property otherwise. -/
theorem AddTypeProperty_get_same (m : PropertyMap) (tn : TypeName) (c : Nat) :
    ((m.AddTypeProperty tn c).1.GetTypeProperty tn).1 =
      if (m.GetTypeProperty tn).1 &&& c = 0 then (m.GetTypeProperty tn).1 ||| c
      else (m.GetTypeProperty tn).1 := by
  have habs := GetTypeProperty_absent_zero m tn
  unfold PropertyMap.AddTypeProperty
  generalize hr : m.GetTypeProperty tn = r at habs
  obtain ⟨old, ok⟩ := r
  simp only at habs ⊢
  cases ok with
  | false =>
    have h0 : old = 0 := habs rfl
    subst h0
    simp [GetTypeProperty_SetTypeProperty_same]
  | true =>
    by_cases h : old &&& c = 0
    · simp [h, GetTypeProperty_SetTypeProperty_same]
    · simp [h, hr]

end errortypes

namespace detect

open types errortypes

/-- A step of `processAliases` changes at most the entry of the key it visits. -/
theorem step_get_ne (p : pass) (m : PropertyMap) (x k : TypeName) (h : k ≠ x) :
    (processAliases.step p m x).GetTypeProperty k = m.GetTypeProperty k := by
  unfold processAliases.step
  split_ifs
  · rfl
  · split
    · split_ifs
      · split
        · exact AddTypeProperty_get_ne _ _ _ _ h
        · rfl
      · split
        · rfl
        · exact AddTypeProperty_get_ne _ _ _ _ h
    · rfl

theorem step_nonalias (p : pass) (m : PropertyMap) (x : TypeName)
    (h : p.IsAlias x = false) : processAliases.step p m x = m := by
  unfold processAliases.step
  simp [h]

/-- The entry of a type name that is no alias is what it was before
`processAliases`. -/
theorem foldl_step_get_nonalias (p : pass) (ks : List TypeName) (m : PropertyMap)
    (k : TypeName) (h : p.IsAlias k = false) :
    (ks.foldl (processAliases.step p) m).GetTypeProperty k = m.GetTypeProperty k := by
  induction ks generalizing m with
  | nil => rfl
  | cons x rest ih =>
    rw [List.foldl_cons, ih]
    by_cases hx : k = x
    · subst hx
      rw [step_nonalias p m k h]
    · exact step_get_ne p m x k hx

/-- The loop of `processAliases` on an alias without evidence of its own, when
every step at the alias adds the same property `c`: afterwards the alias has
property `c`. -/
theorem foldl_step_alias (p : pass) (a : TypeName) (c : Nat) (J : PropertyMap → Prop)
    (hJ : ∀ m x, J m → J (processAliases.step p m x))
    (hS : ∀ m, J m → processAliases.step p m a = (m.AddTypeProperty a c).1)
    (ks : List TypeName) (m : PropertyMap) (hm : J m) :
    ((m.GetTypeProperty a).1 = c →
      ((ks.foldl (processAliases.step p) m).GetTypeProperty a).1 = c) ∧
    ((m.GetTypeProperty a).1 = 0 → a ∈ ks →
      ((ks.foldl (processAliases.step p) m).GetTypeProperty a).1 = c) := by
  have hstep : ∀ m, J m → ((m.GetTypeProperty a).1 = 0 ∨ (m.GetTypeProperty a).1 = c) →
      ((processAliases.step p m a).GetTypeProperty a).1 = c := by
    intro m hm hv
    rw [hS m hm, AddTypeProperty_get_same]
    rcases hv with hv | hv
    · rw [hv]
      simp
    · rw [hv]
      by_cases hc : c &&& c = 0
      · simp only [hc, if_true]
        rw [Nat.and_self] at hc
        rw [hc]
        rfl
      · simp [hc]
  induction ks generalizing m with
  | nil =>
    exact ⟨fun h => h, fun _ h => absurd h (List.not_mem_nil _)⟩
  | cons x rest ih =>
    have hm' := hJ m x hm
    obtain ⟨ih1, ih2⟩ := ih (processAliases.step p m x) hm'
    simp only [List.foldl_cons]
    by_cases hx : x = a
    · subst hx
      exact ⟨fun h => ih1 (hstep m hm (Or.inr h)), fun h _ => ih1 (hstep m hm (Or.inl h))⟩
    · have hsame := step_get_ne p m x a (Ne.symm hx)
      refine ⟨fun h => ih1 (by rw [hsame]; exact h), fun h hmem => ih2 (by rw [hsame]; exact h) ?_⟩
      rcases List.mem_cons.mp hmem with h1 | h1
      · exact absurd h1.symm hx
      · exact h1

theorem mem_keys_of_get (m : PropertyMap) (k : TypeName)
    (h : (m.GetTypeProperty k).2 = true) : k ∈ m.map Prod.fst := by
  induction m with
  | nil => simp [PropertyMap.GetTypeProperty] at h
  | cons kv rest ih =>
    obtain ⟨k0, v⟩ := kv
    by_cases hk : k0 = k
    · simp [hk]
    · simp only [PropertyMap.GetTypeProperty, hk, if_false] at h
      exact List.mem_cons_of_mem _ (ih h)

end detect

namespace detect

open types errortypes

/-- Witness for C18: `c.LocalOverride` is a pointer type by its fact and a value
type by the local `var _ error = c.LocalOverride{}`. -/
theorem createResult_local_over_fact_witness :
    samplePass.createResult.1.Types.filter (fun r => r.TypeName = tnLocalOverride)
      = [⟨tnLocalOverride, ErrorType.ValueType⟩] :=
  (createResult_local_over_fact samplePass tnLocalOverride ErrorType.PointerType
    (by decide) (by decide) (by intro d; cases d <;> decide)).1 ValueVar (by decide) (by decide)

/-- Witness for C19: after `processAliases` the alias `a.Alias` is exported as a
value type, and nothing is exported for `c.LocalOverride`. -/
theorem createResult_exports_witness :
    (tnAlias, ErrorType.ValueType) ∈ samplePass.processAliases.createResult.2 ∧
    (tnLocalOverride, ErrorType.ValueType) ∉ samplePass.processAliases.createResult.2 :=
  ⟨(createResult_exports samplePass.processAliases tnAlias ErrorType.ValueType).1.mpr
      ⟨ValueAlias, by decide, by decide, by decide, by decide⟩,
    (createResult_exports samplePass.processAliases tnLocalOverride ErrorType.ValueType).2.1
      (by decide)⟩

theorem clearFlags_of_disjoint (q mask : Nat) (h : q &&& mask = 0) : clearFlags q mask = q := by
  unfold clearFlags
  rw [h]
  exact Nat.xor_zero q

end detect

/-! ## Adding evidence to the property map -/

namespace errortypes

open types

theorem AddTypeProperty_present (m : PropertyMap) (tn : TypeName) (c : Nat) :
    ((m.AddTypeProperty tn c).1.GetTypeProperty tn).2 = true := by
  unfold PropertyMap.AddTypeProperty
  generalize hr : m.GetTypeProperty tn = r
  obtain ⟨old, ok⟩ := r
  cases ok with
  | false => simp [GetTypeProperty_SetTypeProperty_same]
  | true =>
    by_cases h : old &&& c = 0
    · simp [h, GetTypeProperty_SetTypeProperty_same]
    · simp [h, hr]

theorem or_flag_of_set (old i : Nat) (h : ¬ old &&& 2 ^ i = 0) : old ||| 2 ^ i = old := by
  have hb : old.testBit i = true := (and_flag_ne_zero old i).1 h
  apply Nat.eq_of_testBit_eq
  intro k
  simp only [Nat.testBit_or, Nat.testBit_two_pow]
  by_cases hk : i = k
  · subst hk
    simp [hb]
  · simp [hk]

/-- For a single flag `AddTypeProperty` stores the OR of the old property and
the flag. -/
theorem AddTypeProperty_flag (m : PropertyMap) (tn : TypeName) (i : Nat) :
    (m.AddTypeProperty tn (2 ^ i)).1.GetTypeProperty tn
      = ((m.GetTypeProperty tn).1 ||| 2 ^ i, true) := by
  have h1 := AddTypeProperty_get_same m tn (2 ^ i)
  have h2 := AddTypeProperty_present m tn (2 ^ i)
  apply Prod.ext
  · rw [h1]
    by_cases h : (m.GetTypeProperty tn).1 &&& 2 ^ i = 0
    · simp [h]
    · simp [h, or_flag_of_set _ _ h]
  · exact h2

/-- C22: the stored property after `AddTypeProperty` is not always the OR of the
old and the new property: on an entry `NonStruct`, adding `NonStruct | ValueVar`
(what `processAliases` does for an alias of a non-struct type with a value
variable) leaves `NonStruct` stored, although the call returns the old property
and the entry is present. -/
theorem AddTypeProperty_partial_overlap :
    (PropertyMap.AddTypeProperty [(detect.tnMyAlias, detect.NonStruct)] detect.tnMyAlias
        (detect.NonStruct ||| detect.ValueVar)).1.GetTypeProperty detect.tnMyAlias
      = (detect.NonStruct, true) ∧
    (PropertyMap.AddTypeProperty [(detect.tnMyAlias, detect.NonStruct)] detect.tnMyAlias
        (detect.NonStruct ||| detect.ValueVar)).2 = detect.NonStruct ∧
    detect.NonStruct ||| (detect.NonStruct ||| detect.ValueVar) ≠ detect.NonStruct ∧
    detect.aliasPass.processAliases.PropertyMap.GetTypeProperty detect.tnMyAlias
      = (detect.NonStruct, true) := by
  decide

end errortypes

namespace detect

open types errortypes

theorem superset_or (old c : Nat) (i : Nat) (h : old.testBit i = true) :
    (old ||| c).testBit i = true := by
  simp [Nat.testBit_or, h]

/-- C25: flags are only added. `AddTypeProperty` and
`addTypePropertyInCurrentPackage` keep every flag of every entry set, keep every
entry present, and leave the entries of all other type names as they were. -/
theorem flags_only_added (p : pass) (tn tn' : TypeName) (property : ErrorProperty) (i : Nat) :
    (((p.PropertyMap.GetTypeProperty tn').1.testBit i = true →
        (((p.PropertyMap.AddTypeProperty tn property).1.GetTypeProperty tn').1.testBit i = true)) ∧
      ((p.PropertyMap.GetTypeProperty tn').2 = true →
        ((p.PropertyMap.AddTypeProperty tn property).1.GetTypeProperty tn').2 = true) ∧
      (tn' ≠ tn →
        (p.PropertyMap.AddTypeProperty tn property).1.GetTypeProperty tn'
          = p.PropertyMap.GetTypeProperty tn')) ∧
    (((p.PropertyMap.GetTypeProperty tn').1.testBit i = true →
        (((p.addTypePropertyInCurrentPackage tn property).PropertyMap.GetTypeProperty tn').1.testBit i
          = true)) ∧
      ((p.PropertyMap.GetTypeProperty tn').2 = true →
        ((p.addTypePropertyInCurrentPackage tn property).PropertyMap.GetTypeProperty tn').2 = true) ∧
      (tn' ≠ tn →
        (p.addTypePropertyInCurrentPackage tn property).PropertyMap.GetTypeProperty tn'
          = p.PropertyMap.GetTypeProperty tn')) := by
  constructor
  · by_cases hk : tn' = tn
    · subst hk
      refine ⟨?_, fun _ => AddTypeProperty_present _ _ _, fun h => absurd rfl h⟩
      intro hb
      rw [AddTypeProperty_get_same]
      split
      · exact superset_or _ _ _ hb
      · exact hb
    · rw [AddTypeProperty_get_ne _ _ _ _ hk]
      exact ⟨id, id, fun _ => rfl⟩
  · unfold pass.addTypePropertyInCurrentPackage
    split
    · exact ⟨id, id, fun _ => rfl⟩
    · split
      · exact ⟨id, id, fun _ => rfl⟩
      · rename_i old hget
        split
        · by_cases hk : tn' = tn
          · subst hk
            refine ⟨fun hb => ?_, fun _ => ?_, fun h => absurd rfl h⟩
            · rw [GetTypeProperty_SetTypeProperty_same]
              rw [hget] at hb
              exact superset_or _ _ _ hb
            · rw [GetTypeProperty_SetTypeProperty_same]
          · show (_ → ((p.PropertyMap.SetTypeProperty tn _).GetTypeProperty tn').1.testBit i = true)
              ∧ (_ → ((p.PropertyMap.SetTypeProperty tn _).GetTypeProperty tn').2 = true)
              ∧ (_ → (p.PropertyMap.SetTypeProperty tn _).GetTypeProperty tn' = _)
            rw [GetTypeProperty_SetTypeProperty_ne _ _ _ _ hk]
            exact ⟨id, id, fun _ => rfl⟩
        · exact ⟨id, id, fun _ => rfl⟩

theorem flags_only_added_witness :
    ((aliasPass.PropertyMap.AddTypeProperty tnMyAlias ValueReturn).1.GetTypeProperty tnMyErr).1.testBit 21
        = true ∧
      (aliasPass.PropertyMap.AddTypeProperty tnMyAlias ValueReturn).1.GetTypeProperty tnMyErr
        = aliasPass.PropertyMap.GetTypeProperty tnMyErr ∧
      ((aliasPass.addTypePropertyInCurrentPackage tnMyAlias ValueReturn).PropertyMap.GetTypeProperty
          tnMyErr).1.testBit 21 = true ∧
      (aliasPass.addTypePropertyInCurrentPackage tnMyAlias ValueReturn).PropertyMap.GetTypeProperty
          tnMyErr = aliasPass.PropertyMap.GetTypeProperty tnMyErr :=
  ⟨(flags_only_added aliasPass tnMyAlias tnMyErr ValueReturn 21).1.1 (by decide),
   (flags_only_added aliasPass tnMyAlias tnMyErr ValueReturn 21).1.2.2 (by decide),
   (flags_only_added aliasPass tnMyAlias tnMyErr ValueReturn 21).2.1 (by decide),
   (flags_only_added aliasPass tnMyAlias tnMyErr ValueReturn 21).2.2.2 (by decide)⟩

end detect

/-! ## The expected bits of the usage map -/

namespace analyze

open types ast errortypes

theorem atMostOne_of_oneExpectation (u : Usage) (h : oneExpectation (u &&& ExpectedMask)) :
    atMostOneExpected u := by
  have hb : ∀ c : Nat, u &&& ExpectedMask = c →
      u.testBit 0 = c.testBit 0 ∧ u.testBit 1 = c.testBit 1 ∧ u.testBit 2 = c.testBit 2 := by
    intro c hc
    have h0 := congrArg (fun x => x.testBit 0) hc
    have h1 := congrArg (fun x => x.testBit 1) hc
    have h2 := congrArg (fun x => x.testBit 2) hc
    have e0 : ExpectedMask.testBit 0 = true := by decide
    have e1 : ExpectedMask.testBit 1 = true := by decide
    have e2 : ExpectedMask.testBit 2 = true := by decide
    simp only [Nat.testBit_and, e0, e1, e2, Bool.and_true] at h0 h1 h2
    exact ⟨h0, h1, h2⟩
  have hP : detect.isSet u PointerExpected ↔ u.testBit 0 = true := usage_isSet u 0
  have hV : detect.isSet u ValueExpected ↔ u.testBit 1 = true := usage_isSet u 1
  have hS : detect.isSet u SuppressExpected ↔ u.testBit 2 = true := usage_isSet u 2
  simp only [atMostOneExpected, hP, hV, hS]
  rcases h with h | h | h | h
  all_goals
    obtain ⟨b0, b1, b2⟩ := hb _ h
    rw [b0, b1, b2]
    decide

theorem expected_newPass (info : Info) (pkg : Package) (tn : TypeName) :
    expected (newPass info pkg) tn = None := by
  simp [expected, newPass, NewPropertyMap, PropertyMap.GetTypeProperty, None]

theorem expected_set (p : pass) (tn tn' : TypeName) (v : Usage) :
    expected { p with errorUsages := p.errorUsages.SetTypeProperty tn v } tn'
      = if tn' = tn then v &&& ExpectedMask else expected p tn' := by
  unfold expected
  by_cases h : tn' = tn
  · subst h
    simp [GetTypeProperty_SetTypeProperty_same]
  · simp [h, GetTypeProperty_SetTypeProperty_ne _ _ _ _ h]

theorem processDetectedTypes_oneExpectation (l : List ResultInfo) :
    ∀ p : pass, (∀ tn, oneExpectation (expected p tn)) →
      ∀ tn, oneExpectation (expected (processDetectedTypes p l) tn) := by
  induction l with
  | nil => intro p h tn; exact h tn
  | cons d rest ih =>
    intro p h
    unfold processDetectedTypes
    split
    all_goals
      apply ih
      try exact h
    all_goals
      intro tn
      rw [expected_set]
      split
      · unfold oneExpectation; decide
      · exact h tn

theorem TypeNameOf_some (t : GoType) (isPtr : Bool) :
    typeutil.TypeNameOf t ≠ (none, isPtr, true) := by
  cases t with
  | Pointer elem => cases elem <;> simp [typeutil.TypeNameOf, typeutil.handlePointer]
  | _ => simp [typeutil.TypeNameOf]

theorem checkErrorUsage_no_panic (p : pass) (t : GoType)
    (h : ∀ tn, oneExpectation (expected p tn)) : (checkErrorUsage p t).panicked = false := by
  unfold checkErrorUsage
  split
  · rfl
  · split
    · rfl
    · rename_i isPtr heq
      exact absurd heq (TypeNameOf_some t isPtr)
    · rename_i tn isPtr _
      split
      · rfl
      · have hu := recordAndLookup_usage p tn isPtr
        generalize recordAndLookup p tn isPtr = r at hu
        obtain ⟨p', usage⟩ := r
        simp only at hu ⊢
        subst hu
        rcases h tn with h | h | h | h <;> rw [h] <;>
          simp [PointerExpected, ValueExpected, SuppressExpected, None]

theorem checkSites_invariant (sites : List GoType) :
    ∀ p : pass, (∀ tn, oneExpectation (expected p tn)) →
      (∀ tn, expected (checkSites p sites).pass tn = expected p tn) ∧
      (checkSites p sites).panicked = false := by
  induction sites with
  | nil => intro p _; exact ⟨fun _ => rfl, rfl⟩
  | cons t rest ih =>
    intro p h
    have hnp := checkErrorUsage_no_panic p t h
    have hexp := fun tn => checkErrorUsage_expected p t tn
    have h' : ∀ tn, oneExpectation (expected (checkErrorUsage p t).pass tn) := by
      intro tn; rw [hexp]; exact h tn
    obtain ⟨ih1, ih2⟩ := ih (checkErrorUsage p t).pass h'
    simp only [checkSites, hnp, Bool.false_eq_true, if_false]
    exact ⟨fun tn => (ih1 tn).trans (hexp tn), ih2⟩

/-- C29: in every state reached from a new pass by `processDetectedTypes` on any
list of detected types and then any sequence of `checkErrorUsage` calls, the
entry of every type name has at most one of the three expected bits set, its
expected bits are those left by `processDetectedTypes`, and no call has
panicked. -/
theorem usage_map_expected_invariant (info : Info) (pkg : Package)
    (detected : List ResultInfo) (sites : List GoType) (tn : TypeName) :
    atMostOneExpected
      ((checkSites (processDetectedTypes (newPass info pkg) detected) sites).pass.errorUsages.GetTypeProperty
        tn).1 ∧
    expected (checkSites (processDetectedTypes (newPass info pkg) detected) sites).pass tn
      = expected (processDetectedTypes (newPass info pkg) detected) tn ∧
    (checkSites (processDetectedTypes (newPass info pkg) detected) sites).panicked = false := by
  have h0 : ∀ tn, oneExpectation (expected (processDetectedTypes (newPass info pkg) detected) tn) :=
    processDetectedTypes_oneExpectation detected _
      (fun tn => Or.inl (expected_newPass info pkg tn))
  obtain ⟨h1, h2⟩ := checkSites_invariant sites _ h0
  refine ⟨?_, h1 tn, h2⟩
  apply atMostOne_of_oneExpectation
  have := h0 tn
  rw [← h1 tn] at this
  exact this

end analyze

/-! ## The text form of a type name -/

namespace typeutil

/-- C30: for a type name whose Name holds no dot, whatever its Path,
`UnmarshalText` applied to the text of `MarshalText` yields the type name
again, and the text of `MarshalText` is that of `String`. Both functions only
ever return a nil error, so the model has none. -/
theorem MarshalText_roundtrip_and_String (t : TypeName) (h : '.' ∉ t.Name.data) :
    UnmarshalText t.MarshalText = t ∧ t.MarshalText = t.String.data := by
  refine ⟨UnmarshalText_MarshalText t h, ?_⟩
  unfold TypeName.MarshalText TypeName.String
  by_cases hp : t.Path = ""
  · simp [hp]
  · simp [hp, String.data_append]

theorem MarshalText_roundtrip_and_String_witness :
    '.' ∉ (⟨"example.com/pkg", "MyType"⟩ : TypeName).Name.data ∧
    UnmarshalText (TypeName.MarshalText ⟨"example.com/pkg", "MyType"⟩)
      = ⟨"example.com/pkg", "MyType"⟩ ∧
    TypeName.MarshalText ⟨"example.com/pkg", "MyType"⟩
      = (TypeName.String ⟨"example.com/pkg", "MyType"⟩).data :=
  ⟨by decide, MarshalText_roundtrip_and_String ⟨"example.com/pkg", "MyType"⟩ (by decide)⟩

end typeutil

/-! ## Overrides -/

namespace detect

open types errortypes

/-- The body of the loop of `processOverrides` on one entry `name, usage`. The property
map stays as it is when the name is no type name of the package scope, when the
decision is Pointer and `*T` has no `Error() string` method, and when the
decision is Value and `T` has none. Otherwise the entry of `T` becomes the OR
of its old property and the one matching override flag, and the entry of every
other type name stays as it is. -/
theorem processOverrides_step_entry (p : pass) (scope : String → Option Object)
    (lookup : GoType → String → Option Object) (m : PropertyMap) (name : String)
    (usage : ErrorType) :
    ((∀ tn, scope name ≠ some (.TypeName tn)) →
      processOverrides.step p scope lookup m (name, usage) = m) ∧
    (∀ tn, scope name = some (.TypeName tn) →
      (usage = .PointerType → typeutil.HasErrorMethod lookup (.Pointer (p.TypeOf tn)) = false →
        processOverrides.step p scope lookup m (name, usage) = m) ∧
      (usage = .ValueType → typeutil.HasErrorMethod lookup (p.TypeOf tn) = false →
        processOverrides.step p scope lookup m (name, usage) = m) ∧
      (usage = .PointerType → typeutil.HasErrorMethod lookup (.Pointer (p.TypeOf tn)) = true →
        (processOverrides.step p scope lookup m (name, usage)).GetTypeProperty tn
          = ((m.GetTypeProperty tn).1 ||| PointerOverride, true) ∧
        ∀ tn', tn' ≠ tn →
          (processOverrides.step p scope lookup m (name, usage)).GetTypeProperty tn'
            = m.GetTypeProperty tn') ∧
      (usage = .ValueType → typeutil.HasErrorMethod lookup (p.TypeOf tn) = true →
        (processOverrides.step p scope lookup m (name, usage)).GetTypeProperty tn
          = ((m.GetTypeProperty tn).1 ||| ValueOverride, true) ∧
        ∀ tn', tn' ≠ tn →
          (processOverrides.step p scope lookup m (name, usage)).GetTypeProperty tn'
            = m.GetTypeProperty tn') ∧
      (usage = .SuppressType →
        (processOverrides.step p scope lookup m (name, usage)).GetTypeProperty tn
          = ((m.GetTypeProperty tn).1 ||| SuppressOverride, true) ∧
        ∀ tn', tn' ≠ tn →
          (processOverrides.step p scope lookup m (name, usage)).GetTypeProperty tn'
            = m.GetTypeProperty tn')) := by
  constructor
  · intro h
    unfold processOverrides.step
    split
    · rename_i tn heq
      exact absurd heq (h tn)
    · rfl
  · intro tn htn
    have hstep : processOverrides.step p scope lookup m (name, usage) =
        match usage with
        | .PointerType =>
          if !typeutil.HasErrorMethod lookup (.Pointer (p.TypeOf tn)) then m
          else (m.AddTypeProperty tn PointerOverride).1
        | .ValueType =>
          if !typeutil.HasErrorMethod lookup (p.TypeOf tn) then m
          else (m.AddTypeProperty tn ValueOverride).1
        | .SuppressType => (m.AddTypeProperty tn SuppressOverride).1
        | .Undecided => m := by
      simp only [processOverrides.step, htn]
    rw [hstep]
    refine ⟨?_, ?_, ?_, ?_, ?_⟩
    · intro hu hE
      subst hu
      simp [hE]
    · intro hu hE
      subst hu
      simp [hE]
    · intro hu hE
      subst hu
      simp only [hE, Bool.not_true, Bool.false_eq_true, if_false]
      exact ⟨AddTypeProperty_flag m tn 2, fun tn' h => AddTypeProperty_get_ne m tn tn' _ h⟩
    · intro hu hE
      subst hu
      simp only [hE, Bool.not_true, Bool.false_eq_true, if_false]
      exact ⟨AddTypeProperty_flag m tn 3, fun tn' h => AddTypeProperty_get_ne m tn tn' _ h⟩
    · intro hu
      subst hu
      exact ⟨AddTypeProperty_flag m tn 1, fun tn' h => AddTypeProperty_get_ne m tn tn' _ h⟩

end detect

/-! ## The heuristics option -/

namespace strings

theorem FieldsFunc_loop_eq (f : Char → Bool) (s : List Char) :
    FieldsFunc.loop f s none = (List.splitOnP.go f s []).filter (fun x => !x.isEmpty) ∧
    ∀ field : List Char, field ≠ [] →
      FieldsFunc.loop f s (some field)
        = (List.splitOnP.go f s field.reverse).filter (fun x => !x.isEmpty) := by
  induction s with
  | nil =>
    refine ⟨by simp [FieldsFunc.loop, List.splitOnP.go], ?_⟩
    intro field hf
    cases field with
    | nil => exact absurd rfl hf
    | cons a l => simp [FieldsFunc.loop, List.splitOnP.go]
  | cons r rest ih =>
    obtain ⟨ih1, ih2⟩ := ih
    constructor
    · by_cases hr : f r = true
      · simp [FieldsFunc.loop, List.splitOnP.go, hr, ih1]
      · have := ih2 [r] (by simp)
        simp only [List.reverse_singleton] at this
        simp [FieldsFunc.loop, List.splitOnP.go, hr, this]
    · intro field hf
      by_cases hr : f r = true
      · cases field with
        | nil => exact absurd rfl hf
        | cons a l => simp [FieldsFunc.loop, List.splitOnP.go, hr, ih1]
      · have := ih2 (field ++ [r]) (by simp)
        simp only [List.reverse_append, List.reverse_singleton, List.singleton_append] at this
        simp [FieldsFunc.loop, List.splitOnP.go, hr, this]

/-- The fields of `FieldsFunc` are the non-empty pieces of the split. -/
theorem FieldsFunc_eq (s : String) (f : Char → Bool) :
    FieldsFunc s f = ((List.splitOnP f s.data).filter (fun x => !x.isEmpty)).map String.mk := by
  unfold FieldsFunc List.splitOnP
  rw [(FieldsFunc_loop_eq f s.data).1]

theorem TrimSpace_nil : TrimSpace ⟨[]⟩ = "" := by decide

end strings

namespace detect

/-- A property that the empty item does not have holds of some trimmed field
iff it holds of some item of the list. -/
theorem exists_field_iff_item (list : String) (P : String → Prop) (h0 : ¬ P "") :
    (∃ h ∈ strings.FieldsFunc list (fun r => r == ','), P (strings.TrimSpace h)) ↔
      ∃ i ∈ heuristicItems list, P i := by
  rw [strings.FieldsFunc_eq]
  unfold heuristicItems List.splitOn
  constructor
  · rintro ⟨h, hh, hP⟩
    simp only [List.mem_map, List.mem_filter] at hh
    obtain ⟨piece, ⟨hmem, _⟩, rfl⟩ := hh
    exact ⟨_, List.mem_map.2 ⟨piece, hmem, rfl⟩, hP⟩
  · rintro ⟨i, hi, hP⟩
    simp only [List.mem_map] at hi
    obtain ⟨piece, hmem, rfl⟩ := hi
    have hne : piece ≠ [] := by
      rintro rfl
      rw [strings.TrimSpace_nil] at hP
      exact h0 hP
    refine ⟨⟨piece⟩, ?_, hP⟩
    simp only [List.mem_map, List.mem_filter]
    refine ⟨piece, ⟨hmem, ?_⟩, rfl⟩
    cases piece with
    | nil => exact absurd rfl hne
    | cons a l => rfl

/-- An item names no heuristic: it is not empty and none of the three names. -/
theorem loop_error_iff (fields : List String) :
    ∀ (heuristics : HeuristicPass) (hasOff : Bool),
      (∃ h, setHeuristics.loop fields heuristics hasOff = .error h) ↔
        ∃ h ∈ fields, strings.TrimSpace h ≠ "" ∧ strings.TrimSpace h ≠ "usage" ∧
          strings.TrimSpace h ≠ "receivers" ∧ strings.TrimSpace h ≠ "off" := by
  induction fields with
  | nil => intro heuristics hasOff; simp [setHeuristics.loop]
  | cons f rest ih =>
    intro heuristics hasOff
    unfold setHeuristics.loop
    simp only [List.mem_cons, exists_eq_or_imp]
    split_ifs with h1 h2 h3 h4
    · rw [ih]; simp [h1]
    · rw [ih]; simp [h2]
    · rw [ih]; simp [h3]
    · rw [ih]; simp [h4]
    · simp [h1, h2, h3, h4]

theorem or_flags (h a b : Nat) : (h ||| a) ||| b = h ||| (a ||| b) := Nat.or_assoc h a b

theorem loop_ok (fields : List String) :
    ∀ (heuristics : HeuristicPass) (hasOff : Bool) (r : HeuristicPass × Bool),
      setHeuristics.loop fields heuristics hasOff = .ok r →
        r.1 = heuristics |||
          ((if ∃ h ∈ fields, strings.TrimSpace h = "usage" then HeuristicUsage else 0) |||
           (if ∃ h ∈ fields, strings.TrimSpace h = "receivers" then HeuristicReceivers else 0)) ∧
        (r.2 = true ↔ hasOff = true ∨ ∃ h ∈ fields, strings.TrimSpace h = "off") := by
  induction fields with
  | nil =>
    intro heuristics hasOff r h
    simp only [setHeuristics.loop, Except.ok.injEq] at h
    subst h
    simp
  | cons f rest ih =>
    intro heuristics hasOff r h
    unfold setHeuristics.loop at h
    simp only [List.mem_cons, exists_eq_or_imp]
    split_ifs at h with h1 h2 h3 h4
    · obtain ⟨e1, e2⟩ := ih _ _ _ h
      rw [e1, e2]
      simp [h1]
    · obtain ⟨e1, e2⟩ := ih _ _ _ h
      rw [e1, e2]
      simp [h2]
    · obtain ⟨e1, e2⟩ := ih _ _ _ h
      rw [e1, e2]
      refine ⟨?_, by simp [h3]⟩
      simp only [h3, true_or, if_true]
      have hr : ("usage" : String) ≠ "receivers" := by decide
      simp only [hr, false_or]
      split_ifs <;> (apply Nat.eq_of_testBit_eq; intro k; simp [Nat.testBit_or, Bool.or_assoc])
    · obtain ⟨e1, e2⟩ := ih _ _ _ h
      rw [e1, e2]
      refine ⟨?_, by simp [h4]⟩
      simp only [h4, true_or, if_true]
      have hr : ("receivers" : String) ≠ "usage" := by decide
      simp only [hr, false_or]
      split_ifs <;>
        (apply Nat.eq_of_testBit_eq; intro k; simp only [Nat.testBit_or, Nat.zero_testBit]
         cases heuristics.testBit k <;> cases HeuristicUsage.testBit k <;>
           cases HeuristicReceivers.testBit k <;> rfl)

theorem mem_items_iff (list name : String) (hn : name ≠ "") :
    (∃ h ∈ strings.FieldsFunc list (fun r => r == ','), strings.TrimSpace h = name) ↔
      name ∈ heuristicItems list := by
  rw [exists_field_iff_item list (fun i => i = name) (fun h => hn h.symm)]
  simp

/-- C23: `setHeuristics` returns an error iff some item of the list, split at
commas and trimmed, is not empty and none of `usage`, `receivers`, `off`, or
`off` stands next to `usage` or `receivers`. With an error the options are
unchanged. Without one the heuristics are the union of the named passes when
the list names an item, and the options are unchanged when it names none. -/
theorem setHeuristics_spec (o : options) (list : String) :
    ((o.setHeuristics list).2 ≠ none ↔
      (∃ i ∈ heuristicItems list, i ≠ "" ∧ i ≠ "usage" ∧ i ≠ "receivers" ∧ i ≠ "off") ∨
      ("off" ∈ heuristicItems list ∧
        ("usage" ∈ heuristicItems list ∨ "receivers" ∈ heuristicItems list))) ∧
    ((o.setHeuristics list).2 ≠ none → (o.setHeuristics list).1 = o) ∧
    ((o.setHeuristics list).2 = none →
      (o.setHeuristics list).1 =
        if "usage" ∈ heuristicItems list ∨ "receivers" ∈ heuristicItems list ∨
            "off" ∈ heuristicItems list then
          { o with
            heuristics :=
              (if "usage" ∈ heuristicItems list then HeuristicUsage else 0) |||
              (if "receivers" ∈ heuristicItems list then HeuristicReceivers else 0) }
        else o) := by
  have hU := mem_items_iff list "usage" (by decide)
  have hR := mem_items_iff list "receivers" (by decide)
  have hO := mem_items_iff list "off" (by decide)
  have hX := exists_field_iff_item list
    (fun i => i ≠ "" ∧ i ≠ "usage" ∧ i ≠ "receivers" ∧ i ≠ "off") (fun h => h.1 rfl)
  have hE := loop_error_iff (strings.FieldsFunc list (fun r => r == ',')) 0 false
  have hK := loop_ok (strings.FieldsFunc list (fun r => r == ',')) 0 false
  unfold options.setHeuristics
  generalize setHeuristics.loop (strings.FieldsFunc list (fun r => r == ',')) 0 false = res
    at hE hK
  simp only [hU, hR, hO] at hK
  rw [hX] at hE
  cases res with
  | error h =>
    have hex := hE.1 ⟨h, rfl⟩
    simp only [ne_eq, reduceCtorEq, not_false_eq_true, true_iff, forall_const, false_implies,
      and_true]
    exact Or.inl hex
  | ok r =>
    obtain ⟨heuristics, hasOff⟩ := r
    have hno : ¬ ∃ i ∈ heuristicItems list, i ≠ "" ∧ i ≠ "usage" ∧ i ≠ "receivers" ∧ i ≠ "off" := by
      intro hex
      obtain ⟨h, hh⟩ := hE.2 hex
      cases hh
    obtain ⟨e1, e2⟩ := hK _ rfl
    simp only at e1 e2
    simp only [Bool.false_eq_true, false_or] at e2
    have hne : heuristics ≠ 0 ↔
        ("usage" ∈ heuristicItems list ∨ "receivers" ∈ heuristicItems list) := by
      rw [e1]
      by_cases a : "usage" ∈ heuristicItems list <;>
        by_cases b : "receivers" ∈ heuristicItems list <;> simp [a, b] <;> decide
    have hz : (0 : Nat) ||| ((if "usage" ∈ heuristicItems list then HeuristicUsage else 0) |||
        (if "receivers" ∈ heuristicItems list then HeuristicReceivers else 0))
        = ((if "usage" ∈ heuristicItems list then HeuristicUsage else 0) |||
        (if "receivers" ∈ heuristicItems list then HeuristicReceivers else 0)) := Nat.zero_or _
    rw [hz] at e1
    by_cases hcomb : hasOff = true ∧ heuristics ≠ 0
    · have hc : ("off" ∈ heuristicItems list ∧
          ("usage" ∈ heuristicItems list ∨ "receivers" ∈ heuristicItems list)) :=
        ⟨e2.1 hcomb.1, hne.1 hcomb.2⟩
      simp [hcomb.1, hcomb.2, hc]
    · have hc : ¬ ("off" ∈ heuristicItems list ∧
          ("usage" ∈ heuristicItems list ∨ "receivers" ∈ heuristicItems list)) := by
        rintro ⟨h1, h2⟩
        exact hcomb ⟨e2.2 h1, hne.2 h2⟩
      have hif : (hasOff && heuristics != 0) = false := by
        cases hasOff with
        | false => rfl
        | true =>
          have : heuristics = 0 := by
            by_contra hh
            exact hcomb ⟨rfl, hh⟩
          simp [this]
      simp only [hif, Bool.false_eq_true, if_false]
      by_cases hany : "usage" ∈ heuristicItems list ∨ "receivers" ∈ heuristicItems list ∨
          "off" ∈ heuristicItems list
      · have hcond : (heuristics != 0 || hasOff) = true := by
          rcases hany with h | h | h
          · have := hne.2 (Or.inl h)
            simp [this]
          · have := hne.2 (Or.inr h)
            simp [this]
          · simp [e2.2 h]
        simp only [hcond, if_true, hany, ne_eq, not_true_eq_false, false_iff, not_or, hno,
          not_false_eq_true, hc, and_self, false_implies, true_implies, true_and]
        rw [← e1]
      · have hcond : (heuristics != 0 || hasOff) = false := by
          have h1 : heuristics = 0 := by
            by_contra hh
            rcases hne.1 hh with h | h
            · exact hany (Or.inl h)
            · exact hany (Or.inr (Or.inl h))
          have h2 : hasOff = false := by
            cases hasOff with
            | false => rfl
            | true => exact absurd (Or.inr (Or.inr (e2.1 rfl))) hany
          simp [h1, h2]
        simp only [hcond, Bool.false_eq_true, if_false, hany, ne_eq, not_true_eq_false,
          false_iff, not_or, hno, not_false_eq_true, hc, and_self, false_implies, true_implies,
          true_and]

theorem setHeuristics_spec_witness :
    (defaultOptions.setHeuristics "usage, off").1 = defaultOptions ∧
    (defaultOptions.setHeuristics " receivers ,,").1 =
      { defaultOptions with heuristics := HeuristicReceivers } :=
  ⟨(setHeuristics_spec defaultOptions "usage, off").2.1 (by decide),
   ((setHeuristics_spec defaultOptions " receivers ,,").2.2 (by decide)).trans (by decide)⟩

end detect

/-! ## The error result of a function -/

namespace typeutil

open types ast

theorem foldl_NumFields (l : List Field) (n : Nat) :
    l.foldl (fun n g => n + (if g.Names.length = 0 then 1 else g.Names.length)) n
      = n + (l.map (fun g => max 1 g.Names.length)).sum := by
  induction l generalizing n with
  | nil => simp
  | cons g rest ih =>
    simp only [List.foldl_cons, List.map_cons, List.sum_cons, ih]
    have : (if g.Names.length = 0 then 1 else g.Names.length) = max 1 g.Names.length := by
      split_ifs with h
      · simp [h]
      · omega
    omega

theorem NumFields_eq (r : FieldList) : FieldList.NumFields (some r) = resultValues r := by
  unfold FieldList.NumFields resultValues
  simp only [foldl_NumFields, Nat.zero_add]

/-- C24: `HasErrorResult` returns -1 when the result list is absent or empty and
when the type of its last field is not a type with an `Error() string` method;
otherwise it returns the number of result values minus one, which is not
negative. -/
theorem HasErrorResult_spec (info : analyze.Info) (results : Option FieldList) :
    (results = none → HasErrorResult info results = -1) ∧
    (∀ r, results = some r → r.List = [] → HasErrorResult info results = -1) ∧
    (∀ r last, results = some r → r.List.getLast? = some last →
      (¬ ∃ typ, (info.Types last.Typ).Typ = some typ ∧
          HasErrorMethod info.LookupFieldOrMethod typ = true) →
      HasErrorResult info results = -1) ∧
    (∀ r last, results = some r → r.List.getLast? = some last →
      (∃ typ, (info.Types last.Typ).Typ = some typ ∧
          HasErrorMethod info.LookupFieldOrMethod typ = true) →
      HasErrorResult info results = (resultValues r : Int) - 1 ∧
      0 ≤ HasErrorResult info results) := by
  refine ⟨?_, ?_, ?_, ?_⟩
  · rintro rfl
    rfl
  · rintro r rfl hl
    simp [HasErrorResult, hl]
  · rintro r last rfl hlast hno
    simp only [HasErrorResult, hlast]
    split
    · rename_i typ htyp
      split_ifs with hE
      · exact absurd ⟨typ, htyp, hE⟩ hno
      · rfl
    · rfl
  · rintro r last rfl hlast ⟨typ, htyp, hE⟩
    have hpos : 1 ≤ resultValues r := by
      unfold resultValues
      have hmem : last ∈ r.List := List.mem_of_mem_getLast? hlast
      have := List.single_le_sum (l := r.List.map (fun g => max 1 g.Names.length))
        (fun x _ => Nat.zero_le x) (max 1 last.Names.length)
        (List.mem_map.2 ⟨last, hmem, rfl⟩)
      omega
    simp only [HasErrorResult, hlast, htyp, hE, if_true, NumFields_eq]
    refine ⟨trivial, ?_⟩
    omega

theorem HasErrorResult_spec_witness :
    HasErrorResult resultInfo (some ⟨[⟨["a", "b"], intExpr⟩, ⟨[], errorExpr⟩]⟩) = 2 ∧
    HasErrorResult resultInfo (some ⟨[⟨[], errorExpr⟩, ⟨[], intExpr⟩]⟩) = -1 :=
  ⟨((HasErrorResult_spec resultInfo (some ⟨[⟨["a", "b"], intExpr⟩, ⟨[], errorExpr⟩]⟩)).2.2.2
      ⟨[⟨["a", "b"], intExpr⟩, ⟨[], errorExpr⟩]⟩ ⟨[], errorExpr⟩ rfl rfl
      ⟨.Interface, by decide, by decide⟩).1,
   (HasErrorResult_spec resultInfo (some ⟨[⟨[], errorExpr⟩, ⟨[], intExpr⟩]⟩)).2.2.1
      ⟨[⟨[], errorExpr⟩, ⟨[], intExpr⟩]⟩ ⟨[], intExpr⟩ rfl rfl
      (by
        rintro ⟨typ, htyp, hE⟩
        have h1 : (resultInfo.Types intExpr).Typ = some (.Basic .Int) := by decide
        rw [h1] at htyp
        cases htyp
        revert hE
        decide)⟩

end typeutil

/-! ## Receivers of one kind -/

namespace detect

open types

theorem pureReceivers_loop (ptr0 : Bool) (rest : List Func) :
    pureReceivers.loop ptr0 rest =
      if ∀ m ∈ rest, (typeutil.HasPointerReceiver m.Sig).2 = ptr0 then (ptr0, true)
      else (false, false) := by
  induction rest with
  | nil => simp [pureReceivers.loop]
  | cons m rest ih =>
    unfold pureReceivers.loop
    by_cases h : (typeutil.HasPointerReceiver m.Sig).2 = ptr0
    · simp [h, ih]
    · simp [h]

/-- C26: `pureReceivers` returns ok iff the type has a method and all its
methods have the same receiver kind; then ptr says that all methods have
pointer receivers; without ok ptr is false. -/
theorem pureReceivers_spec (named : List Func) :
    ((pureReceivers named).2 = true ↔
      named ≠ [] ∧ ∀ a ∈ named, ∀ b ∈ named,
        (typeutil.HasPointerReceiver a.Sig).2 = (typeutil.HasPointerReceiver b.Sig).2) ∧
    ((pureReceivers named).2 = true →
      ((pureReceivers named).1 = true ↔
        ∀ m ∈ named, (typeutil.HasPointerReceiver m.Sig).2 = true)) ∧
    ((pureReceivers named).2 = false → (pureReceivers named).1 = false) := by
  cases named with
  | nil => simp [pureReceivers]
  | cons m0 rest =>
    by_cases h : ∀ m ∈ rest, (typeutil.HasPointerReceiver m.Sig).2
        = (typeutil.HasPointerReceiver m0.Sig).2
    · have hres : pureReceivers (m0 :: rest) = ((typeutil.HasPointerReceiver m0.Sig).2, true) := by
        simp only [pureReceivers, pureReceivers_loop, if_pos h]
      rw [hres]
      refine ⟨⟨fun _ => ⟨List.cons_ne_nil _ _, ?_⟩, fun _ => rfl⟩, fun _ => ⟨?_, ?_⟩,
        fun hf => absurd hf (by simp)⟩
      · intro a ha b hb
        have ha' : (typeutil.HasPointerReceiver a.Sig).2
            = (typeutil.HasPointerReceiver m0.Sig).2 := by
          rcases List.mem_cons.1 ha with rfl | ha
          · rfl
          · exact h a ha
        have hb' : (typeutil.HasPointerReceiver b.Sig).2
            = (typeutil.HasPointerReceiver m0.Sig).2 := by
          rcases List.mem_cons.1 hb with rfl | hb
          · rfl
          · exact h b hb
        rw [ha', hb']
      · intro h0 m hm
        have h0' : (typeutil.HasPointerReceiver m0.Sig).2 = true := h0
        rcases List.mem_cons.1 hm with rfl | hm
        · exact h0'
        · rw [h m hm]; exact h0'
      · intro hall
        exact hall m0 (List.mem_cons_self _ _)
    · have hres : pureReceivers (m0 :: rest) = (false, false) := by
        simp only [pureReceivers, pureReceivers_loop, if_neg h]
      rw [hres]
      refine ⟨⟨fun hf => absurd hf (by decide), fun hall => absurd ?_ h⟩,
        fun hf => absurd hf (by decide), fun _ => rfl⟩
      intro m hm
      exact hall.2 m (List.mem_cons_of_mem _ hm) m0 (List.mem_cons_self _ _)

theorem pureReceivers_spec_witness :
    ((pureReceivers [methodOf "Error" true, methodOf "Unwrap" true]).1 = true ↔
      ∀ m ∈ [methodOf "Error" true, methodOf "Unwrap" true],
        (typeutil.HasPointerReceiver m.Sig).2 = true) ∧
    (pureReceivers [methodOf "Error" true, methodOf "Is" false]).1 = false :=
  ⟨(pureReceivers_spec [methodOf "Error" true, methodOf "Unwrap" true]).2.1 (by decide),
   (pureReceivers_spec [methodOf "Error" true, methodOf "Is" false]).2.2 (by decide)⟩

end detect

/-! ## The return statements of a function body -/

namespace analyze

open ast inspector

theorem deliver_stopped {τ : Type} (yield : τ → Node → τ × Bool) (l : List Node) (t : τ) :
    deliver yield l (false, t) = (false, t) := by
  cases l <;> simp [deliver]

theorem deliver_append {τ : Type} (yield : τ → Node → τ × Bool) (a b : List Node) :
    ∀ s : Bool × τ, deliver yield (a ++ b) s = deliver yield b (deliver yield a s) := by
  induction a with
  | nil => intro s; rfl
  | cons x xs ih =>
    intro s
    obtain ⟨c, t⟩ := s
    cases c with
    | true => simp [deliver, ih]
    | false => simp [deliver, deliver_stopped]

theorem deliver_seqOf {τ : Type} (yield : τ → Node → τ × Bool) (l : List Node) :
    ∀ t : τ, (deliver yield l (true, t)).2 = seqOf l yield t := by
  induction l with
  | nil => intro t; rfl
  | cons x xs ih =>
    intro t
    simp only [deliver, seqOf, if_true]
    cases h : (yield t x).2 with
    | true => simp [ih]
    | false => simp [deliver_stopped]

mutual
theorem Inspect_deliver {τ : Type} (yield : τ → Node → τ × Bool) :
    ∀ (n : Node) (s : Bool × τ),
      Inspect AllReturns.types (AllReturns.visit yield) n s = deliver yield (outerReturns n) s
  | .FuncLit children, s => by
    simp [Inspect, AllReturns.types, AllReturns.visit, outerReturns, deliver]
  | .ReturnStmt pos children, s => by
    obtain ⟨c, t⟩ := s
    cases c with
    | false =>
      simp [Inspect, AllReturns.types, AllReturns.visit, outerReturns, deliver]
    | true =>
      simp only [Inspect, AllReturns.types, AllReturns.visit, outerReturns, deliver, if_true]
      cases h : (yield t (.ReturnStmt pos children)).2 with
      | true =>
        simp only [if_true]
        exact InspectList_deliver yield children _
      | false =>
        simp [deliver_stopped]
  | .Other children, s => by
    simp only [Inspect, AllReturns.types, outerReturns, Bool.false_eq_true, if_false]
    exact InspectList_deliver yield children s
theorem InspectList_deliver {τ : Type} (yield : τ → Node → τ × Bool) :
    ∀ (l : List Node) (s : Bool × τ),
      InspectList AllReturns.types (AllReturns.visit yield) l s
        = deliver yield (outerReturnsList l) s
  | [], s => by simp [InspectList, outerReturnsList, deliver]
  | n :: rest, s => by
    simp only [InspectList, outerReturnsList, deliver_append]
    rw [Inspect_deliver yield n s]
    exact InspectList_deliver yield rest _
end

/-- C28: `AllReturns` on a function body is the sequence of the return
statements of the body that are in no function literal, each once and in
source order: whatever the consumer, it is given these statements one after
the other until it asks to stop, and nothing else. -/
theorem AllReturns_eq_outerReturns {τ : Type} (b : Node) (yield : τ → Node → τ × Bool)
    (t : τ) :
    AllReturns b yield t = seqOf (outerReturns b) yield t := by
  unfold AllReturns
  rw [Inspect_deliver, deliver_seqOf]

end analyze

/-! ## Calls like errors.As -/

namespace typeutil

open types ast

theorem asFunc_ok (o : Option Object) : (asFunc o).2 = true → ∃ f, (asFunc o).1 = some f := by
  unfold asFunc
  split
  · rename_i f
    exact fun _ => ⟨f, rfl⟩
  · intro h
    cases h

/-- What a successful `FuncOf.loop` returns: a function, the type arguments of
the expression, and whether the callee is a method expression. With type
arguments already found, the expression has none. -/
theorem FuncOf_loop_ok (info : FuncInfo) (e : FunExpr) :
    ∀ tp : List Expr, (FuncOf.loop info e tp).2.2.2 = true →
      (∃ f, (FuncOf.loop info e tp).1 = some f) ∧
      (FuncOf.loop info e tp).2.2.1 = isMethodExprCall info e ∧
      (tp ≠ [] → typeArgsOf e = [] ∧ (FuncOf.loop info e tp).2.1 = tp) ∧
      (tp = [] → (FuncOf.loop info e tp).2.1 = typeArgsOf e) := by
  induction e with
  | Ident name =>
    intro tp h
    simp only [FuncOf.loop] at h ⊢
    refine ⟨asFunc_ok _ h, ?_, ?_, ?_⟩
    · simp [isMethodExprCall, calleeOf]
    · simp [typeArgsOf]
    · intro h0; simp [typeArgsOf, h0]
  | SelectorExpr x sel =>
    intro tp h
    simp only [FuncOf.loop, isMethodExprCall, calleeOf, typeArgsOf] at h ⊢
    cases hs : info.Selections x sel with
    | none =>
      simp only [hs] at h ⊢
      refine ⟨asFunc_ok _ h, ?_, ?_, ?_⟩ <;> simp
    | some s =>
      simp only [hs] at h ⊢
      cases hk : s.Kind with
      | FieldVal => simp [hk] at h
      | MethodVal =>
        simp only [hk] at h ⊢
        refine ⟨asFunc_ok _ h, ?_, ?_, ?_⟩ <;> simp
      | MethodExpr =>
        simp only [hk] at h ⊢
        refine ⟨asFunc_ok _ h, ?_, ?_, ?_⟩ <;> simp
  | IndexExpr x index ih =>
    intro tp h
    cases tp with
    | cons a l => simp [FuncOf.loop] at h
    | nil =>
      by_cases ht : info.IsType index = true
      · have heq : FuncOf.loop info (.IndexExpr x index) [] = FuncOf.loop info x [index] := by
          simp [FuncOf.loop, ht]
        rw [heq] at h ⊢
        obtain ⟨h1, h2, h3, _⟩ := ih [index] h
        obtain ⟨h5, h6⟩ := h3 (by simp)
        refine ⟨h1, ?_, fun h0 => absurd rfl h0, fun _ => ?_⟩
        · rw [h2]; simp [isMethodExprCall, calleeOf]
        · rw [h6]; simp [typeArgsOf, h5]
      · simp [FuncOf.loop, ht] at h
  | IndexListExpr x indices ih =>
    intro tp h
    cases tp with
    | cons a l => simp [FuncOf.loop] at h
    | nil =>
      by_cases ht : indices.any (fun index => !info.IsType index) = true
      · simp [FuncOf.loop, ht] at h
      · have heq : FuncOf.loop info (.IndexListExpr x indices) []
            = FuncOf.loop info x indices := by
          simp only [FuncOf.loop, List.length_nil, gt_iff_lt, Nat.lt_irrefl, if_false, ht,
            Bool.false_eq_true]
        rw [heq] at h ⊢
        obtain ⟨h1, h2, h3, h4⟩ := ih indices h
        refine ⟨h1, ?_, fun h0 => absurd rfl h0, fun _ => ?_⟩
        · rw [h2]; simp [isMethodExprCall, calleeOf]
        · by_cases hi : indices = []
          · rw [h4 hi]; simp [typeArgsOf, hi]
          · obtain ⟨h5, h6⟩ := h3 hi
            rw [h6]; simp [typeArgsOf, h5]
  | ParenExpr x ih =>
    intro tp h
    have heq : FuncOf.loop info (.ParenExpr x) tp = FuncOf.loop info x tp := by
      simp [FuncOf.loop]
    rw [heq] at h ⊢
    obtain ⟨h1, h2, h3, h4⟩ := ih tp h
    refine ⟨h1, ?_, ?_, ?_⟩
    · rw [h2]; simp [isMethodExprCall, calleeOf]
    · simpa [typeArgsOf] using h3
    · simpa [typeArgsOf] using h4
  | Other id =>
    intro tp h
    simp [FuncOf.loop] at h

theorem FuncOf_ok (info : FuncInfo) (callee : FunExpr)
    (h : (FuncOf info callee).2.2.2 = true) :
    ∃ f, FuncOf info callee = (some f, typeArgsOf callee, isMethodExprCall info callee, true) := by
  obtain ⟨⟨f, hf⟩, h2, _, h4⟩ := FuncOf_loop_ok info callee [] h
  refine ⟨f, ?_⟩
  unfold FuncOf at h ⊢
  have h4' := h4 rfl
  generalize FuncOf.loop info callee [] = r at hf h2 h4' h
  obtain ⟨a, b, c, d⟩ := r
  simp only at hf h2 h4' h
  rw [hf, h2, h4', h]

/-- C27: `IsErrorAs` on the callee of a call. A callee that `FuncOf` cannot
resolve gives `nil, nil, -1`. A callee resolved to a function `f` gives
`nil, nil, -1` when `f` is not in the registry; for an entry with a target
argument index `i` (no type parameter position) it gives `f`, no type
expression, and `i`, or `i + 1` for a method-expression call; for an entry with
a type parameter position `k` it gives `f`, the `k`-th explicit type argument
and -1, or `nil, nil, -1` when there are fewer than `k + 1` explicit type
arguments. -/
theorem IsErrorAs_spec (info : FuncInfo) (FuncNameOf : Func → FuncName) (callee : FunExpr) :
    ((FuncOf info callee).2.2.2 = false →
      IsErrorAs info FuncNameOf callee = (none, none, -1)) ∧
    ((FuncOf info callee).2.2.2 = true →
      ∃ f, (FuncOf info callee).1 = some f ∧
        (gomap.get? errorsAs (FuncNameOf f) = none →
          IsErrorAs info FuncNameOf callee = (none, none, -1)) ∧
        (∀ i k, gomap.get? errorsAs (FuncNameOf f) = some ⟨i, k⟩ →
          (k < 0 → IsErrorAs info FuncNameOf callee =
            (some f, none, if isMethodExprCall info callee then i + 1 else i)) ∧
          (0 ≤ k → ((typeArgsOf callee).length : Int) ≤ k →
            IsErrorAs info FuncNameOf callee = (none, none, -1)) ∧
          (0 ≤ k → k < ((typeArgsOf callee).length : Int) →
            ∃ typ, (typeArgsOf callee)[k.toNat]? = some typ ∧
              IsErrorAs info FuncNameOf callee = (some f, some typ, -1)))) := by
  constructor
  · intro h
    unfold IsErrorAs
    generalize FuncOf info callee = r at h
    obtain ⟨a, b, c, d⟩ := r
    simp only at h
    subst h
    cases a <;> rfl
  · intro h
    obtain ⟨f, hf⟩ := FuncOf_ok info callee h
    refine ⟨f, by rw [hf], ?_, ?_⟩
    · intro hnone
      simp only [IsErrorAs, hf, hnone]
    · intro i k hsome
      refine ⟨?_, ?_, ?_⟩
      · intro hk
        have hk' : ¬ k ≥ 0 := by omega
        simp only [IsErrorAs, hf, hsome, hk', if_false]
      · intro hk hlen
        simp only [IsErrorAs, hf, hsome, hk, ge_iff_le, if_true, hlen]
      · intro hk hlen
        have hlen' : ¬ ((typeArgsOf callee).length : Int) ≤ k := by omega
        have hlt : k.toNat < (typeArgsOf callee).length := by omega
        refine ⟨(typeArgsOf callee)[k.toNat], List.getElem?_eq_getElem hlt, ?_⟩
        simp only [IsErrorAs, hf, hsome, hk, ge_iff_le, if_true, hlen', if_false,
          List.getElem?_eq_getElem hlt]

theorem IsErrorAs_spec_witness :
    IsErrorAs testifyInfo sampleFuncNameOf (.SelectorExpr (.Ident "assert") "ErrorAs")
      = (some funcErrorAs, none, 2) ∧
    IsErrorAs testifyInfo sampleFuncNameOf (.SelectorExpr exprAssertions "ErrorAs")
      = (some methodErrorAs, none, 2) ∧
    IsErrorAs testifyInfo sampleFuncNameOf (.Ident "a") = (none, none, -1) := by
  refine ⟨?_, ?_, ?_⟩
  · obtain ⟨f, hf, _, h⟩ := (IsErrorAs_spec testifyInfo sampleFuncNameOf
      (.SelectorExpr (.Ident "assert") "ErrorAs")).2 (by decide)
    have hf' : f = funcErrorAs := by
      have : (FuncOf testifyInfo (.SelectorExpr (.Ident "assert") "ErrorAs")).1
          = some funcErrorAs := by decide
      rw [this] at hf
      exact (Option.some.inj hf).symm
    subst hf'
    exact (h 2 (-1) (by decide)).1 (by decide)
  · obtain ⟨f, hf, _, h⟩ := (IsErrorAs_spec testifyInfo sampleFuncNameOf
      (.SelectorExpr exprAssertions "ErrorAs")).2 (by decide)
    have hf' : f = methodErrorAs := by
      have : (FuncOf testifyInfo (.SelectorExpr exprAssertions "ErrorAs")).1
          = some methodErrorAs := by decide
      rw [this] at hf
      exact (Option.some.inj hf).symm
    subst hf'
    exact (h 1 (-1) (by decide)).1 (by decide)
  · exact (IsErrorAs_spec testifyInfo sampleFuncNameOf (.Ident "a")).1 (by decide)

end typeutil

namespace analyze

/-- On the sample body a consumer that never stops is given the return
statements at 1, 3 and 5, and one that stops at 3 those at 1 and 3. -/
theorem AllReturns_sampleBody :
    AllReturns sampleBody (collectUntil 0) [] = [1, 3, 5] ∧
    AllReturns sampleBody (collectUntil 3) [] = [1, 3] := by
  decide

end analyze

namespace detect

open types errortypes

/-- `processOverrides` runs the loop body over the entries given for the path
of the current package, and leaves the property map alone when there are
none. -/
theorem processOverrides_eq_foldl (p : pass) (scope : String → Option Object)
    (lookup : GoType → String → Option Object)
    (overrides : List (String × List (String × ErrorType))) :
    (∀ entries, gomap.get? overrides p.Pkg.Path = some entries →
      (p.processOverrides scope lookup overrides).PropertyMap
        = entries.foldl (processOverrides.step p scope lookup) p.PropertyMap) ∧
    (gomap.get? overrides p.Pkg.Path = none →
      (p.processOverrides scope lookup overrides).PropertyMap = p.PropertyMap) := by
  constructor
  · intro entries h
    simp [pass.processOverrides, h]
  · intro h
    simp [pass.processOverrides, h]

end detect

/-! ## Overrides of the current package -/

namespace errortypes

open types

/-- The entry that `AddTypeProperty` leaves for a key depends only on the entry
the key had. -/
theorem AddTypeProperty_get_congr (m1 m2 : PropertyMap) (tn k : TypeName) (c : Nat)
    (h : m1.GetTypeProperty k = m2.GetTypeProperty k) :
    (m1.AddTypeProperty tn c).1.GetTypeProperty k
      = (m2.AddTypeProperty tn c).1.GetTypeProperty k := by
  by_cases hk : k = tn
  · subst hk
    apply Prod.ext
    · rw [AddTypeProperty_get_same, AddTypeProperty_get_same, h]
    · rw [AddTypeProperty_present, AddTypeProperty_present]
  · rw [AddTypeProperty_get_ne _ _ _ _ hk, AddTypeProperty_get_ne _ _ _ _ hk, h]

end errortypes

namespace detect

open types errortypes

/-- The entry that a step of `processOverrides` leaves for a key depends only
on the entry the key had. -/
theorem processOverrides_step_congr (p : pass) (scope : String → Option Object)
    (lookup : GoType → String → Option Object) (m1 m2 : PropertyMap)
    (x : String × ErrorType) (k : TypeName)
    (h : m1.GetTypeProperty k = m2.GetTypeProperty k) :
    (processOverrides.step p scope lookup m1 x).GetTypeProperty k
      = (processOverrides.step p scope lookup m2 x).GetTypeProperty k := by
  unfold processOverrides.step
  split
  · split
    · split_ifs
      · exact h
      · exact AddTypeProperty_get_congr _ _ _ _ _ h
    · split_ifs
      · exact h
      · exact AddTypeProperty_get_congr _ _ _ _ _ h
    · exact AddTypeProperty_get_congr _ _ _ _ _ h
    · exact h
  · exact h

/-- A step of `processOverrides` changes at most the entry of the type name its
entry resolves to. -/
theorem processOverrides_step_get_other (p : pass) (scope : String → Option Object)
    (lookup : GoType → String → Option Object) (m : PropertyMap)
    (x : String × ErrorType) (k : TypeName)
    (h : ∀ tn, scope x.1 = some (.TypeName tn) → k ≠ tn) :
    (processOverrides.step p scope lookup m x).GetTypeProperty k = m.GetTypeProperty k := by
  unfold processOverrides.step
  split
  · rename_i tn heq
    have hk := h tn heq
    split
    · split_ifs
      · rfl
      · exact AddTypeProperty_get_ne _ _ _ _ hk
    · split_ifs
      · rfl
      · exact AddTypeProperty_get_ne _ _ _ _ hk
    · exact AddTypeProperty_get_ne _ _ _ _ hk
    · rfl
  · rfl

theorem processOverrides_foldl_congr (p : pass) (scope : String → Option Object)
    (lookup : GoType → String → Option Object) (l : List (String × ErrorType)) (k : TypeName) :
    ∀ m1 m2 : PropertyMap, m1.GetTypeProperty k = m2.GetTypeProperty k →
      (l.foldl (processOverrides.step p scope lookup) m1).GetTypeProperty k
        = (l.foldl (processOverrides.step p scope lookup) m2).GetTypeProperty k := by
  induction l with
  | nil => intro m1 m2 h; exact h
  | cons x rest ih =>
    intro m1 m2 h
    simp only [List.foldl_cons]
    exact ih _ _ (processOverrides_step_congr p scope lookup m1 m2 x k h)

/-- Entries with other names leave the entry of a type name alone, a name
resolving to the type name of that name only. -/
theorem processOverrides_foldl_get_other (p : pass) (scope : String → Option Object)
    (lookup : GoType → String → Option Object)
    (hscope : ∀ n tn, scope n = some (.TypeName tn) → tn.Name = n)
    (l : List (String × ErrorType)) (k : TypeName) (hl : k.Name ∉ l.map Prod.fst) :
    ∀ m : PropertyMap,
      (l.foldl (processOverrides.step p scope lookup) m).GetTypeProperty k
        = m.GetTypeProperty k := by
  induction l with
  | nil => intro m; rfl
  | cons x rest ih =>
    intro m
    simp only [List.map_cons, List.mem_cons, not_or] at hl
    simp only [List.foldl_cons]
    rw [ih hl.2]
    apply processOverrides_step_get_other
    intro tn htn hk
    subst hk
    exact hl.1 (hscope _ _ htn)

/-- The property map after `processOverrides`, by the entries given for the
current package before and after one of them. -/
theorem processOverrides_split (p : pass) (scope : String → Option Object)
    (lookup : GoType → String → Option Object)
    (overrides : List (String × List (String × ErrorType)))
    (pre post : List (String × ErrorType)) (e : String × ErrorType)
    (hget : gomap.get? overrides p.Pkg.Path = some (pre ++ e :: post)) :
    (p.processOverrides scope lookup overrides).PropertyMap
      = post.foldl (processOverrides.step p scope lookup)
          (processOverrides.step p scope lookup
            (pre.foldl (processOverrides.step p scope lookup) p.PropertyMap) e) ∧
    (p.processOverrides scope lookup
        (gomap.set overrides p.Pkg.Path (pre ++ post))).PropertyMap
      = post.foldl (processOverrides.step p scope lookup)
          (pre.foldl (processOverrides.step p scope lookup) p.PropertyMap) := by
  constructor
  · simp [pass.processOverrides, hget, List.foldl_append]
  · simp [pass.processOverrides, gomap.get?_set_same, List.foldl_append]

/-- An entry whose step adds one flag to the entry of `tn`: after
`processOverrides` the entry of `tn` is its old property with the flag, and
every other entry is what it is without the entry. -/
theorem processOverrides_accepted (p : pass) (scope : String → Option Object)
    (lookup : GoType → String → Option Object)
    (overrides : List (String × List (String × ErrorType)))
    (pre post : List (String × ErrorType)) (name : String) (usage : ErrorType)
    (hget : gomap.get? overrides p.Pkg.Path = some (pre ++ (name, usage) :: post))
    (hnodup : ((pre ++ (name, usage) :: post).map Prod.fst).Nodup)
    (hscope : ∀ n tn, scope n = some (.TypeName tn) → tn.Name = n)
    (tn : TypeName) (htn : scope name = some (.TypeName tn)) (i : Nat)
    (hstep : ∀ m, (processOverrides.step p scope lookup m (name, usage)).GetTypeProperty tn
        = ((m.GetTypeProperty tn).1 ||| 2 ^ i, true) ∧
      ∀ tn', tn' ≠ tn →
        (processOverrides.step p scope lookup m (name, usage)).GetTypeProperty tn'
          = m.GetTypeProperty tn') :
    (p.processOverrides scope lookup overrides).PropertyMap.GetTypeProperty tn
      = ((p.PropertyMap.GetTypeProperty tn).1 ||| 2 ^ i, true) ∧
    ∀ tn', tn' ≠ tn →
      (p.processOverrides scope lookup overrides).PropertyMap.GetTypeProperty tn'
        = (p.processOverrides scope lookup
            (gomap.set overrides p.Pkg.Path (pre ++ post))).PropertyMap.GetTypeProperty tn' := by
  obtain ⟨hF, hW⟩ := processOverrides_split p scope lookup overrides pre post (name, usage) hget
  rw [hF, hW]
  have hname : tn.Name = name := hscope _ _ htn
  simp only [List.map_append, List.map_cons] at hnodup
  have hnot := (List.nodup_cons.1 (List.nodup_middle.1 hnodup)).1
  simp only [List.mem_append, not_or] at hnot
  constructor
  · rw [processOverrides_foldl_get_other p scope lookup hscope post tn (by rw [hname]; exact hnot.2),
      (hstep _).1,
      processOverrides_foldl_get_other p scope lookup hscope pre tn (by rw [hname]; exact hnot.1)]
  · intro tn' hne
    apply processOverrides_foldl_congr
    exact (hstep _).2 tn' hne

/-- C21: an override entry `name, usage` among the entries given for the path of
the current package (the names of the entries are distinct, and a name resolves
to the type name of that name only). When the name is no type name of the
package scope, when the decision is Pointer and `*T` has no `Error() string`
method, or when the decision is Value and `T` has none, `processOverrides`
leaves the property map it would leave without the entry. Otherwise the entry
of `T` after `processOverrides` is its old property with the one matching
override flag, and every other entry is what it is without the entry. -/
theorem processOverrides_entry (p : pass) (scope : String → Option Object)
    (lookup : GoType → String → Option Object)
    (overrides : List (String × List (String × ErrorType)))
    (pre post : List (String × ErrorType)) (name : String) (usage : ErrorType)
    (hget : gomap.get? overrides p.Pkg.Path = some (pre ++ (name, usage) :: post))
    (hnodup : ((pre ++ (name, usage) :: post).map Prod.fst).Nodup)
    (hscope : ∀ n tn, scope n = some (.TypeName tn) → tn.Name = n) :
    ((∀ tn, scope name ≠ some (.TypeName tn)) →
      (p.processOverrides scope lookup overrides).PropertyMap
        = (p.processOverrides scope lookup
            (gomap.set overrides p.Pkg.Path (pre ++ post))).PropertyMap) ∧
    (∀ tn, scope name = some (.TypeName tn) →
      (usage = .PointerType → typeutil.HasErrorMethod lookup (.Pointer (p.TypeOf tn)) = false →
        (p.processOverrides scope lookup overrides).PropertyMap
          = (p.processOverrides scope lookup
              (gomap.set overrides p.Pkg.Path (pre ++ post))).PropertyMap) ∧
      (usage = .ValueType → typeutil.HasErrorMethod lookup (p.TypeOf tn) = false →
        (p.processOverrides scope lookup overrides).PropertyMap
          = (p.processOverrides scope lookup
              (gomap.set overrides p.Pkg.Path (pre ++ post))).PropertyMap) ∧
      (usage = .PointerType → typeutil.HasErrorMethod lookup (.Pointer (p.TypeOf tn)) = true →
        (p.processOverrides scope lookup overrides).PropertyMap.GetTypeProperty tn
          = ((p.PropertyMap.GetTypeProperty tn).1 ||| PointerOverride, true) ∧
        ∀ tn', tn' ≠ tn →
          (p.processOverrides scope lookup overrides).PropertyMap.GetTypeProperty tn'
            = (p.processOverrides scope lookup
                (gomap.set overrides p.Pkg.Path (pre ++ post))).PropertyMap.GetTypeProperty tn') ∧
      (usage = .ValueType → typeutil.HasErrorMethod lookup (p.TypeOf tn) = true →
        (p.processOverrides scope lookup overrides).PropertyMap.GetTypeProperty tn
          = ((p.PropertyMap.GetTypeProperty tn).1 ||| ValueOverride, true) ∧
        ∀ tn', tn' ≠ tn →
          (p.processOverrides scope lookup overrides).PropertyMap.GetTypeProperty tn'
            = (p.processOverrides scope lookup
                (gomap.set overrides p.Pkg.Path (pre ++ post))).PropertyMap.GetTypeProperty tn') ∧
      (usage = .SuppressType →
        (p.processOverrides scope lookup overrides).PropertyMap.GetTypeProperty tn
          = ((p.PropertyMap.GetTypeProperty tn).1 ||| SuppressOverride, true) ∧
        ∀ tn', tn' ≠ tn →
          (p.processOverrides scope lookup overrides).PropertyMap.GetTypeProperty tn'
            = (p.processOverrides scope lookup
                (gomap.set overrides p.Pkg.Path (pre ++ post))).PropertyMap.GetTypeProperty tn')) := by
  obtain ⟨hF, hW⟩ := processOverrides_split p scope lookup overrides pre post (name, usage) hget
  have hrej : (∀ m, processOverrides.step p scope lookup m (name, usage) = m) →
      (p.processOverrides scope lookup overrides).PropertyMap
        = (p.processOverrides scope lookup
            (gomap.set overrides p.Pkg.Path (pre ++ post))).PropertyMap := by
    intro h
    rw [hF, hW, h]
  constructor
  · intro hno
    exact hrej (fun m => (processOverrides_step_entry p scope lookup m name usage).1 hno)
  · intro tn htn
    refine ⟨?_, ?_, ?_, ?_, ?_⟩
    · intro hu hE
      exact hrej (fun m =>
        ((processOverrides_step_entry p scope lookup m name usage).2 tn htn).1 hu hE)
    · intro hu hE
      exact hrej (fun m =>
        ((processOverrides_step_entry p scope lookup m name usage).2 tn htn).2.1 hu hE)
    · intro hu hE
      exact processOverrides_accepted p scope lookup overrides pre post name usage hget hnodup
        hscope tn htn 2 (fun m =>
          ((processOverrides_step_entry p scope lookup m name usage).2 tn htn).2.2.1 hu hE)
    · intro hu hE
      exact processOverrides_accepted p scope lookup overrides pre post name usage hget hnodup
        hscope tn htn 3 (fun m =>
          ((processOverrides_step_entry p scope lookup m name usage).2 tn htn).2.2.2.1 hu hE)
    · intro hu
      exact processOverrides_accepted p scope lookup overrides pre post name usage hget hnodup
        hscope tn htn 1 (fun m =>
          ((processOverrides_step_entry p scope lookup m name usage).2 tn htn).2.2.2.2 hu)

theorem sampleScope_names (n : String) (tn : TypeName)
    (h : sampleScope n = some (.TypeName tn)) : tn.Name = n := by
  unfold sampleScope at h
  split_ifs at h with h1 h2 h3 h4
  · cases h; exact h1.symm
  · cases h; exact h2.symm
  · cases h; exact h3.symm
  · cases h

/-- Witness for C21 on the sample package: the value override of the alias
`MyAlias` is accepted and adds `ValueOverride` to its `NonStruct`; the value
override of `PtrErr`, whose method has a pointer receiver, and the override of
the function name `New` change nothing. -/
theorem processOverrides_entry_witness :
    (aliasPass.processOverrides sampleScope sampleLookup sampleOverrides).PropertyMap.GetTypeProperty
        tnMyAlias
      = ((aliasPass.PropertyMap.GetTypeProperty tnMyAlias).1 ||| ValueOverride, true) ∧
    (aliasPass.processOverrides sampleScope sampleLookup sampleOverrides).PropertyMap
      = (aliasPass.processOverrides sampleScope sampleLookup
          (gomap.set sampleOverrides aliasPass.Pkg.Path
            ([("MyErr", .ValueType)] ++ [("New", .SuppressType), ("MyAlias", .ValueType)]))).PropertyMap ∧
    (aliasPass.processOverrides sampleScope sampleLookup sampleOverrides).PropertyMap
      = (aliasPass.processOverrides sampleScope sampleLookup
          (gomap.set sampleOverrides aliasPass.Pkg.Path
            ([("MyErr", .ValueType), ("PtrErr", .ValueType)] ++ [("MyAlias", .ValueType)]))).PropertyMap :=
  ⟨(((processOverrides_entry aliasPass sampleScope sampleLookup sampleOverrides
        [("MyErr", .ValueType), ("PtrErr", .ValueType), ("New", .SuppressType)] []
        "MyAlias" .ValueType (by decide) (by decide) sampleScope_names).2
      tnMyAlias (by decide)).2.2.2.1 rfl (by decide)).1,
   ((processOverrides_entry aliasPass sampleScope sampleLookup sampleOverrides
        [("MyErr", .ValueType)] [("New", .SuppressType), ("MyAlias", .ValueType)]
        "PtrErr" .ValueType (by decide) (by decide) sampleScope_names).2
      tnPtrErr (by decide)).2.1 rfl (by decide),
   (processOverrides_entry aliasPass sampleScope sampleLookup sampleOverrides
        [("MyErr", .ValueType), ("PtrErr", .ValueType)] [("MyAlias", .ValueType)]
        "New" .SuppressType (by decide) (by decide) sampleScope_names).1
      (by intro tn; simp [sampleScope])⟩

end detect

/-! ## Aliases with evidence of their own -/

namespace detect

open types errortypes

theorem clearFlags_and_mask (q mask : Nat) : clearFlags q mask &&& mask = 0 := by
  unfold clearFlags
  apply Nat.eq_of_testBit_eq
  intro k
  simp only [Nat.testBit_and, Nat.testBit_xor, Nat.zero_testBit]
  cases q.testBit k <;> cases mask.testBit k <;> rfl

theorem or_and_self_right (v c : Nat) : (v ||| c) &&& c = c := by
  apply Nat.eq_of_testBit_eq
  intro k
  simp only [Nat.testBit_and, Nat.testBit_or]
  cases v.testBit k <;> cases c.testBit k <;> rfl

theorem or_of_and_eq (a c : Nat) (h : a &&& c = c) : a ||| c = a := by
  apply Nat.eq_of_testBit_eq
  intro k
  have hk := congrArg (fun x => x.testBit k) h
  simp only [Nat.testBit_and] at hk
  simp only [Nat.testBit_or]
  cases ha : a.testBit k <;> cases hc : c.testBit k <;> simp_all

theorem addedTo_idem (c v : Nat) : addedTo c (addedTo c v) = addedTo c v := by
  unfold addedTo
  by_cases h : v &&& c = 0
  · simp only [h, if_true, or_and_self_right]
    by_cases hc : c = 0
    · subst hc
      simp
    · simp [hc]
  · simp [h]

theorem addedTo_of_clean (c v : Nat) (h : v &&& c = 0 ∨ v &&& c = c) : addedTo c v = v ||| c := by
  unfold addedTo
  by_cases h0 : v &&& c = 0
  · simp [h0]
  · rcases h with h | h
    · exact absurd h h0
    · simp only [h0, if_false]
      exact (or_of_and_eq v c h).symm

theorem addedTo_and_mask (c v mask : Nat) (h : c &&& mask = 0) :
    addedTo c v &&& mask = v &&& mask := by
  unfold addedTo
  split_ifs
  · exact or_and_mask v c mask h
  · rfl

theorem addedTo_testBit (c v i : Nat) (h : v.testBit i = true) :
    (addedTo c v).testBit i = true := by
  unfold addedTo
  split_ifs
  · simp [Nat.testBit_or, h]
  · exact h

/-- The loop of `processAliases` on an alias, when every step at the alias adds
the same property `c`: afterwards the alias has what `AddTypeProperty` stores
for `c` on its own property. -/
theorem foldl_step_alias_own (p : pass) (a : TypeName) (c : Nat) (J : PropertyMap → Prop)
    (hJ : ∀ m x, J m → J (processAliases.step p m x))
    (hS : ∀ m, J m → processAliases.step p m a = (m.AddTypeProperty a c).1)
    (v : Nat) (ks : List TypeName) (m : PropertyMap) (hm : J m) :
    ((m.GetTypeProperty a).1 = addedTo c v →
      ((ks.foldl (processAliases.step p) m).GetTypeProperty a).1 = addedTo c v) ∧
    ((m.GetTypeProperty a).1 = v → a ∈ ks →
      ((ks.foldl (processAliases.step p) m).GetTypeProperty a).1 = addedTo c v) := by
  have hstep : ∀ m, J m → ∀ w, (m.GetTypeProperty a).1 = w →
      ((processAliases.step p m a).GetTypeProperty a).1 = addedTo c w := by
    intro m hm w hw
    rw [hS m hm, AddTypeProperty_get_same, hw]
    rfl
  induction ks generalizing m with
  | nil =>
    exact ⟨fun h => h, fun _ h => absurd h (List.not_mem_nil _)⟩
  | cons x rest ih =>
    have hm' := hJ m x hm
    obtain ⟨ih1, ih2⟩ := ih (processAliases.step p m x) hm'
    simp only [List.foldl_cons]
    by_cases hx : x = a
    · subst hx
      refine ⟨fun h => ih1 ?_, fun h _ => ih1 (hstep m hm v h)⟩
      rw [hstep m hm _ h, addedTo_idem]
    · have hsame := step_get_ne p m x a (Ne.symm hx)
      refine ⟨fun h => ih1 (by rw [hsame]; exact h), fun h hmem => ih2 (by rw [hsame]; exact h) ?_⟩
      rcases List.mem_cons.mp hmem with h1 | h1
      · exact absurd h1.symm hx
      · exact h1

theorem and_flag_cases (v i : Nat) : v &&& 2 ^ i = 0 ∨ v &&& 2 ^ i = 2 ^ i := by
  rw [Nat.and_two_pow]
  cases v.testBit i <;> simp

/-- What `processAliases` leaves for an alias of a named type of the current
package: what `AddTypeProperty` stores for the property of the target without
its override flags; the entry of the target is as before. -/
theorem processAliases_alias_current (p : pass) (a orig : TypeName) (u : GoType) (q : Nat)
    (hin : (p.PropertyMap.GetTypeProperty a).2 = true)
    (halias : p.IsAlias a = true)
    (htarget : Unalias (p.TypeOf a) = .Named orig u)
    (horig : p.IsAlias orig = false)
    (hpkg : orig.Pkg = some p.Pkg)
    (hq : p.PropertyMap.GetTypeProperty orig = (q, true)) :
    (p.processAliases.PropertyMap.GetTypeProperty a).1
      = addedTo (clearFlags q OverrideMask) (p.PropertyMap.GetTypeProperty a).1 ∧
    p.processAliases.PropertyMap.GetTypeProperty orig = (q, true) := by
  have hmem : a ∈ p.PropertyMap.map Prod.fst := mem_keys_of_get _ _ hin
  constructor
  · exact (foldl_step_alias_own p a (clearFlags q OverrideMask)
      (fun m => m.GetTypeProperty orig = (q, true))
      (by
        intro m x hm
        by_cases hx : x = orig
        · subst hx
          rw [step_nonalias p m x horig]
          exact hm
        · rw [step_get_ne p m x orig (Ne.symm hx)]
          exact hm)
      (by
        intro m hm
        unfold processAliases.step
        simp only [halias, htarget, hpkg, hm, Bool.not_true, Bool.false_eq_true, if_false,
          if_true])
      (p.PropertyMap.GetTypeProperty a).1 (p.PropertyMap.map Prod.fst) p.PropertyMap hq).2
      rfl hmem
  · unfold pass.processAliases
    simp only
    rw [foldl_step_get_nonalias p _ _ orig horig, hq]

/-- What `processAliases` leaves for an alias of a named type of another package
with the imported fact Pointer or Value: its own property with the alias flag
of the fact. -/
theorem processAliases_alias_imported (p : pass) (a orig : TypeName) (u : GoType)
    (d : ErrorType) (i : Nat)
    (hin : (p.PropertyMap.GetTypeProperty a).2 = true)
    (halias : p.IsAlias a = true)
    (htarget : Unalias (p.TypeOf a) = .Named orig u)
    (hpkg : orig.Pkg ≠ some p.Pkg)
    (hfact : p.ImportObjectFact orig = some d)
    (hd : (d = ErrorType.PointerType ∧ i = 6) ∨ (d = ErrorType.ValueType ∧ i = 7)) :
    (p.processAliases.PropertyMap.GetTypeProperty a).1
      = (p.PropertyMap.GetTypeProperty a).1 ||| 2 ^ i := by
  have hmem : a ∈ p.PropertyMap.map Prod.fst := mem_keys_of_get _ _ hin
  have h := (foldl_step_alias_own p a (2 ^ i) (fun _ => True)
      (fun _ _ _ => trivial)
      (by
        intro m _
        unfold processAliases.step
        rcases hd with ⟨hd1, hd2⟩ | ⟨hd1, hd2⟩
        · subst hd1 hd2
          simp only [halias, htarget, hpkg, hfact, Bool.not_true, Bool.false_eq_true, if_false]
          rfl
        · subst hd1 hd2
          simp only [halias, htarget, hpkg, hfact, Bool.not_true, Bool.false_eq_true, if_false]
          rfl)
      (p.PropertyMap.GetTypeProperty a).1 (p.PropertyMap.map Prod.fst) p.PropertyMap trivial).2
      rfl hmem
  rw [addedTo_of_clean _ _ (and_flag_cases _ i)] at h
  exact h

theorem DeterminedType_of_receiver (e : ErrorProperty)
    (h0 : e.testBit 0 = true) (h1 : e.testBit 1 = false) :
    DeterminedType e = ErrorType.PointerType := by
  rw [DeterminedType_eq_bits]
  simp [bitsDeterminedType, h0, h1]

theorem testBit_of_and_rank (v i : Nat) (h : v &&& aliasRankMask = 0) (hi : i < 8) :
    v.testBit i = false := by
  have hk := congrArg (fun x => x.testBit i) h
  simp only [Nat.testBit_and, Nat.zero_testBit] at hk
  have hm : aliasRankMask.testBit i = true := by
    have : aliasRankMask = 255 := by decide
    rw [this]
    interval_cases i <;> decide
  rw [hm] at hk
  simpa using hk

theorem DeterminedType_or_alias (v : ErrorProperty) (h : v &&& aliasRankMask = 0) :
    DeterminedType (v ||| 2 ^ 6) = ErrorType.PointerType ∧
    DeterminedType (v ||| 2 ^ 7) = ErrorType.ValueType := by
  have b := fun i hi => testBit_of_and_rank v i h hi
  have hp : ∀ i, i < 6 → (v ||| 2 ^ 6).testBit i = false := by
    intro i hi
    rw [Nat.testBit_or, b i (by omega), Nat.testBit_two_pow]
    simp
    omega
  have hv : ∀ i, i < 6 → (v ||| 2 ^ 7).testBit i = false := by
    intro i hi
    rw [Nat.testBit_or, b i (by omega), Nat.testBit_two_pow]
    simp
    omega
  have hp6 : (v ||| 2 ^ 6).testBit 6 = true := by
    rw [Nat.testBit_or, Nat.testBit_two_pow]
    simp
  have hp7 : (v ||| 2 ^ 6).testBit 7 = false := by
    rw [Nat.testBit_or, b 7 (by omega), Nat.testBit_two_pow]
    simp
  have hv6 : (v ||| 2 ^ 7).testBit 6 = false := by
    rw [Nat.testBit_or, b 6 (by omega), Nat.testBit_two_pow]
    simp
  have hv7 : (v ||| 2 ^ 7).testBit 7 = true := by
    rw [Nat.testBit_or, Nat.testBit_two_pow]
    simp
  constructor
  · rw [DeterminedType_eq_bits]
    generalize (v ||| 2 ^ 6).testBit = bf at hp hp6 hp7
    simp [bitsDeterminedType, bitsLoop, pairBits, hp 0, hp 1, hp 2, hp 3, hp 4, hp 5, hp6, hp7]
  · rw [DeterminedType_eq_bits]
    generalize (v ||| 2 ^ 7).testBit = bf at hv hv6 hv7
    simp [bitsDeterminedType, bitsLoop, pairBits, hv 0, hv 1, hv 2, hv 3, hv 4, hv 5, hv6, hv7]

/-- C20, as stated, fails. `AliasOverridden = Overridden`, where `Overridden` has a
value override and is returned as a pointer: after `processAliases` the alias
is a pointer type and its target a value type, the override flags not being
copied. `OwnAlias = OwnErr`, where the alias has a pointer variable of its own
and the target a value variable: the alias is undecided and its target a value
type. `MyAlias = MyErr`, where alias and target share the flag `NonStruct`:
the value variable of the target is not copied, the alias is undecided and its
target a value type. -/
theorem alias_of_overridden_differs :
    (DeterminedType (samplePass.processAliases.PropertyMap.GetTypeProperty tnAliasOverridden).1
        = ErrorType.PointerType ∧
      DeterminedType (samplePass.processAliases.PropertyMap.GetTypeProperty tnOverridden).1
        = ErrorType.ValueType) ∧
    (DeterminedType (ownPass.processAliases.PropertyMap.GetTypeProperty tnOwnAlias).1
        = ErrorType.Undecided ∧
      DeterminedType (ownPass.processAliases.PropertyMap.GetTypeProperty tnOwnErr).1
        = ErrorType.ValueType) ∧
    (DeterminedType (aliasPass.processAliases.PropertyMap.GetTypeProperty tnMyAlias).1
        = ErrorType.Undecided ∧
      DeterminedType (aliasPass.processAliases.PropertyMap.GetTypeProperty tnMyErr).1
        = ErrorType.ValueType) := by
  decide

/-- C20, amended: after `processAliases`, for an alias in the property map whose
fully resolved target, through an alias chain of any depth, is a named type.
For a target of the current package with property `q`: the override flags of
the alias are those it had before, none is copied; when the property of the
alias shares no flag with `q` without its override flags, or holds all of them,
the alias gets the OR of its property and of `q` without its override flags,
and then it has the `DeterminedType` of its target if the target has no override
flag and the alias had no flag that the target lacks; and an alias that, like
its target, has `PointerReceiver` and not `SuppressOverride` has the
`DeterminedType` of its target. For a target of another package with the
imported fact Pointer or Value: the alias gets the OR of its property and the
alias flag of the fact, and has that decision if it had no flag of a category
that ranks at or above the alias flags. -/
theorem processAliases_transitive (p : pass) (a orig : TypeName) (u : GoType)
    (hin : (p.PropertyMap.GetTypeProperty a).2 = true)
    (halias : p.IsAlias a = true)
    (htarget : Unalias (p.TypeOf a) = .Named orig u)
    (horig : p.IsAlias orig = false) :
    (orig.Pkg = some p.Pkg → ∀ q, p.PropertyMap.GetTypeProperty orig = (q, true) →
      (p.processAliases.PropertyMap.GetTypeProperty a).1 &&& OverrideMask
        = (p.PropertyMap.GetTypeProperty a).1 &&& OverrideMask ∧
      (((p.PropertyMap.GetTypeProperty a).1 &&& clearFlags q OverrideMask = 0 ∨
          (p.PropertyMap.GetTypeProperty a).1 &&& clearFlags q OverrideMask
            = clearFlags q OverrideMask) →
        (p.processAliases.PropertyMap.GetTypeProperty a).1
          = (p.PropertyMap.GetTypeProperty a).1 ||| clearFlags q OverrideMask ∧
        (q &&& OverrideMask = 0 → (p.PropertyMap.GetTypeProperty a).1 ||| q = q →
          DeterminedType (p.processAliases.PropertyMap.GetTypeProperty a).1
            = DeterminedType (p.processAliases.PropertyMap.GetTypeProperty orig).1)) ∧
      (isSet (p.PropertyMap.GetTypeProperty a).1 PointerReceiver →
        ¬ isSet (p.PropertyMap.GetTypeProperty a).1 SuppressOverride →
        isSet q PointerReceiver → ¬ isSet q SuppressOverride →
        DeterminedType (p.processAliases.PropertyMap.GetTypeProperty a).1
          = DeterminedType (p.processAliases.PropertyMap.GetTypeProperty orig).1)) ∧
    (orig.Pkg ≠ some p.Pkg → ∀ d, p.ImportObjectFact orig = some d →
      (d = ErrorType.PointerType ∨ d = ErrorType.ValueType) →
      (p.processAliases.PropertyMap.GetTypeProperty a).1
        = (p.PropertyMap.GetTypeProperty a).1 |||
            (if d = ErrorType.PointerType then PointerAlias else ValueAlias) ∧
      ((p.PropertyMap.GetTypeProperty a).1 &&& aliasRankMask = 0 →
        DeterminedType (p.processAliases.PropertyMap.GetTypeProperty a).1 = d)) := by
  constructor
  · intro hpkg q hq
    obtain ⟨ha, ho⟩ := processAliases_alias_current p a orig u q hin halias htarget horig hpkg hq
    rw [ha, ho]
    refine ⟨addedTo_and_mask _ _ _ (clearFlags_and_mask q OverrideMask), ?_, ?_⟩
    · intro hov
      rw [addedTo_of_clean _ _ hov]
      refine ⟨rfl, ?_⟩
      intro hmask hsub
      rw [clearFlags_of_disjoint q OverrideMask hmask, hsub]
    · intro hr hs hqr hqs
      have hr' : (p.PropertyMap.GetTypeProperty a).1.testBit 0 = true :=
        (isSet_two_pow _ 0).1 hr
      have hs' : (p.PropertyMap.GetTypeProperty a).1 &&& 2 ^ 1 = 0 := by
        by_contra hne
        exact hs hne
      have hqr' : q.testBit 0 = true := (isSet_two_pow _ 0).1 hqr
      have hqs' : q.testBit 1 = false := by
        have : q &&& 2 ^ 1 = 0 := by
          by_contra hne
          exact hqs hne
        exact (and_flag_eq_zero q 1).1 this
      have hc : clearFlags q OverrideMask &&& 2 ^ 1 = 0 := by
        have h0 := clearFlags_and_mask q OverrideMask
        apply Nat.eq_of_testBit_eq
        intro k
        have hk := congrArg (fun x => x.testBit k) h0
        simp only [Nat.testBit_and, Nat.zero_testBit, Nat.testBit_two_pow] at hk ⊢
        by_cases hk1 : 1 = k
        · subst hk1
          have hm : OverrideMask.testBit 1 = true := by decide
          rw [hm] at hk
          simpa using hk
        · simp [hk1]
      have h1 : (addedTo (clearFlags q OverrideMask) (p.PropertyMap.GetTypeProperty a).1).testBit 1
          = false := by
        apply (and_flag_eq_zero _ 1).1
        rw [addedTo_and_mask _ _ _ hc]
        exact hs'
      rw [DeterminedType_of_receiver _ (addedTo_testBit _ _ 0 hr') h1,
        DeterminedType_of_receiver q hqr' hqs']
  · intro hpkg d hfact hd
    rcases hd with rfl | rfl
    · have ha := processAliases_alias_imported p a orig u _ 6 hin halias htarget hpkg hfact
        (Or.inl ⟨rfl, rfl⟩)
      rw [ha]
      exact ⟨rfl, fun h0 => (DeterminedType_or_alias _ h0).1⟩
    · have ha := processAliases_alias_imported p a orig u _ 7 hin halias htarget hpkg hfact
        (Or.inr ⟨rfl, rfl⟩)
      rw [ha]
      exact ⟨rfl, fun h0 => (DeterminedType_or_alias _ h0).2⟩

/-- Witness for amended C20: `AliasOverridden = Overridden` gets the pointer
return of its target and not its value override; `Alias2 = Alias1 = Returned`
in the current package, a chain of depth 2, has the decision of `Returned`;
`Alias = c.Alias = c.ValueDefault`, a chain into another package, has the
decision of the imported fact. -/
theorem processAliases_transitive_witness :
    (samplePass.processAliases.PropertyMap.GetTypeProperty tnAliasOverridden).1
      = (samplePass.PropertyMap.GetTypeProperty tnAliasOverridden).1 |||
          clearFlags (ValueOverride ||| PointerReturn) OverrideMask ∧
    DeterminedType (samplePass.processAliases.PropertyMap.GetTypeProperty tnAlias2).1
      = DeterminedType (samplePass.processAliases.PropertyMap.GetTypeProperty tnReturned).1 ∧
    DeterminedType (samplePass.processAliases.PropertyMap.GetTypeProperty tnAlias).1
      = ErrorType.ValueType :=
  ⟨((((processAliases_transitive samplePass tnAliasOverridden tnOverridden .Struct
      (by decide) (by decide) (by decide) (by decide)).1 (by decide)
      (ValueOverride ||| PointerReturn) (by decide)).2.1) (by decide)).1,
   ((((processAliases_transitive samplePass tnAlias2 tnReturned .Struct
      (by decide) (by decide) (by decide) (by decide)).1 (by decide)
      PointerReturn (by decide)).2.1) (by decide)).2 (by decide) (by decide),
   ((processAliases_transitive samplePass tnAlias tnValueDefault .Struct
      (by decide) (by decide) (by decide) (by decide)).2 (by decide)
      ErrorType.ValueType (by decide) (by decide)).2 (by decide)⟩

end detect

end Errortype
